import Mathlib

/-!
# qbenchstat: noise classification and filtering of benchmark comparison tables

A shallow embedding of `cmd/qbenchstat` (`main.go`, `html.go`, `markdown.go`).

Conventions of the embedding.

* Go `float64` values are embedded as rationals (`ℚ`): the finite values. Comparison,
  negation and `math.Abs` are exact on them. Every float64 addition, subtraction,
  multiplication and division of the source is embedded as the exact operation followed by
  `roundFloat64`, the IEEE 754 rounding to the nearest binary64 value, ties to even, with
  the subnormal range; each operation is rounded on its own (no fused multiply-add). The
  exponent range is not bounded above: an operation that overflows to an infinity in Go,
  and the values NaN and infinity themselves, are outside the embedding. The only divisions
  the embedded code performs are guarded by the source against a zero divisor
  (`calculateMeanDiff`) or divide by the constant 2 (`avgValue` behind the
  `len(metrics) != 2` guard of `isEpsilonDelta`).
* Go slices of pointers (`[]*benchstat.Table`, `[]*benchstat.Row`) are embedded as
  lists of values; every pointer of the input is taken to be distinct, as it is in
  the tables built by `benchstat.Collection.Tables`. In-place mutation becomes a
  function returning the new value, and loops become recursion over the list with
  the loop state passed explicitly.
* Go maps used as sets (`StringSet`, `disabledGeomean`) are embedded as lists of keys
  consulted only through membership.
* A `bytes.Buffer` is embedded as the string written so far; `WriteString` appends. Go
  strings are embedded as Lean strings.
* The in-place compaction `rows[:0]` of the sanitizer and of the severity filter is embedded
  twice: as a list built by appending (`fixRows`, `skipRows`) and at the level of the shared
  backing array (`compactLoop`); the two are proved equal.
-/

namespace QBenchstat

/-! ## Data model -/

/-- Set of strings, the Go type `StringSet` (`map[string]struct{}`), consulted through
membership only. -/
abbrev StringSet := List String

/-- The type `benchstat.Metrics` of the external statistics package, with the fields
the source reads: display unit, raw sample values with outliers removed, and the
minimum, mean and maximum of those values. -/
structure Metrics where
  Unit : String
  RValues : List ℚ
  Min : ℚ
  Mean : ℚ
  Max : ℚ
deriving DecidableEq

/-- Handle of a `benchstat.Scaler`, the external function value a row carries to format
its means. -/
structure Scaler where
  id : Nat
deriving DecidableEq

/-- The type `benchstat.Row` of the external statistics package: benchmark name, group
name, scaler, one `Metrics` per configuration, numeric percent change, formatted percent
change, note, and the change indicator (`+1` better, `-1` worse, `0` unchanged). -/
structure Row where
  Benchmark : String
  Group : String
  Scaler : Scaler
  Metrics : List Metrics
  PctDelta : ℚ
  Delta : String
  Note : String
  Change : Int
deriving DecidableEq

/-- The type `benchstat.Table` of the external statistics package, with the fields the
source reads. -/
structure Table where
  Metric : String
  OldNewDelta : Bool
  Configs : List String
  Rows : List Row
deriving DecidableEq

/-! ## Severity filter (`skipBenchstatTables`, main.go 335-355) -/

/-- Inner loop of `skipBenchstatTables` (main.go 341-349): `acc` is `newTable.Rows`,
to which the retained rows are appended. -/
def skipRows (isBiggerIsBetter : Bool) (failedThreshold : ℚ) : List Row → List Row → List Row
  | acc, [] => acc
  | acc, row :: rest =>
    if isBiggerIsBetter then
      if -row.PctDelta ≥ failedThreshold then
        skipRows isBiggerIsBetter failedThreshold (acc ++ [row]) rest
      else
        skipRows isBiggerIsBetter failedThreshold acc rest
    else if row.PctDelta ≥ failedThreshold then
      skipRows isBiggerIsBetter failedThreshold (acc ++ [row]) rest
    else
      skipRows isBiggerIsBetter failedThreshold acc rest

/-- Outer loop of `skipBenchstatTables` (main.go 337-353): `newTables` accumulates the
copies of the tables that keep at least one row. -/
def skipTables (failedThreshold : ℚ) (increasing : StringSet) : List Table → List Table → List Table
  | newTables, [] => newTables
  | newTables, table :: rest =>
    let isBiggerIsBetter := decide (table.Metric ∈ increasing)
    let newTable : Table :=
      { table with Rows := skipRows isBiggerIsBetter failedThreshold [] table.Rows }
    if newTable.Rows.length > 0 then
      skipTables failedThreshold increasing (newTables ++ [newTable]) rest
    else
      skipTables failedThreshold increasing newTables rest

/-- The function `skipBenchstatTables` (main.go 335-355). -/
def skipBenchstatTables (tables : List Table) (failedThreshold : ℚ) (increasing : StringSet) :
    List Table :=
  skipTables failedThreshold increasing [] tables

/-- A regression of at least `t` percent, in the words of the specification (4.3): for a
bigger-is-better metric the negated percentage delta is at least `t`, for any other metric
the percentage delta is at least `t`. -/
def isRegression (increasing : StringSet) (metric : String) (t : ℚ) (r : Row) : Prop :=
  (metric ∈ increasing ∧ -r.PctDelta ≥ t) ∨ (metric ∉ increasing ∧ r.PctDelta ≥ t)

instance (increasing : StringSet) (metric : String) (t : ℚ) (r : Row) :
    Decidable (isRegression increasing metric t r) := by
  unfold isRegression; infer_instance

/-- The table `skipBenchstatTables` builds for one input table before its emptiness
test, written with `isRegression`. -/
def pruneTable (increasing : StringSet) (t : ℚ) (tb : Table) : Table :=
  { tb with Rows := tb.Rows.filter (fun r => decide (isRegression increasing tb.Metric t r)) }

/-! ## Float64 arithmetic -/

/-- Rounding of a rational to the nearest integer, ties to the even integer. -/
def roundHalfEven (y : ℚ) : ℤ :=
  if y - ⌊y⌋ < 1 / 2 then ⌊y⌋
  else if 1 / 2 < y - ⌊y⌋ then ⌊y⌋ + 1
  else if ⌊y⌋ % 2 = 0 then ⌊y⌋
  else ⌊y⌋ + 1

/-- Exponent of the unit in the last place of the float64 values around `x`: 52 below the
binary exponent of `x` (53 significant bits), and not below -1074, the exponent of the
subnormal values. -/
def ulpExp (x : ℚ) : ℤ :=
  max (Int.log 2 |x| - 52) (-1074)

/-- IEEE 754 rounding of a rational to the nearest float64 value, ties to even. -/
def roundFloat64 (x : ℚ) : ℚ :=
  roundHalfEven (x / 2 ^ ulpExp x) * 2 ^ ulpExp x

/-- Float64 addition `x + y`. -/
def fadd (x y : ℚ) : ℚ := roundFloat64 (x + y)

/-- Float64 subtraction `x - y`. -/
def fsub (x y : ℚ) : ℚ := roundFloat64 (x - y)

/-- Float64 multiplication `x * y`. -/
def fmul (x y : ℚ) : ℚ := roundFloat64 (x * y)

/-- Float64 division `x / y`, for a divisor that is not zero. -/
def fdiv (x y : ℚ) : ℚ := roundFloat64 (x / y)

/-! ## Significance classifier (main.go 199-295) -/

/-- The function `calculateMeanDiff` (main.go 199-208). -/
def calculateMeanDiff (m : Metrics) : ℚ :=
  if m.Mean = 0 ∨ m.Max = 0 then 0
  else
    let diff := fsub 1 (fdiv m.Min m.Mean)
    let d := fsub (fdiv m.Max m.Mean) 1
    if d > diff then d else diff

/-- Loop of `calculateCombinedMeanDiff` (main.go 212-217) with the running sum `d`. -/
def calculateCombinedMeanDiffLoop : ℚ → List Metrics → ℚ
  | d, [] => d
  | d, m :: rest =>
    if m.Max = m.Min then calculateCombinedMeanDiffLoop d rest
    else calculateCombinedMeanDiffLoop (fadd d (fmul 100 (calculateMeanDiff m))) rest

/-- The function `calculateCombinedMeanDiff` (main.go 210-219). -/
def calculateCombinedMeanDiff (metrics : List Metrics) : ℚ :=
  calculateCombinedMeanDiffLoop 0 metrics

/-- The constant `tinyValueThreshold` (main.go 222). -/
def tinyValueThreshold : ℚ := 32

/-- The function `isTinyValue` (main.go 221-229). -/
def isTinyValue : List Metrics → Bool
  | [] => true
  | m :: rest => if m.Mean ≥ tinyValueThreshold then false else isTinyValue rest

/-- Loop of `avgValue` (main.go 233-235) with the running sum `v`. -/
def avgValueLoop : ℚ → List Metrics → ℚ
  | v, [] => v
  | v, m :: rest => avgValueLoop (fadd v m.Mean) rest

/-- The function `avgValue` (main.go 231-237). Its only caller, `isEpsilonDelta`, passes a
slice of length 2; for an empty slice Go divides zero by zero, a case outside the
embedding. -/
def avgValue (metrics : List Metrics) : ℚ :=
  fdiv (avgValueLoop 0 metrics) (metrics.length : ℚ)

/-- The function `getValueEpsilon` (main.go 239-250). -/
def getValueEpsilon (avg : ℚ) : ℚ :=
  if avg < 10 then 1
  else if avg < 32 then 2
  else if avg < 80 then 3
  else 4

/-- The function `isEpsilonDelta` (main.go 252-258). -/
def isEpsilonDelta (metrics : List Metrics) : Bool :=
  if metrics.length ≠ 2 then false
  else
    match metrics with
    | m0 :: m1 :: _ =>
      let eps := getValueEpsilon (avgValue metrics)
      decide (|fsub m0.Mean m1.Mean| ≤ eps)
    | _ => false

/-- The colour helpers `redColorize`, `greenColorize` and `yellowColorize` that
`colorizeBenchstatTables` calls. Their declarations are not among the embedded source
files, so the classifier takes them as a parameter. -/
structure Colorizer where
  redColorize : String → String
  greenColorize : String → String
  yellowColorize : String → String

/-- Go `strings.HasPrefix`. -/
def HasPrefix (s pre : String) : Bool :=
  pre.data.isPrefixOf s.data

/-- Go `strings.Contains` on the character lists of the two strings. -/
def ContainsChars (sub : List Char) : List Char → Bool
  | [] => sub.isPrefixOf []
  | c :: s => sub.isPrefixOf (c :: s) || ContainsChars sub s

/-- Go `strings.Contains`. -/
def Contains (s substr : String) : Bool :=
  ContainsChars substr.data s.data

/-- Body of the row loop of `colorizeBenchstatTables` (main.go 264-292): the row after
the iteration. -/
def colorizeRow (c : Colorizer) (isBiggerIsBetter : Bool) (row : Row) : Row :=
  if isEpsilonDelta row.Metrics then
    { row with Delta := c.yellowColorize "~" }
  else
    let d := calculateCombinedMeanDiff row.Metrics
    let d := if isTinyValue row.Metrics then fmul d 2 else d
    let d := fadd d 1
    if |row.PctDelta| < d then
      { row with Delta := c.yellowColorize "~" }
    else if HasPrefix row.Delta "+" then
      if isBiggerIsBetter then { row with Delta := c.greenColorize row.Delta }
      else { row with Delta := c.redColorize row.Delta }
    else if HasPrefix row.Delta "-" then
      if isBiggerIsBetter then { row with Delta := c.redColorize row.Delta }
      else { row with Delta := c.greenColorize row.Delta }
    else
      { row with Delta := c.yellowColorize row.Delta }

/-- Row loop of `colorizeBenchstatTables` (main.go 263-293). -/
def colorizeRows (c : Colorizer) (isBiggerIsBetter : Bool) : List Row → List Row
  | [] => []
  | row :: rest => colorizeRow c isBiggerIsBetter row :: colorizeRows c isBiggerIsBetter rest

/-- The function `colorizeBenchstatTables` (main.go 260-295): the tables after the call. -/
def colorizeBenchstatTables (c : Colorizer) : List Table → StringSet → List Table
  | [], _ => []
  | table :: rest, increasing =>
    let isBiggerIsBetter := decide (table.Metric ∈ increasing)
    { table with Rows := colorizeRows c isBiggerIsBetter table.Rows }
      :: colorizeBenchstatTables c rest increasing

/-- The row at position `j` of the table at position `i`, if there is one. -/
def rowAt (tables : List Table) (i j : Nat) : Option Row :=
  (tables.get? i).bind (fun tb => tb.Rows.get? j)

/-- The sum, in float64 arithmetic and in the order of the metrics, of
`100 * calculateMeanDiff` over the metrics with `Min ≠ Max`. -/
def spreadSum (metrics : List Metrics) : ℚ :=
  ((metrics.filter (fun m => decide (m.Min ≠ m.Max))).map
    (fun m => fmul 100 (calculateMeanDiff m))).foldl fadd 0

/-- The noise floor of a row in the words of the specification (4.2, steps 3 and 4), in
float64 arithmetic: one plus the sum, over the metrics with `Min ≠ Max`, of
`100 * calculateMeanDiff`, the sum doubled when every metric's mean is below 32. -/
def noiseFloor (metrics : List Metrics) : ℚ :=
  fadd 1 (if ∀ m ∈ metrics, m.Mean < 32 then fmul (spreadSum metrics) 2
          else spreadSum metrics)

/-- The epsilon of an average magnitude in the words of the specification (4.2, step 2):
1 below 10, 2 below 32, 3 below 80 and 4 otherwise. -/
def epsilonOf (avg : ℚ) : ℚ :=
  if avg < 10 then 1 else if avg < 32 then 2 else if avg < 80 then 3 else 4

/-! ## Row sanitizer (`fixBenchstatTables`, main.go 297-333) -/

/-- Loop over `m.RValues` (main.go 309-313) for a metric of unit `unit`:
`disabledGeomean` is the set so far. -/
def markRValues (unit : String) : List String → List ℚ → List String
  | disabledGeomean, [] => disabledGeomean
  | disabledGeomean, v :: rest =>
    if v < 0.01 then markRValues unit (unit :: disabledGeomean) rest
    else markRValues unit disabledGeomean rest

/-- Loop over `row.Metrics` (main.go 308-314). -/
def markMetrics : List String → List Metrics → List String
  | disabledGeomean, [] => disabledGeomean
  | disabledGeomean, m :: rest =>
    markMetrics (markRValues m.Unit disabledGeomean m.RValues) rest

/-- State that `fixBenchstatTables` carries through its loops: the set `disabledGeomean`
and the lines written to the log so far. -/
structure FixState where
  disabledGeomean : List String
  log : List String

/-- The test of main.go 315-322: true when the iteration ends at `continue`. -/
def isDisabledGeomean (disabledGeomean : List String) (row : Row) : Bool :=
  if row.Benchmark = "[Geo mean]" then
    match row.Metrics with
    | [] => false
    | m0 :: _ => decide (m0.Unit ∈ disabledGeomean)
  else false

/-- The line `log.Printf` writes at main.go 328. -/
def sampleWarning (benchmark : String) : String :=
  "WARNING: " ++ benchmark ++ " needs more samples, re-run with -count=5 or higher?"

/-- Zero-delta normalisation of main.go 302-307: the row after the assignment. -/
def fixDelta (row : Row) : Row :=
  if row.PctDelta = 0 ∧ Contains row.Delta "0.00%" = true then { row with Delta := "~" }
  else row

/-- Body of the row loop of `fixBenchstatTables` (main.go 301-330): the state after the
iteration, the row after the iteration, and whether the row was appended to
`selectedRows`. -/
def fixRow (st : FixState) (row : Row) : FixState × Row × Bool :=
  let row := fixDelta row
  let disabledGeomean := markMetrics st.disabledGeomean row.Metrics
  if isDisabledGeomean disabledGeomean row then
    (⟨disabledGeomean, st.log⟩, row, false)
  else
    match row.Metrics with
    | [] => (⟨disabledGeomean, st.log⟩, row, true)
    | m0 :: _ =>
      if m0.RValues.length < 5 ∧ row.Benchmark ≠ "[Geo mean]" then
        (⟨disabledGeomean, st.log ++ [sampleWarning row.Benchmark]⟩, row, true)
      else
        (⟨disabledGeomean, st.log⟩, row, true)

/-- Row loop of `fixBenchstatTables` (main.go 301-330): the final state and, for every row
visited, the row after its iteration with the flag telling whether it was selected. -/
def fixRows : FixState → List Row → FixState × List (Row × Bool)
  | st, [] => (st, [])
  | st, row :: rest =>
    let r := fixRow st row
    let rs := fixRows r.1 rest
    (rs.1, (r.2.1, r.2.2) :: rs.2)

/-- The slice `selectedRows` at the end of the row loop (main.go 331). -/
def selectedRows (visited : List (Row × Bool)) : List Row :=
  (visited.filter (fun x => x.2)).map (fun x => x.1)

/-- Table loop of `fixBenchstatTables` (main.go 299-332): the final state and, for every
table, the table after the call together with the visited rows of `fixRows`. -/
def fixTables : FixState → List Table → FixState × List (Table × List (Row × Bool))
  | st, [] => (st, [])
  | st, table :: rest =>
    let r := fixRows st table.Rows
    let rs := fixTables r.1 rest
    (rs.1, ({ table with Rows := selectedRows r.2 }, r.2) :: rs.2)

/-- The function `fixBenchstatTables` (main.go 297-333): the tables after the call. -/
def fixBenchstatTables (tables : List Table) : List Table :=
  (fixTables ⟨[], []⟩ tables).2.map (fun x => x.1)

/-- Every row object of the input after `fixBenchstatTables`, table by table in input order,
with the flag telling whether the row is still in its table. -/
def fixBenchstatTablesVisited (tables : List Table) : List (List (Row × Bool)) :=
  (fixTables ⟨[], []⟩ tables).2.map (fun x => x.2)

/-- The lines `fixBenchstatTables` writes to the log. -/
def fixBenchstatTablesLog (tables : List Table) : List String :=
  (fixTables ⟨[], []⟩ tables).1.log

/-- The visited entry at position `j` of table `i`, if there is one. -/
def visitedAt (visited : List (List (Row × Bool))) (i j : Nat) : Option (Row × Bool) :=
  (visited[i]?).bind (fun rows => rows[j]?)

/-- Some raw sample value of `row`, in a metric of unit `u`, is below 0.01. -/
def Contaminated (row : Row) (u : String) : Prop :=
  ∃ m ∈ row.Metrics, m.Unit = u ∧ ∃ v ∈ m.RValues, v < 0.01

/-- The row is named `[Geo mean]` and its first metric has unit `u`. -/
def IsGeoMeanOf (g : Row) (u : String) : Prop :=
  g.Benchmark = "[Geo mean]" ∧ ∃ m0 rest, g.Metrics = m0 :: rest ∧ m0.Unit = u

/-! ## HTML renderer (html.go) -/

/-- The two methods of `benchstat.Metrics` that the renderers call, `FormatMean` and
`FormatDiff`. They belong to the external statistics package, so the renderers take them
as a parameter. -/
structure Formatter where
  FormatMean : Metrics → Scaler → String
  FormatDiff : Metrics → String

/-- Replacement text of one character in Go `html.EscapeString`: the five characters
`&`, single quote, `<`, `>` and double quote are replaced, every other character is kept. -/
def escapeChar (c : Char) : String :=
  if c = '&' then "&amp;"
  else if c = Char.ofNat 39 then "&#39;"
  else if c = '<' then "&lt;"
  else if c = '>' then "&gt;"
  else if c = Char.ofNat 34 then "&#34;"
  else String.singleton c

/-- Go `html.EscapeString`. -/
def EscapeString (s : String) : String :=
  String.join (s.data.map escapeChar)

/-- The function `colorizeHTML` (html.go 10-24): the buffer after the call. -/
def colorizeHTML (buf : String) (change : Int) (isBiggerIsBetter : Bool) : String :=
  if change > 0 then
    if isBiggerIsBetter then buf ++ " bgcolor='red'"
    else buf ++ " bgcolor='green'"
  else if change < 0 then
    if isBiggerIsBetter then buf ++ " bgcolor='green'"
    else buf ++ " bgcolor='red'"
  else buf

/-- Loop over `row.Metrics` in `FormatHTML` (html.go 72-77). -/
def htmlMetrics (f : Formatter) (scaler : Scaler) : String → List Metrics → String
  | buf, [] => buf
  | buf, metric :: rest =>
    let buf := buf ++ "</td><td>"
    let buf := buf ++ EscapeString (f.FormatMean metric scaler)
    let buf := buf ++ " ± "
    let buf := buf ++ EscapeString (f.FormatDiff metric)
    htmlMetrics f scaler buf rest

/-- The data row `FormatHTML` writes for one row (html.go 67-85). -/
def htmlRow (f : Formatter) (isBiggerIsBetter : Bool) (buf : String) (row : Row) : String :=
  let buf := buf ++ "<tr><td"
  let buf := colorizeHTML buf row.Change isBiggerIsBetter
  let buf := buf ++ ">"
  let buf := buf ++ EscapeString row.Benchmark
  let buf := htmlMetrics f row.Scaler buf row.Metrics
  let buf := buf ++ "</td><td"
  let buf := colorizeHTML buf row.Change isBiggerIsBetter
  let buf := buf ++ ">"
  let buf := buf ++ EscapeString row.Delta
  let buf := buf ++ " "
  let buf := buf ++ EscapeString row.Note
  buf ++ "</td></tr>\n"

/-- Row loop of `FormatHTML` (html.go 59-86); `group` is the group of the previous row. -/
def htmlRows (f : Formatter) (isBiggerIsBetter : Bool) : String → String → List Row → String
  | buf, _, [] => buf
  | buf, group, row :: rest =>
    if row.Group ≠ group then
      let group := row.Group
      let buf := buf ++ "<tr><th class='group' colspan='4'>"
      let buf := buf ++ EscapeString group
      let buf := buf ++ "</th></tr>\n"
      htmlRows f isBiggerIsBetter (htmlRow f isBiggerIsBetter buf row) group rest
    else
      htmlRows f isBiggerIsBetter (htmlRow f isBiggerIsBetter buf row) group rest

/-- Table loop of `FormatHTML` (html.go 46-88). -/
def htmlTables (f : Formatter) (increasing : StringSet) : String → List Table → String
  | buf, [] => buf
  | buf, table :: rest =>
    let buf := buf ++ "<tbody>\n"
    let buf := buf ++ "<tr><th/>"
    let buf := buf ++ "<th colspan='2' class='metric'>"
    let buf := buf ++ EscapeString table.Metric
    let buf := buf ++ "</th><th>delta</th>\n</tr>\n"
    let isBiggerIsBetter := decide (table.Metric ∈ increasing)
    let buf := htmlRows f isBiggerIsBetter buf "" table.Rows
    let buf := buf ++ "</tbody>\n"
    htmlTables f increasing buf rest

/-- Loop over the configuration names in `FormatHTML` (html.go 39-43). -/
def htmlConfigs : String → List String → String
  | buf, [] => buf
  | buf, c :: rest => htmlConfigs (buf ++ "<th>" ++ EscapeString c ++ "</th>") rest

/-- The function `FormatHTML` (html.go 27-90): the buffer after the call. The parameter
`colorized` is not read by the body. -/
def FormatHTML (f : Formatter) (buf : String) (tables : List Table) (colorized : Bool)
    (increasing : StringSet) : String :=
  match tables with
  | [] => buf
  | first :: _ =>
    let buf :=
      if first.OldNewDelta then buf ++ "<table border='1' class='benchstat'>\n"
      else buf ++ "<table class='benchstat oldnew'>\n"
    let buf := buf ++ "<tr class='configs'><th/>"
    let buf := htmlConfigs buf first.Configs
    let buf := buf ++ "</tr>\n"
    let buf := htmlTables f increasing buf tables
    buf ++ "</table>\n"

/-- The `bgcolor` attribute text for a change indicator and a directionality, as
`colorizeHTML` chooses it: a positive change gives red when bigger is better and green
otherwise, a negative change gives green when bigger is better and red otherwise, and a
zero change gives no attribute. -/
def bgcolorAttr (change : Int) (isBiggerIsBetter : Bool) : String :=
  if change > 0 then (if isBiggerIsBetter then " bgcolor='red'" else " bgcolor='green'")
  else if change < 0 then (if isBiggerIsBetter then " bgcolor='green'" else " bgcolor='red'")
  else ""

/-- A formatter instance for concrete evaluations: every mean is printed as `1.00` and every
spread as `0%`. -/
def sampleFormatter : Formatter where
  FormatMean := fun _ _ => "1.00"
  FormatDiff := fun _ => "0%"

/-- Modelled from the spec: the colour helpers are declared outside the embedded source
files; the specification (4.4) describes them as ANSI-style escape wrapping of the delta
string. This instance wraps the string in the red, green and yellow foreground codes. It is
used for concrete evaluations only. -/
def ansiColorizer : Colorizer where
  redColorize := fun s => "\x1b[31m" ++ s ++ "\x1b[0m"
  greenColorize := fun s => "\x1b[32m" ++ s ++ "\x1b[0m"
  yellowColorize := fun s => "\x1b[33m" ++ s ++ "\x1b[0m"

/-- A metric with no spread: `Min = Mean = Max = v`, five equal samples, unit `ns`. -/
def flatMetric (v : ℚ) : Metrics :=
  { Unit := "ns", RValues := [v, v, v, v, v], Min := v, Mean := v, Max := v }

/-- A metric with spread: minimum `lo`, mean `mean`, maximum `hi`, five samples, unit
`ns`. -/
def spreadMetric (lo mean hi : ℚ) : Metrics :=
  { Unit := "ns", RValues := [lo, mean, mean, mean, hi], Min := lo, Mean := mean, Max := hi }

/-- A two-configuration row of benchmark `BenchmarkFoo` whose first metric has minimum 80,
mean 100 and maximum 120 and whose second metric is flat at 121, with numeric percentage
delta `pct` and delta string `delta`. -/
def spreadRow (pct : ℚ) (delta : String) : Row :=
  { Benchmark := "BenchmarkFoo", Group := "", Scaler := ⟨0⟩,
    Metrics := [spreadMetric 80 100 120, flatMetric 121],
    PctDelta := pct, Delta := delta, Note := "", Change := 0 }

/-- A two-configuration row of benchmark `BenchmarkFoo` whose metrics have minimum, mean
and maximum 90, 100, 110 and 135, 150, 165, with numeric percentage delta `pct` and delta
string `delta`. -/
def spreadBothRow (pct : ℚ) (delta : String) : Row :=
  { Benchmark := "BenchmarkFoo", Group := "", Scaler := ⟨0⟩,
    Metrics := [spreadMetric 90 100 110, spreadMetric 135 150 165],
    PctDelta := pct, Delta := delta, Note := "", Change := 0 }

/-- A two-configuration row of benchmark `BenchmarkFoo` with flat metrics of means `old`
and `new`, numeric percentage delta `pct` and delta string `delta`. -/
def fooRow (old new pct : ℚ) (delta : String) : Row :=
  { Benchmark := "BenchmarkFoo", Group := "", Scaler := ⟨0⟩,
    Metrics := [flatMetric old, flatMetric new],
    PctDelta := pct, Delta := delta, Note := "", Change := 0 }

/-- A one-row table of metric `metric` over the configurations `old` and `new`. -/
def fooTable (metric : String) (row : Row) : Table :=
  { Metric := metric, OldNewDelta := true, Configs := ["old", "new"], Rows := [row] }

/-- An aggregate row: benchmark `[Geo mean]` with flat metrics of means `old` and `new`. -/
def geoMeanRow (old new : ℚ) : Row :=
  { Benchmark := "[Geo mean]", Group := "", Scaler := ⟨0⟩,
    Metrics := [flatMetric old, flatMetric new],
    PctDelta := 0, Delta := "~", Note := "", Change := 0 }

/-- A table of metric `metric` over the configurations `old` and `new` with the given
rows. -/
def rowsTable (metric : String) (rows : List Row) : Table :=
  { Metric := metric, OldNewDelta := true, Configs := ["old", "new"], Rows := rows }

/-- A row needs more samples, in the words of the specification (4.1): it is not the
aggregate row and its first metric carries fewer than 5 raw sample values. -/
def NeedsMoreSamples (row : Row) : Bool :=
  match row.Metrics.head? with
  | some m0 => decide (row.Benchmark ≠ "[Geo mean]" ∧ m0.RValues.length < 5)
  | none => false

/-- The table `colorizeBenchstatTables` leaves for one input table. -/
def colorizeTable (c : Colorizer) (increasing : StringSet) (tb : Table) : Table :=
  { tb with Rows := tb.Rows.map (colorizeRow c (decide (tb.Metric ∈ increasing))) }

/-- A two-configuration row of benchmark `name` whose metrics have mean 100 and only three
raw sample values each. -/
def shortRow (name : String) : Row :=
  { Benchmark := name, Group := "", Scaler := ⟨0⟩,
    Metrics := [{ Unit := "ns", RValues := [100, 100, 100], Min := 100, Mean := 100, Max := 100 },
                { Unit := "ns", RValues := [100, 100, 100], Min := 100, Mean := 100, Max := 100 }],
    PctDelta := 0, Delta := "~", Note := "", Change := 0 }

/-! ## In-place compaction of a row slice (main.go 300-331 and 340-349) -/

/-- The loop `for _, row := range rows { ... selected = append(selected, row) ... }` where
`selected` starts as `rows[:0]` and so shares the backing array of `rows`. The arguments are
the loop state `st`, the backing array `arr`, the length `w` of `selected` (the write
position), the trace `tr`, the read position `i` and the number of iterations left. `step`
is the loop body: from the state and the element read it gives the next state and, when the
body appends, the element appended. Each iteration reads `arr[i]` from the backing array as
it is then; an append stores at `arr[w]` and increments `w`. The trace records, for every
iteration, the read position, the write position at that time and the element read. -/
def compactLoop {σ α : Type} (step : σ → α → σ × Option α) :
    σ → List α → Nat → List (Nat × Nat × α) → Nat → Nat → σ × List α × Nat × List (Nat × Nat × α)
  | st, arr, w, tr, _, 0 => (st, arr, w, tr)
  | st, arr, w, tr, i, k + 1 =>
    match arr[i]? with
    | none => (st, arr, w, tr)
    | some x =>
      match (step st x).2 with
      | some y => compactLoop step (step st x).1 (arr.set w y) (w + 1) (tr ++ [(i, w, x)]) (i + 1) k
      | none => compactLoop step (step st x).1 arr w (tr ++ [(i, w, x)]) (i + 1) k

/-- The in-place compaction of `rows`: the final loop state, the slice `selected` at the end
of the loop (the first `w` cells of the backing array), and the trace of the iterations. -/
def compactInPlace {σ α : Type} (step : σ → α → σ × Option α) (st : σ) (rows : List α) :
    σ × List α × List (Nat × Nat × α) :=
  let r := compactLoop step st rows 0 [] 0 rows.length
  (r.1, r.2.1.take r.2.2.1, r.2.2.2)

/-- The same loop appending into a fresh list. -/
def filterFresh {σ α : Type} (step : σ → α → σ × Option α) : σ → List α → σ × List α
  | st, [] => (st, [])
  | st, x :: rest =>
    match (step st x).2 with
    | some y => ((filterFresh step (step st x).1 rest).1, y :: (filterFresh step (step st x).1 rest).2)
    | none => filterFresh step (step st x).1 rest

/-- Loop body of `skipBenchstatTables` (main.go 342-348) as a step of the compaction. -/
def skipStep (isBiggerIsBetter : Bool) (failedThreshold : ℚ) (_ : Unit) (row : Row) :
    Unit × Option Row :=
  if isBiggerIsBetter then
    if -row.PctDelta ≥ failedThreshold then ((), some row) else ((), none)
  else if row.PctDelta ≥ failedThreshold then ((), some row)
  else ((), none)

/-- Loop body of `fixBenchstatTables` (main.go 302-329) as a step of the compaction. -/
def fixStep (st : FixState) (row : Row) : FixState × Option Row :=
  ((fixRow st row).1, if (fixRow st row).2.2 then some (fixRow st row).2.1 else none)

/-- A loop body without state that appends the element read when `keep` holds. -/
def keepStep {α : Type} (keep : α → Bool) (_ : Unit) (x : α) : Unit × Option α :=
  ((), if keep x then some x else none)

/-! ## Markdown renderer (markdown.go) -/

/-- Loop of `writeMDTableDelimiter` (markdown.go 11-13) with the iterations left. -/
def writeMDTableDelimiterLoop : String → Nat → String
  | buf, 0 => buf
  | buf, k + 1 => writeMDTableDelimiterLoop (buf ++ "--|") k

/-- The function `writeMDTableDelimiter` (markdown.go 9-15): the buffer after the call. -/
def writeMDTableDelimiter (buf : String) (n : Nat) : String :=
  let buf := buf ++ "|"
  let buf := writeMDTableDelimiterLoop buf n
  buf ++ "\n"

/-- Loop over the configuration names in `FormatMarkdown` (markdown.go 24-28). -/
def mdConfigs : String → List String → String
  | buf, [] => buf
  | buf, c :: rest =>
    let buf := buf ++ " "
    let buf := buf ++ c
    let buf := buf ++ " |"
    mdConfigs buf rest

/-- Loop over `row.Metrics` in `FormatMarkdown` (markdown.go 53-58). -/
def mdMetrics (f : Formatter) (scaler : Scaler) : String → List Metrics → String
  | buf, [] => buf
  | buf, metric :: rest =>
    let buf := buf ++ "| "
    let buf := buf ++ f.FormatMean metric scaler
    let buf := buf ++ " ± "
    let buf := buf ++ f.FormatDiff metric
    mdMetrics f scaler buf rest

/-- The data row `FormatMarkdown` writes for one row (markdown.go 52-65). -/
def mdRow (f : Formatter) (buf : String) (row : Row) : String :=
  let buf := buf ++ row.Benchmark
  let buf := mdMetrics f row.Scaler buf row.Metrics
  let buf := buf ++ " | "
  let buf := buf ++ row.Delta
  let buf := buf ++ " "
  let buf := buf ++ row.Note
  buf ++ " |\n"

/-- Row loop of `FormatMarkdown` (markdown.go 42-66); `group` is the group of the previous
row. -/
def mdRows (f : Formatter) : String → String → List Row → String
  | buf, _, [] => buf
  | buf, group, row :: rest =>
    if row.Group ≠ group then
      let group := row.Group
      let buf := buf ++ "| "
      let buf := buf ++ group
      let buf := buf ++ " |\n"
      mdRows f (mdRow f buf row) group rest
    else
      mdRows f (mdRow f buf row) group rest

/-- Table loop of `FormatMarkdown` (markdown.go 32-67). -/
def mdTables (f : Formatter) : String → List Table → String
  | buf, [] => buf
  | buf, table :: rest =>
    let buf := buf ++ "| | "
    let buf := buf ++ table.Metric
    let buf := buf ++ " | | delta |\n"
    let buf := mdRows f buf "" table.Rows
    mdTables f buf rest

/-- The function `FormatMarkdown` (markdown.go 18-68): the buffer after the call. The
parameters `colorized` and `increasing` are not read by the body. -/
def FormatMarkdown (f : Formatter) (buf : String) (tables : List Table) (colorized : Bool)
    (increasing : StringSet) : String :=
  match tables with
  | [] => buf
  | first :: _ =>
    let buf := buf ++ "| |"
    let buf := mdConfigs buf first.Configs
    let buf := buf ++ " |\n"
    let buf := writeMDTableDelimiter buf (first.Configs.length + 2)
    mdTables f buf tables

/-! ## Layout shared by the renderers -/

/-- Concatenation of a list of strings. -/
def concatAll : List String → String
  | [] => ""
  | s :: rest => s ++ concatAll rest

/-- What a renderer writes for the rows of a table: group-label rows and data rows. -/
inductive Item where
  | group (label : String)
  | data (row : Row)
deriving DecidableEq

/-- The items of a row list when the row before the first one has group `prev`: for every
row, a group-label item when the group of the row differs from the group of the row before
it, followed by the data item of the row. -/
def rowItemsFrom (prev : String) (rows : List Row) : List Item :=
  (rows.zip (prev :: rows.map (fun r => r.Group))).flatMap
    (fun p => if p.1.Group ≠ p.2 then [Item.group p.1.Group, Item.data p.1]
              else [Item.data p.1])

/-- The items of the rows of a table: the first row is compared against the empty label. -/
def rowItems (rows : List Row) : List Item :=
  rowItemsFrom "" rows

/-- The benchmark name a data item carries. -/
def Item.name? : Item → Option String
  | Item.group _ => none
  | Item.data row => some row.Benchmark

/-- The label a group-label item carries. -/
def Item.label? : Item → Option String
  | Item.group label => some label
  | Item.data _ => none

/-- The text `FormatHTML` writes for an item. -/
def htmlItem (f : Formatter) (isBiggerIsBetter : Bool) : Item → String
  | Item.group label => "<tr><th class='group' colspan='4'>" ++ EscapeString label ++ "</th></tr>\n"
  | Item.data row => htmlRow f isBiggerIsBetter "" row

/-- The text `FormatMarkdown` writes for an item. -/
def mdItem (f : Formatter) : Item → String
  | Item.group label => "| " ++ label ++ " |\n"
  | Item.data row => mdRow f "" row

/-- The text `FormatHTML` writes for one table. -/
def htmlTableText (f : Formatter) (increasing : StringSet) (tb : Table) : String :=
  "<tbody>\n" ++ "<tr><th/>" ++ "<th colspan='2' class='metric'>" ++ EscapeString tb.Metric
    ++ "</th><th>delta</th>\n</tr>\n"
    ++ concatAll ((rowItems tb.Rows).map (htmlItem f (decide (tb.Metric ∈ increasing))))
    ++ "</tbody>\n"

/-- The text `FormatMarkdown` writes for one table. -/
def mdTableText (f : Formatter) (tb : Table) : String :=
  "| | " ++ tb.Metric ++ " | | delta |\n" ++ concatAll ((rowItems tb.Rows).map (mdItem f))

/-- The text `FormatHTML` writes before the first table. -/
def htmlHead (first : Table) : String :=
  (if first.OldNewDelta then "<table border='1' class='benchstat'>\n"
    else "<table class='benchstat oldnew'>\n")
    ++ "<tr class='configs'><th/>"
    ++ concatAll (first.Configs.map (fun c => "<th>" ++ EscapeString c ++ "</th>"))
    ++ "</tr>\n"

/-- The header line of `FormatMarkdown`. -/
def mdHeaderLine (configs : List String) : String :=
  "| |" ++ concatAll (configs.map (fun c => " " ++ c ++ " |")) ++ " |\n"

/-- The delimiter line of `FormatMarkdown` for `n` columns. -/
def mdDelimiterLine (n : Nat) : String :=
  "|" ++ concatAll (List.replicate n "--|") ++ "\n"

/-- The row a data item carries. -/
def Item.row? : Item → Option Row
  | Item.group _ => none
  | Item.data row => some row

/-- The groups of a row sequence are contiguous, in the words of the specification (3): once
the group label changes moving through the sequence, the label left behind does not occur
again. -/
def ContiguousGroups : List String → Prop
  | [] => True
  | [_] => True
  | g :: h :: t => (g ≠ h → g ∉ h :: t) ∧ ContiguousGroups (h :: t)

/-- A row of benchmark `name` in group `group` with flat metrics of mean 100. -/
def groupRow (name group : String) : Row :=
  { Benchmark := name, Group := group, Scaler := ⟨0⟩,
    Metrics := [flatMetric 100, flatMetric 100],
    PctDelta := 0, Delta := "~", Note := "", Change := 0 }

/-- Number of `|` characters of a string. -/
def countPipes (s : String) : Nat :=
  s.data.count '|'

/-! ## Pieces of the HTML output -/

/-- A piece of the HTML output: literal markup, or an input text that is written through
`html.EscapeString`. -/
inductive Piece where
  | lit (s : String)
  | esc (s : String)
deriving DecidableEq

/-- The text of a piece in the output. -/
def Piece.render : Piece → String
  | Piece.lit s => s
  | Piece.esc s => EscapeString s

/-- The string literals of `html.go`, with the three values of the `bgcolor` attribute
text. -/
def htmlLiterals : List String :=
  ["<table border='1' class='benchstat'>\n", "<table class='benchstat oldnew'>\n",
   "<tr class='configs'><th/>", "<th>", "</th>", "</tr>\n", "<tbody>\n", "<tr><th/>",
   "<th colspan='2' class='metric'>", "</th><th>delta</th>\n</tr>\n",
   "<tr><th class='group' colspan='4'>", "</th></tr>\n", "<tr><td", "", " bgcolor='red'",
   " bgcolor='green'", ">", "</td><td>", " ± ", "</td><td", " ", "</td></tr>\n",
   "</tbody>\n", "</table>\n"]

/-- The character entities written by `html.EscapeString`. -/
def htmlEntities : List String :=
  ["&amp;", "&#39;", "&lt;", "&gt;", "&#34;"]

/-- Pieces of one metric cell (html.go 73-76). -/
def htmlMetricPieces (f : Formatter) (scaler : Scaler) (m : Metrics) : List Piece :=
  [Piece.lit "</td><td>", Piece.esc (f.FormatMean m scaler), Piece.lit " ± ",
   Piece.esc (f.FormatDiff m)]

/-- Pieces of an item: a group-label row (html.go 63-65) or a data row (html.go 67-85). -/
def htmlItemPieces (f : Formatter) (isBiggerIsBetter : Bool) : Item → List Piece
  | Item.group label =>
    [Piece.lit "<tr><th class='group' colspan='4'>", Piece.esc label, Piece.lit "</th></tr>\n"]
  | Item.data row =>
    [Piece.lit "<tr><td", Piece.lit (bgcolorAttr row.Change isBiggerIsBetter), Piece.lit ">",
     Piece.esc row.Benchmark]
    ++ row.Metrics.flatMap (htmlMetricPieces f row.Scaler)
    ++ [Piece.lit "</td><td", Piece.lit (bgcolorAttr row.Change isBiggerIsBetter),
        Piece.lit ">", Piece.esc row.Delta, Piece.lit " ", Piece.esc row.Note,
        Piece.lit "</td></tr>\n"]

/-- Pieces of one table (html.go 47-87). -/
def htmlTablePieces (f : Formatter) (increasing : StringSet) (tb : Table) : List Piece :=
  [Piece.lit "<tbody>\n", Piece.lit "<tr><th/>", Piece.lit "<th colspan='2' class='metric'>",
   Piece.esc tb.Metric, Piece.lit "</th><th>delta</th>\n</tr>\n"]
  ++ (rowItems tb.Rows).flatMap (htmlItemPieces f (decide (tb.Metric ∈ increasing)))
  ++ [Piece.lit "</tbody>\n"]

/-- Pieces of the whole output of `FormatHTML`. -/
def htmlPieces (f : Formatter) (increasing : StringSet) : List Table → List Piece
  | [] => []
  | first :: rest =>
    [Piece.lit (if first.OldNewDelta then "<table border='1' class='benchstat'>\n"
        else "<table class='benchstat oldnew'>\n"),
     Piece.lit "<tr class='configs'><th/>"]
    ++ first.Configs.flatMap (fun c => [Piece.lit "<th>", Piece.esc c, Piece.lit "</th>"])
    ++ [Piece.lit "</tr>\n"]
    ++ (first :: rest).flatMap (htmlTablePieces f increasing)
    ++ [Piece.lit "</table>\n"]

/-! ## Lemmas on the severity filter -/

theorem skipRows_eq_filter (b : Bool) (t : ℚ) (acc rows : List Row) :
    skipRows b t acc rows
      = acc ++ rows.filter (fun r => if b then decide (-r.PctDelta ≥ t) else decide (r.PctDelta ≥ t)) := by
  induction rows generalizing acc with
  | nil => simp [skipRows]
  | cons r rest ih =>
    cases b <;> by_cases h : t ≤ r.PctDelta <;> by_cases h' : t ≤ -r.PctDelta <;>
      simp [skipRows, ih, List.filter_cons, h, h']

theorem skipRows_eq_filter_isRegression (increasing : StringSet) (metric : String) (t : ℚ)
    (rows : List Row) :
    skipRows (decide (metric ∈ increasing)) t [] rows
      = rows.filter (fun r => decide (isRegression increasing metric t r)) := by
  rw [skipRows_eq_filter, List.nil_append]
  congr 1
  funext r
  by_cases hm : metric ∈ increasing <;> simp [isRegression, hm]

theorem skipTables_eq (t : ℚ) (increasing : StringSet) (acc tables : List Table) :
    skipTables t increasing acc tables
      = acc ++ (tables.map (pruneTable increasing t)).filter (fun tb => !tb.Rows.isEmpty) := by
  induction tables generalizing acc with
  | nil => simp [skipTables]
  | cons tb rest ih =>
    simp only [skipTables, skipRows_eq_filter_isRegression, List.map_cons, List.filter_cons]
    by_cases h : (tb.Rows.filter (fun r => decide (isRegression increasing tb.Metric t r))) = []
    · simp [h, ih, pruneTable]
    · have hpos : 0 < (tb.Rows.filter
          (fun r => decide (isRegression increasing tb.Metric t r))).length :=
        List.length_pos.mpr h
      simp [h, hpos, ih, pruneTable]

/-! ## Lemmas on float64 arithmetic -/

theorem roundHalfEven_intCast (n : ℤ) : roundHalfEven (n : ℚ) = n := by
  unfold roundHalfEven
  simp

theorem roundHalfEven_bounds (y : ℚ) :
    (roundHalfEven y = ⌊y⌋ ∨ roundHalfEven y = ⌊y⌋ + 1) := by
  unfold roundHalfEven
  split
  · exact Or.inl rfl
  · split
    · exact Or.inr rfl
    · split
      · exact Or.inl rfl
      · exact Or.inr rfl

theorem roundHalfEven_mono {y1 y2 : ℚ} (h : y1 ≤ y2) : roundHalfEven y1 ≤ roundHalfEven y2 := by
  have hf : ⌊y1⌋ ≤ ⌊y2⌋ := Int.floor_le_floor h
  rcases lt_or_eq_of_le hf with hlt | heq
  · have h1 : roundHalfEven y1 ≤ ⌊y1⌋ + 1 := by
      rcases roundHalfEven_bounds y1 with e | e <;> rw [e] <;> omega
    have h2 : ⌊y2⌋ ≤ roundHalfEven y2 := by
      rcases roundHalfEven_bounds y2 with e | e <;> rw [e] <;> omega
    omega
  · unfold roundHalfEven
    rw [heq]
    have hr : y1 - ⌊y2⌋ ≤ y2 - ⌊y2⌋ := by linarith
    by_cases a2 : y2 - ⌊y2⌋ < 1 / 2
    · have a1 : y1 - ⌊y2⌋ < 1 / 2 := lt_of_le_of_lt hr a2
      rw [if_pos a1, if_pos a2]
    · rw [if_neg a2]
      by_cases b2 : 1 / 2 < y2 - ⌊y2⌋
      · rw [if_pos b2]
        split
        · omega
        · split
          · exact le_refl _
          · split <;> omega
      · rw [if_neg b2]
        by_cases a1 : y1 - ⌊y2⌋ < 1 / 2
        · rw [if_pos a1]
          split <;> omega
        · rw [if_neg a1]
          have b1 : ¬ 1 / 2 < y1 - ⌊y2⌋ := fun hb => b2 (lt_of_lt_of_le hb hr)
          rw [if_neg b1]

theorem roundHalfEven_eq_of_abs_lt (y : ℚ) (n : ℤ) (h : |y - n| < 1 / 2) :
    roundHalfEven y = n := by
  rw [abs_lt] at h
  obtain ⟨h1, h2⟩ := h
  by_cases hge : (n : ℚ) ≤ y
  · have hfl : ⌊y⌋ = n := by
      rw [Int.floor_eq_iff]
      constructor
      · exact hge
      · linarith
    unfold roundHalfEven
    rw [hfl, if_pos (by linarith)]
  · have hfl : ⌊y⌋ = n - 1 := by
      rw [Int.floor_eq_iff]
      push_cast
      constructor <;> linarith
    unfold roundHalfEven
    rw [hfl]
    push_cast
    rw [if_neg (by linarith), if_pos (by linarith)]
    ring

theorem roundHalfEven_neg (y : ℚ) : roundHalfEven (-y) = -roundHalfEven y := by
  by_cases hint : (⌊y⌋ : ℚ) = y
  · rw [← hint, ← Int.cast_neg, roundHalfEven_intCast, roundHalfEven_intCast]
  · have hlt : (⌊y⌋ : ℚ) < y := lt_of_le_of_ne (Int.floor_le y) hint
    have hub : y < ⌊y⌋ + 1 := Int.lt_floor_add_one y
    have hfl : ⌊-y⌋ = -⌊y⌋ - 1 := by
      rw [Int.floor_eq_iff]
      push_cast
      constructor <;> linarith
    unfold roundHalfEven
    rw [hfl]
    push_cast
    by_cases a : y - ⌊y⌋ < 1 / 2
    · rw [if_pos a, if_neg (by linarith), if_pos (by linarith)]
      ring
    · rw [if_neg a]
      by_cases b : 1 / 2 < y - ⌊y⌋
      · rw [if_pos b, if_pos (by linarith)]
        ring
      · rw [if_neg b, if_neg (by linarith), if_neg (by linarith)]
        by_cases c : ⌊y⌋ % 2 = 0
        · rw [if_pos c, if_neg (by omega)]
          ring
        · rw [if_neg c, if_pos (by omega)]
          ring

theorem two_zpow_pos (k : ℤ) : (0 : ℚ) < 2 ^ k := zpow_pos (by norm_num) k

theorem two_zpow_intCast (k : ℤ) (hk : 0 ≤ k) : ∃ N : ℤ, (N : ℚ) = 2 ^ k := by
  obtain ⟨n, rfl⟩ := Int.eq_ofNat_of_zero_le hk
  exact ⟨2 ^ n, by simp⟩

theorem ulpExp_neg (x : ℚ) : ulpExp (-x) = ulpExp x := by
  unfold ulpExp
  rw [abs_neg]

theorem roundFloat64_neg (x : ℚ) : roundFloat64 (-x) = -roundFloat64 x := by
  unfold roundFloat64
  rw [ulpExp_neg, neg_div, roundHalfEven_neg]
  push_cast
  ring

theorem roundFloat64_zero : roundFloat64 0 = 0 := by
  unfold roundFloat64
  rw [zero_div]
  have : roundHalfEven 0 = 0 := by
    have := roundHalfEven_intCast 0
    simpa using this
  rw [this]
  simp

theorem roundFloat64_grid_le (x : ℚ) (N : ℤ) (h : x ≤ N * 2 ^ ulpExp x) :
    roundFloat64 x ≤ N * 2 ^ ulpExp x := by
  unfold roundFloat64
  have hq := two_zpow_pos (ulpExp x)
  have hdiv : x / 2 ^ ulpExp x ≤ (N : ℚ) := (div_le_iff₀ hq).mpr h
  have hr := roundHalfEven_mono hdiv
  rw [roundHalfEven_intCast] at hr
  have hr' : ((roundHalfEven (x / 2 ^ ulpExp x) : ℤ) : ℚ) ≤ (N : ℚ) := by exact_mod_cast hr
  exact mul_le_mul_of_nonneg_right hr' (le_of_lt hq)

theorem roundFloat64_grid_ge (x : ℚ) (N : ℤ) (h : (N : ℚ) * 2 ^ ulpExp x ≤ x) :
    (N : ℚ) * 2 ^ ulpExp x ≤ roundFloat64 x := by
  unfold roundFloat64
  have hq := two_zpow_pos (ulpExp x)
  have hdiv : (N : ℚ) ≤ x / 2 ^ ulpExp x := (le_div_iff₀ hq).mpr h
  have hr := roundHalfEven_mono hdiv
  rw [roundHalfEven_intCast] at hr
  have hr' : (N : ℚ) ≤ ((roundHalfEven (x / 2 ^ ulpExp x) : ℤ) : ℚ) := by exact_mod_cast hr
  exact mul_le_mul_of_nonneg_right hr' (le_of_lt hq)

theorem roundFloat64_nonneg (x : ℚ) (h : 0 ≤ x) : 0 ≤ roundFloat64 x := by
  have := roundFloat64_grid_ge x 0 (by simpa using h)
  simpa using this

theorem roundFloat64_mono_of_pos {x y : ℚ} (hx : 0 < x) (h : x ≤ y) :
    roundFloat64 x ≤ roundFloat64 y := by
  have hy : 0 < y := lt_of_lt_of_le hx h
  have hlog : Int.log 2 |x| ≤ Int.log 2 |y| := by
    rw [abs_of_pos hx, abs_of_pos hy]
    exact Int.log_mono_right hx h
  have hu : ulpExp x ≤ ulpExp y := by
    unfold ulpExp
    exact max_le_max (by omega) (le_refl _)
  rcases lt_or_eq_of_le hu with hlt | heq
  · have huy : ulpExp y = Int.log 2 |y| - 52 := by
      unfold ulpExp at hlt ⊢
      have h1 : (-1074 : ℤ) ≤ max (Int.log 2 |x| - 52) (-1074) := le_max_right _ _
      rcases max_choice (Int.log 2 |y| - 52) (-1074) with e | e
      · exact e
      · rw [e] at hlt; omega
    have hux : Int.log 2 |x| - 52 ≤ ulpExp x := le_max_left _ _
    have hxb : x ≤ (2 : ℚ) ^ Int.log 2 |y| := by
      have h1 : x < ((2 : ℕ) : ℚ) ^ (Int.log 2 x + 1) :=
        Int.lt_zpow_succ_log_self (by norm_num) x
      rw [abs_of_pos hx] at hux
      rw [abs_of_pos hy] at huy ⊢
      have h2 : ((2 : ℕ) : ℚ) ^ (Int.log 2 x + 1) ≤ ((2 : ℕ) : ℚ) ^ Int.log 2 y :=
        zpow_le_zpow_right₀ (by norm_num) (by omega)
      have := le_of_lt (lt_of_lt_of_le h1 h2)
      simpa using this
    have hby : (2 : ℚ) ^ Int.log 2 |y| ≤ y := by
      rw [abs_of_pos hy]
      have := Int.zpow_log_le_self (b := 2) (r := y) (by norm_num) hy
      simpa using this
    obtain ⟨N1, hN1⟩ := two_zpow_intCast (Int.log 2 |y| - ulpExp x) (by omega)
    obtain ⟨N2, hN2⟩ := two_zpow_intCast (Int.log 2 |y| - ulpExp y) (by omega)
    have e1 : (N1 : ℚ) * 2 ^ ulpExp x = 2 ^ Int.log 2 |y| := by
      rw [hN1, ← zpow_add₀ (by norm_num : (2 : ℚ) ≠ 0)]
      congr 1; omega
    have e2 : (N2 : ℚ) * 2 ^ ulpExp y = 2 ^ Int.log 2 |y| := by
      rw [hN2, ← zpow_add₀ (by norm_num : (2 : ℚ) ≠ 0)]
      congr 1; omega
    have l1 := roundFloat64_grid_le x N1 (by rw [e1]; exact hxb)
    have l2 := roundFloat64_grid_ge y N2 (by rw [e2]; exact hby)
    rw [e1] at l1
    rw [e2] at l2
    exact le_trans l1 l2
  · unfold roundFloat64
    rw [heq]
    have hq := two_zpow_pos (ulpExp y)
    have hdiv : x / 2 ^ ulpExp y ≤ y / 2 ^ ulpExp y := div_le_div_of_nonneg_right h (le_of_lt hq)
    have hr := roundHalfEven_mono hdiv
    have hr' : ((roundHalfEven (x / 2 ^ ulpExp y) : ℤ) : ℚ)
        ≤ ((roundHalfEven (y / 2 ^ ulpExp y) : ℤ) : ℚ) := by exact_mod_cast hr
    exact mul_le_mul_of_nonneg_right hr' (le_of_lt hq)

/-- Rounding to float64 is monotone. -/
theorem roundFloat64_mono {x y : ℚ} (h : x ≤ y) : roundFloat64 x ≤ roundFloat64 y := by
  rcases lt_trichotomy 0 x with hx | hx | hx
  · exact roundFloat64_mono_of_pos hx h
  · rw [← hx, roundFloat64_zero]
    exact roundFloat64_nonneg y (by rw [← hx] at h; exact h)
  · rcases lt_or_le y 0 with hy | hy
    · have := roundFloat64_mono_of_pos (x := -y) (y := -x) (by linarith) (by linarith)
      rw [roundFloat64_neg, roundFloat64_neg] at this
      linarith
    · have h1 : roundFloat64 x ≤ 0 := by
        have := roundFloat64_nonneg (-x) (by linarith)
        rw [roundFloat64_neg] at this
        linarith
      exact le_trans h1 (roundFloat64_nonneg y hy)

/-- A rational `N * 2 ^ p` with `|N| < 2 ^ 53` and `p ≥ -1074` is a float64 value: rounding
leaves it as it is. -/
theorem roundFloat64_of_representable (N p : ℤ) (hN : |N| < 2 ^ 53) (hp : -1074 ≤ p) :
    roundFloat64 ((N : ℚ) * 2 ^ p) = (N : ℚ) * 2 ^ p := by
  by_cases h0 : N = 0
  · subst h0
    simp [roundFloat64_zero]
  · have hxpos : 0 < |(N : ℚ) * 2 ^ p| := by
      apply abs_pos.mpr
      exact mul_ne_zero (by exact_mod_cast h0) (ne_of_gt (two_zpow_pos p))
    have hlt : |(N : ℚ) * 2 ^ p| < ((2 : ℕ) : ℚ) ^ (53 + p) := by
      rw [abs_mul, abs_of_pos (two_zpow_pos p)]
      have hN' : |(N : ℚ)| < 2 ^ (53 : ℤ) := by
        rw [← Int.cast_abs]
        have h := (Int.cast_lt (R := ℚ)).mpr hN
        norm_num at h ⊢
        exact h
      have : |(N : ℚ)| * 2 ^ p < 2 ^ (53 : ℤ) * 2 ^ p :=
        mul_lt_mul_of_pos_right hN' (two_zpow_pos p)
      rw [← zpow_add₀ (by norm_num : (2 : ℚ) ≠ 0)] at this
      simpa using this
    have hlog : Int.log 2 |(N : ℚ) * 2 ^ p| < 53 + p :=
      (Int.lt_zpow_iff_log_lt (by norm_num) hxpos).mp hlt
    have hu : ulpExp ((N : ℚ) * 2 ^ p) ≤ p := by
      unfold ulpExp
      exact max_le (by omega) hp
    obtain ⟨M, hM⟩ := two_zpow_intCast (p - ulpExp ((N : ℚ) * 2 ^ p)) (by omega)
    have hdiv : (N : ℚ) * 2 ^ p / 2 ^ ulpExp ((N : ℚ) * 2 ^ p) = ((N * M : ℤ) : ℚ) := by
      push_cast
      rw [hM, zpow_sub₀ (by norm_num : (2 : ℚ) ≠ 0)]
      ring
    unfold roundFloat64
    rw [hdiv, roundHalfEven_intCast]
    push_cast
    rw [hM, mul_assoc, ← zpow_add₀ (by norm_num : (2 : ℚ) ≠ 0)]
    congr 2
    omega

theorem roundFloat64_intCast (N : ℤ) (hN : |N| < 2 ^ 53) : roundFloat64 (N : ℚ) = N := by
  have := roundFloat64_of_representable N 0 hN (by norm_num)
  simpa using this

/-- Evaluation of the rounding when the binary exponent `e` of `x` and the rounded
significand `n` are given. -/
theorem roundFloat64_eval (x : ℚ) (e p n : ℤ) (hp : p = max (e - 52) (-1074))
    (h1 : (2 : ℚ) ^ e ≤ |x|) (h2 : |x| < 2 ^ (e + 1)) (hn : |x / 2 ^ p - n| < 1 / 2) :
    roundFloat64 x = (n : ℚ) * 2 ^ p := by
  have hxpos : 0 < |x| := lt_of_lt_of_le (two_zpow_pos e) h1
  have hlog : Int.log 2 |x| = e := by
    apply le_antisymm
    · have : Int.log 2 |x| < e + 1 :=
        (Int.lt_zpow_iff_log_lt (by norm_num) hxpos).mp (by simpa using h2)
      omega
    · exact (Int.zpow_le_iff_le_log (by norm_num) hxpos).mp (by simpa using h1)
  have hu : ulpExp x = p := by
    unfold ulpExp
    rw [hlog, hp]
  unfold roundFloat64
  rw [hu, roundHalfEven_eq_of_abs_lt _ n hn]

/-- Evaluation of the rounding at a tie: `x` lies half-way between the significands `n`
and `n + 1`, and the even one is taken. -/
theorem roundFloat64_tie (x : ℚ) (e p n : ℤ) (hp : p = max (e - 52) (-1074))
    (h1 : (2 : ℚ) ^ e ≤ |x|) (h2 : |x| < 2 ^ (e + 1)) (hn : x / 2 ^ p = n + 1 / 2) :
    roundFloat64 x = ((if n % 2 = 0 then n else n + 1 : ℤ) : ℚ) * 2 ^ p := by
  have hxpos : 0 < |x| := lt_of_lt_of_le (two_zpow_pos e) h1
  have hlog : Int.log 2 |x| = e := by
    apply le_antisymm
    · have : Int.log 2 |x| < e + 1 :=
        (Int.lt_zpow_iff_log_lt (by norm_num) hxpos).mp (by simpa using h2)
      omega
    · exact (Int.zpow_le_iff_le_log (by norm_num) hxpos).mp (by simpa using h1)
  have hu : ulpExp x = p := by
    unfold ulpExp
    rw [hlog, hp]
  have hfl : ⌊(n : ℚ) + 1 / 2⌋ = n := by
    rw [Int.floor_eq_iff]
    constructor <;> linarith
  unfold roundFloat64
  rw [hu, hn]
  unfold roundHalfEven
  rw [hfl, if_neg (by norm_num), if_neg (by norm_num)]

theorem roundFloat64_eq_self_of (x : ℚ) (N p : ℤ) (hx : x = (N : ℚ) * 2 ^ p)
    (hN : |N| < 2 ^ 53) (hp : -1074 ≤ p) : roundFloat64 x = x := by
  rw [hx]
  exact roundFloat64_of_representable N p hN hp

theorem roundFloat64_one : roundFloat64 1 = 1 := by
  simpa using roundFloat64_intCast 1 (by norm_num)

theorem fadd_comm (x y : ℚ) : fadd x y = fadd y x := by
  unfold fadd
  rw [add_comm]

/-- A float64 value compares with the constant `0.01` of the source, which Go rounds to
float64, as it compares with the rational 1/100. -/
theorem lt_hundredth_iff (v : ℚ) (hv : roundFloat64 v = v) :
    v < 0.01 ↔ v < roundFloat64 0.01 := by
  have hc : roundFloat64 0.01 = 5764607523034235 / 576460752303423488 := by
    rw [roundFloat64_eval 0.01 (-7) (-59) 5764607523034235 (by norm_num)
      (by norm_num [abs_of_pos]) (by norm_num [abs_of_pos]) (by norm_num [abs_lt])]
    norm_num
  constructor
  · intro h
    rw [hc]
    have : (0.01 : ℚ) < 5764607523034235 / 576460752303423488 := by norm_num
    exact lt_trans h this
  · intro h
    by_contra hge
    have hle : (0.01 : ℚ) ≤ v := not_lt.mp hge
    have := roundFloat64_mono hle
    rw [hv] at this
    exact absurd h (not_lt.mpr this)

/-! ## Lemmas on the classifier -/

theorem calculateCombinedMeanDiffLoop_eq (d : ℚ) (metrics : List Metrics) :
    calculateCombinedMeanDiffLoop d metrics
      = ((metrics.filter (fun m => decide (m.Min ≠ m.Max))).map
          (fun m => fmul 100 (calculateMeanDiff m))).foldl fadd d := by
  induction metrics generalizing d with
  | nil => simp [calculateCombinedMeanDiffLoop]
  | cons m rest ih =>
    by_cases h : m.Max = m.Min
    · have h' : m.Min = m.Max := h.symm
      simp [calculateCombinedMeanDiffLoop, h, ih]
    · have h' : ¬ m.Min = m.Max := fun e => h e.symm
      simp [calculateCombinedMeanDiffLoop, h, h', ih, List.filter_cons]

theorem calculateCombinedMeanDiff_eq (metrics : List Metrics) :
    calculateCombinedMeanDiff metrics = spreadSum metrics := by
  unfold calculateCombinedMeanDiff spreadSum
  exact calculateCombinedMeanDiffLoop_eq 0 metrics

theorem isTinyValue_eq (metrics : List Metrics) :
    isTinyValue metrics = decide (∀ m ∈ metrics, m.Mean < 32) := by
  induction metrics with
  | nil => simp [isTinyValue]
  | cons m rest ih =>
    by_cases h : m.Mean < 32
    · have h' : ¬ 32 ≤ m.Mean := not_le.mpr h
      simp [isTinyValue, tinyValueThreshold, h, h', ih]
    · have h' : 32 ≤ m.Mean := not_lt.mp h
      simp [isTinyValue, tinyValueThreshold, h, h']

/-- The bound `d` that `colorizeBenchstatTables` compares `|PctDelta|` with (main.go
268-273) is the noise floor of the specification, computed in float64 arithmetic. -/
theorem colorize_bound_eq_noiseFloor (metrics : List Metrics) :
    fadd (if isTinyValue metrics then fmul (calculateCombinedMeanDiff metrics) 2
      else calculateCombinedMeanDiff metrics) 1 = noiseFloor metrics := by
  unfold noiseFloor
  rw [calculateCombinedMeanDiff_eq, isTinyValue_eq, fadd_comm]
  by_cases h : ∀ m ∈ metrics, m.Mean < 32
  · rw [if_pos (decide_eq_true h), if_pos h]
  · rw [if_neg (by simpa using h), if_neg h]

theorem colorizeRows_eq_map (c : Colorizer) (b : Bool) (rows : List Row) :
    colorizeRows c b rows = rows.map (colorizeRow c b) := by
  induction rows with
  | nil => rfl
  | cons r rest ih => simp [colorizeRows, ih]

theorem colorizeBenchstatTables_getElem? (c : Colorizer) (tables : List Table)
    (increasing : StringSet) (i : Nat) :
    (colorizeBenchstatTables c tables increasing)[i]?
      = (tables[i]?).map (fun tb =>
          { tb with Rows := tb.Rows.map (colorizeRow c (decide (tb.Metric ∈ increasing))) }) := by
  induction tables generalizing i with
  | nil => simp [colorizeBenchstatTables]
  | cons tb rest ih =>
    cases i with
    | zero => simp [colorizeBenchstatTables, colorizeRows_eq_map]
    | succ k => simp [colorizeBenchstatTables, ih]

/-- Position-wise description of `colorizeBenchstatTables`: the row at position `(i, j)` of
the result is the loop body applied to the row at position `(i, j)` of the input. -/
theorem rowAt_colorizeBenchstatTables (c : Colorizer) (tables : List Table)
    (increasing : StringSet) (i j : Nat) (tb : Table) (row : Row)
    (htb : tables[i]? = some tb) (hrow : tb.Rows[j]? = some row) :
    rowAt (colorizeBenchstatTables c tables increasing) i j
      = some (colorizeRow c (decide (tb.Metric ∈ increasing)) row) := by
  simp [rowAt, colorizeBenchstatTables_getElem?, htb, hrow]

theorem avgValue_pair (m0 m1 : Metrics) :
    avgValue [m0, m1] = fdiv (fadd (fadd 0 m0.Mean) m1.Mean) 2 := by
  simp [avgValue, avgValueLoop]

theorem isEpsilonDelta_pair (m0 m1 : Metrics) :
    isEpsilonDelta [m0, m1]
      = decide (|fsub m0.Mean m1.Mean|
          ≤ getValueEpsilon (fdiv (fadd (fadd 0 m0.Mean) m1.Mean) 2)) := by
  simp [isEpsilonDelta, avgValue_pair]

theorem isEpsilonDelta_of_length_ne (metrics : List Metrics) (h : metrics.length ≠ 2) :
    isEpsilonDelta metrics = false := by
  simp [isEpsilonDelta, h]

theorem getValueEpsilon_eq_epsilonOf (avg : ℚ) : getValueEpsilon avg = epsilonOf avg := rfl

theorem getValueEpsilon_ge (a : ℚ) :
    1 ≤ getValueEpsilon a ∧ (10 ≤ a → 2 ≤ getValueEpsilon a)
    ∧ (32 ≤ a → 3 ≤ getValueEpsilon a) ∧ (80 ≤ a → 4 ≤ getValueEpsilon a) := by
  unfold getValueEpsilon
  refine ⟨?_, ?_, ?_, ?_⟩
  · split_ifs <;> norm_num
  · intro h
    split_ifs <;> linarith
  · intro h
    split_ifs <;> linarith
  · intro h
    split_ifs <;> linarith

theorem abs_roundFloat64_le (x : ℚ) (E : ℤ) (hE : |E| < 2 ^ 53) (h : |x| ≤ (E : ℚ)) :
    |roundFloat64 x| ≤ (E : ℚ) := by
  rw [abs_le] at h ⊢
  have hE' : |(-E)| < 2 ^ 53 := by rwa [abs_neg]
  have h1 := roundFloat64_mono h.1
  have h2 := roundFloat64_mono h.2
  rw [roundFloat64_intCast E hE] at h2
  have h3 : roundFloat64 (-(E : ℚ)) = -(E : ℚ) := by
    have := roundFloat64_intCast (-E) hE'
    simpa using this
  rw [h3] at h1
  exact ⟨h1, h2⟩

/-- The float64 average of two float64 values does not fall below an integer threshold that
their exact average reaches. -/
theorem avg_ge_of_exact_ge (x y : ℚ) (hx : roundFloat64 x = x) (T : ℤ) (hT : |2 * T| < 2 ^ 53)
    (h : (T : ℚ) ≤ (x + y) / 2) : (T : ℚ) ≤ fdiv (fadd (fadd 0 x) y) 2 := by
  have hT1 : |T| < 2 ^ 53 := by
    have : |2 * T| = 2 * |T| := by rw [abs_mul]; simp
    omega
  have h0 : fadd 0 x = x := by unfold fadd; rw [zero_add, hx]
  rw [h0]
  unfold fdiv fadd
  have hs : ((2 * T : ℤ) : ℚ) ≤ x + y := by push_cast; linarith
  have h1 := roundFloat64_mono hs
  rw [roundFloat64_intCast (2 * T) hT] at h1
  have h2 : (T : ℚ) ≤ roundFloat64 (x + y) / 2 := by
    push_cast at h1; linarith
  have h3 := roundFloat64_mono h2
  rwa [roundFloat64_intCast T hT1] at h3

/-- Two float64 means whose exact difference is within the epsilon of their exact average
pass the epsilon test the code computes in float64 arithmetic. -/
theorem isEpsilonDelta_of_exact (m0 m1 : Metrics) (h0 : roundFloat64 m0.Mean = m0.Mean)
    (h : |m0.Mean - m1.Mean| ≤ epsilonOf ((m0.Mean + m1.Mean) / 2)) :
    isEpsilonDelta [m0, m1] = true := by
  rw [isEpsilonDelta_pair, decide_eq_true_eq]
  obtain ⟨g1, g2, g3, g4⟩ := getValueEpsilon_ge (fdiv (fadd (fadd 0 m0.Mean) m1.Mean) 2)
  have a10 := avg_ge_of_exact_ge m0.Mean m1.Mean h0 10 (by norm_num)
  have a32 := avg_ge_of_exact_ge m0.Mean m1.Mean h0 32 (by norm_num)
  have a80 := avg_ge_of_exact_ge m0.Mean m1.Mean h0 80 (by norm_num)
  unfold epsilonOf at h
  unfold fsub
  by_cases c10 : (m0.Mean + m1.Mean) / 2 < 10
  · rw [if_pos c10] at h
    have := abs_roundFloat64_le (m0.Mean - m1.Mean) 1 (by norm_num) (by simpa using h)
    push_cast at this
    linarith
  · rw [if_neg c10] at h
    by_cases c32 : (m0.Mean + m1.Mean) / 2 < 32
    · rw [if_pos c32] at h
      have := abs_roundFloat64_le (m0.Mean - m1.Mean) 2 (by norm_num) (by simpa using h)
      have := g2 (a10 (by push_cast; linarith))
      push_cast at *
      linarith
    · rw [if_neg c32] at h
      by_cases c80 : (m0.Mean + m1.Mean) / 2 < 80
      · rw [if_pos c80] at h
        have := abs_roundFloat64_le (m0.Mean - m1.Mean) 3 (by norm_num) (by simpa using h)
        have := g3 (a32 (by push_cast; linarith))
        push_cast at *
        linarith
      · rw [if_neg c80] at h
        have := abs_roundFloat64_le (m0.Mean - m1.Mean) 4 (by norm_num) (by simpa using h)
        have := g4 (a80 (by push_cast; linarith))
        push_cast at *
        linarith

/-- The loop body on a row that passes the epsilon check, with the bound written as the
noise floor. -/
theorem colorizeRow_of_not_epsilon (c : Colorizer) (b : Bool) (row : Row)
    (h : isEpsilonDelta row.Metrics = false) :
    colorizeRow c b row
      = if |row.PctDelta| < noiseFloor row.Metrics then
          { row with Delta := c.yellowColorize "~" }
        else if HasPrefix row.Delta "+" then
          if b then { row with Delta := c.greenColorize row.Delta }
          else { row with Delta := c.redColorize row.Delta }
        else if HasPrefix row.Delta "-" then
          if b then { row with Delta := c.redColorize row.Delta }
          else { row with Delta := c.greenColorize row.Delta }
        else { row with Delta := c.yellowColorize row.Delta } := by
  unfold colorizeRow
  simp only [h, Bool.false_eq_true, if_false]
  rw [colorize_bound_eq_noiseFloor]

theorem colorizeRow_of_epsilon (c : Colorizer) (b : Bool) (row : Row)
    (h : isEpsilonDelta row.Metrics = true) :
    colorizeRow c b row = { row with Delta := c.yellowColorize "~" } := by
  simp [colorizeRow, h]

/-! ### Evaluation at sample rows -/

theorem isEpsilonDelta_flat_100_101 :
    isEpsilonDelta [flatMetric 100, flatMetric 101] = true := by
  have r100 : roundFloat64 100 = 100 := by simpa using roundFloat64_intCast 100 (by norm_num)
  have r201 : roundFloat64 201 = 201 := by simpa using roundFloat64_intCast 201 (by norm_num)
  have rm1 : roundFloat64 (-1) = -1 := by simpa using roundFloat64_intCast (-1) (by norm_num)
  have rh : roundFloat64 (201 / 2) = 201 / 2 :=
    roundFloat64_eq_self_of _ 201 (-1) (by norm_num) (by norm_num) (by norm_num)
  rw [isEpsilonDelta_pair]
  norm_num [flatMetric, fadd, fsub, fdiv, getValueEpsilon, r100, r201, rm1, rh]

theorem avg_flat_100_101 :
    fdiv (fadd (fadd 0 (flatMetric 100).Mean) (flatMetric 101).Mean) 2 = 201 / 2 := by
  have r100 : roundFloat64 100 = 100 := by simpa using roundFloat64_intCast 100 (by norm_num)
  have r201 : roundFloat64 201 = 201 := by simpa using roundFloat64_intCast 201 (by norm_num)
  have rh : roundFloat64 (201 / 2) = 201 / 2 :=
    roundFloat64_eq_self_of _ 201 (-1) (by norm_num) (by norm_num) (by norm_num)
  norm_num [flatMetric, fadd, fdiv, r100, r201, rh]

theorem isEpsilonDelta_flat_100_150 :
    isEpsilonDelta [flatMetric 100, flatMetric 150] = false := by
  have r100 : roundFloat64 100 = 100 := by simpa using roundFloat64_intCast 100 (by norm_num)
  have r250 : roundFloat64 250 = 250 := by simpa using roundFloat64_intCast 250 (by norm_num)
  have r125 : roundFloat64 125 = 125 := by simpa using roundFloat64_intCast 125 (by norm_num)
  have rm : roundFloat64 (-50) = -50 := by simpa using roundFloat64_intCast (-50) (by norm_num)
  rw [isEpsilonDelta_pair]
  norm_num [flatMetric, fadd, fsub, fdiv, getValueEpsilon, r100, r250, r125, rm]

theorem noiseFloor_flat (a b : ℚ) (h : 32 ≤ a) :
    noiseFloor [flatMetric a, flatMetric b] = 1 := by
  have hn : ¬ ∀ m ∈ [flatMetric a, flatMetric b], m.Mean < 32 := by
    intro hall
    have := hall (flatMetric a) (by simp)
    simp only [flatMetric] at this
    linarith
  unfold noiseFloor
  rw [if_neg hn]
  simp [spreadSum, flatMetric, fadd, roundFloat64_one]

theorem calculateMeanDiff_80_100_120 :
    calculateMeanDiff (spreadMetric 80 100 120) = 900719925474099 / 4503599627370496 := by
  have h1 : fdiv 80 100 = 3602879701896397 / 4503599627370496 := by
    unfold fdiv
    rw [roundFloat64_eval (80 / 100) (-1) (-53) 7205759403792794 (by norm_num)
      (by norm_num [abs_of_pos]) (by norm_num [abs_of_pos]) (by norm_num [abs_lt])]
    norm_num
  have h2 : fdiv 120 100 = 5404319552844595 / 4503599627370496 := by
    unfold fdiv
    rw [roundFloat64_eval (120 / 100) 0 (-52) 5404319552844595 (by norm_num)
      (by norm_num [abs_of_pos]) (by norm_num [abs_of_pos]) (by norm_num [abs_lt])]
    norm_num
  have h3 : fsub 1 (3602879701896397 / 4503599627370496)
      = 900719925474099 / 4503599627370496 := by
    unfold fsub
    rw [roundFloat64_eq_self_of _ 900719925474099 (-52) (by norm_num) (by norm_num)
      (by norm_num)]
    norm_num
  have h4 : fsub (5404319552844595 / 4503599627370496) 1
      = 900719925474099 / 4503599627370496 := by
    unfold fsub
    rw [roundFloat64_eq_self_of _ 900719925474099 (-52) (by norm_num) (by norm_num)
      (by norm_num)]
    norm_num
  unfold calculateMeanDiff
  simp only [spreadMetric]
  rw [if_neg (by norm_num), h1, h2, h3, h4]
  simp

theorem noiseFloor_spreadRow (pct : ℚ) (delta : String) :
    noiseFloor (spreadRow pct delta).Metrics = 5910974510923775 / 281474976710656 := by
  have h1 : fmul 100 (900719925474099 / 4503599627370496)
      = 5629499534213119 / 281474976710656 := by
    unfold fmul
    rw [roundFloat64_eval _ 4 (-48) 5629499534213119 (by norm_num)
      (by norm_num [abs_of_pos]) (by norm_num [abs_of_pos]) (by norm_num [abs_lt])]
    norm_num
  have h2 : fadd 0 (5629499534213119 / 281474976710656)
      = 5629499534213119 / 281474976710656 := by
    unfold fadd
    rw [roundFloat64_eq_self_of _ 5629499534213119 (-48) (by norm_num) (by norm_num)
      (by norm_num)]
    norm_num
  have h3 : fadd 1 (5629499534213119 / 281474976710656)
      = 5910974510923775 / 281474976710656 := by
    unfold fadd
    rw [roundFloat64_eq_self_of _ 5910974510923775 (-48) (by norm_num) (by norm_num)
      (by norm_num)]
    norm_num
  have hn : ¬ ∀ m ∈ (spreadRow pct delta).Metrics, m.Mean < 32 := by
    intro hall
    have := hall (spreadMetric 80 100 120) (by simp [spreadRow])
    simp only [spreadMetric] at this
    linarith
  have hs : spreadSum (spreadRow pct delta).Metrics = 5629499534213119 / 281474976710656 := by
    have hf : (spreadRow pct delta).Metrics.filter (fun m => decide (m.Min ≠ m.Max))
        = [spreadMetric 80 100 120] := by
      simp [spreadRow, spreadMetric, flatMetric, List.filter_cons]
    unfold spreadSum
    rw [hf]
    simp only [List.map_cons, List.map_nil, List.foldl_cons, List.foldl_nil,
      calculateMeanDiff_80_100_120, h1, h2]
  unfold noiseFloor
  rw [if_neg hn, hs, h3]

theorem isEpsilonDelta_spreadRow (pct : ℚ) (delta : String) :
    isEpsilonDelta (spreadRow pct delta).Metrics = false := by
  have r100 : roundFloat64 100 = 100 := by simpa using roundFloat64_intCast 100 (by norm_num)
  have r221 : roundFloat64 221 = 221 := by simpa using roundFloat64_intCast 221 (by norm_num)
  have rm : roundFloat64 (-21) = -21 := by simpa using roundFloat64_intCast (-21) (by norm_num)
  have rh : roundFloat64 (221 / 2) = 221 / 2 :=
    roundFloat64_eq_self_of _ 221 (-1) (by norm_num) (by norm_num) (by norm_num)
  rw [show (spreadRow pct delta).Metrics = [spreadMetric 80 100 120, flatMetric 121] from rfl,
    isEpsilonDelta_pair]
  norm_num [spreadMetric, flatMetric, fadd, fsub, fdiv, getValueEpsilon, r100, r221, rm, rh]

/-- The float64 sum of 9.25 and 10.749999999999998 is a tie and rounds to 20, so the
average is 10 and the epsilon check of the code holds with epsilon 2, although the exact
average is below 10 and the exact difference above 1. -/
theorem isEpsilonDelta_rounded_average :
    fadd (fadd 0 (37 / 4)) (6051711999279103 / 562949953421312) = 20
    ∧ fdiv (fadd (fadd 0 (37 / 4)) (6051711999279103 / 562949953421312)) 2 = 10
    ∧ fsub (37 / 4) (6051711999279103 / 562949953421312)
        = -(844424930131967 / 562949953421312)
    ∧ isEpsilonDelta [flatMetric (37 / 4),
        flatMetric (6051711999279103 / 562949953421312)] = true
    ∧ ((37 / 4 : ℚ) + 6051711999279103 / 562949953421312) / 2 < 10
    ∧ ¬ |(37 / 4 : ℚ) - 6051711999279103 / 562949953421312| ≤ 1 := by
  have h0 : fadd 0 (37 / 4) = 37 / 4 := by
    unfold fadd
    rw [roundFloat64_eq_self_of _ 37 (-2) (by norm_num) (by norm_num) (by norm_num)]
    norm_num
  have h1 : fadd (37 / 4) (6051711999279103 / 562949953421312) = 20 := by
    unfold fadd
    rw [roundFloat64_tie _ 4 (-48) 5629499534213119 (by norm_num)
      (by norm_num [abs_of_pos]) (by norm_num [abs_of_pos]) (by norm_num)]
    norm_num
  have h2 : fdiv 20 2 = 10 := by
    unfold fdiv
    rw [roundFloat64_eq_self_of _ 10 0 (by norm_num) (by norm_num) (by norm_num)]
    norm_num
  have h3 : fsub (37 / 4) (6051711999279103 / 562949953421312)
      = -(844424930131967 / 562949953421312) := by
    unfold fsub
    rw [roundFloat64_eq_self_of _ (-844424930131967) (-49) (by norm_num) (by norm_num)
      (by norm_num)]
    norm_num
  refine ⟨by rw [h0, h1], by rw [h0, h1, h2], h3, ?_, by norm_num, ?_⟩
  · rw [isEpsilonDelta_pair]
    simp only [flatMetric, h0, h1, h2, h3, getValueEpsilon]
    norm_num [abs_le]
  · rw [abs_le]
    norm_num

theorem fdiv_nine_tenths (a b : ℚ) (h : a / b = 9 / 10) :
    fdiv a b = 8106479329266893 / 9007199254740992 := by
  unfold fdiv
  rw [h, roundFloat64_eval (9 / 10) (-1) (-53) 8106479329266893 (by norm_num)
    (by norm_num [abs_of_pos]) (by norm_num [abs_of_pos]) (by norm_num [abs_lt])]
  norm_num

theorem fdiv_eleven_tenths (a b : ℚ) (h : a / b = 11 / 10) :
    fdiv a b = 2476979795053773 / 2251799813685248 := by
  unfold fdiv
  rw [h, roundFloat64_eval (11 / 10) 0 (-52) 4953959590107546 (by norm_num)
    (by norm_num [abs_of_pos]) (by norm_num [abs_of_pos]) (by norm_num [abs_lt])]
  norm_num

theorem calculateMeanDiff_tenth (lo mean hi : ℚ) (hm : mean ≠ 0) (hh : hi ≠ 0)
    (h1 : lo / mean = 9 / 10) (h2 : hi / mean = 11 / 10) :
    calculateMeanDiff (spreadMetric lo mean hi) = 225179981368525 / 2251799813685248 := by
  have h3 : fsub 1 (8106479329266893 / 9007199254740992)
      = 900719925474099 / 9007199254740992 := by
    unfold fsub
    rw [roundFloat64_eq_self_of _ 900719925474099 (-53) (by norm_num) (by norm_num)
      (by norm_num)]
    norm_num
  have h4 : fsub (2476979795053773 / 2251799813685248) 1
      = 225179981368525 / 2251799813685248 := by
    unfold fsub
    rw [roundFloat64_eq_self_of _ 225179981368525 (-51) (by norm_num) (by norm_num)
      (by norm_num)]
    norm_num
  unfold calculateMeanDiff
  simp only [spreadMetric]
  rw [if_neg (by simp [hm, hh]), fdiv_nine_tenths lo mean h1, fdiv_eleven_tenths hi mean h2,
    h3, h4]
  norm_num

theorem noiseFloor_spreadBothRow (pct : ℚ) (delta : String) :
    noiseFloor (spreadBothRow pct delta).Metrics = 5910974510923781 / 281474976710656 := by
  have h1 : fmul 100 (225179981368525 / 2251799813685248)
      = 5629499534213125 / 562949953421312 := by
    unfold fmul
    rw [roundFloat64_eq_self_of _ 5629499534213125 (-49) (by norm_num) (by norm_num)
      (by norm_num)]
    norm_num
  have h2 : fadd 0 (5629499534213125 / 562949953421312)
      = 5629499534213125 / 562949953421312 := by
    unfold fadd
    rw [roundFloat64_eq_self_of _ 5629499534213125 (-49) (by norm_num) (by norm_num)
      (by norm_num)]
    norm_num
  have h3 : fadd (5629499534213125 / 562949953421312) (5629499534213125 / 562949953421312)
      = 5629499534213125 / 281474976710656 := by
    unfold fadd
    rw [roundFloat64_eq_self_of _ 5629499534213125 (-48) (by norm_num) (by norm_num)
      (by norm_num)]
    norm_num
  have h4 : fadd 1 (5629499534213125 / 281474976710656)
      = 5910974510923781 / 281474976710656 := by
    unfold fadd
    rw [roundFloat64_eq_self_of _ 5910974510923781 (-48) (by norm_num) (by norm_num)
      (by norm_num)]
    norm_num
  have hn : ¬ ∀ m ∈ (spreadBothRow pct delta).Metrics, m.Mean < 32 := by
    intro hall
    have := hall (spreadMetric 90 100 110) (by simp [spreadBothRow])
    simp only [spreadMetric] at this
    linarith
  have hs : spreadSum (spreadBothRow pct delta).Metrics
      = 5629499534213125 / 281474976710656 := by
    have hf : (spreadBothRow pct delta).Metrics.filter (fun m => decide (m.Min ≠ m.Max))
        = [spreadMetric 90 100 110, spreadMetric 135 150 165] := by
      simp [spreadBothRow, spreadMetric, List.filter_cons]
    unfold spreadSum
    rw [hf]
    simp only [List.map_cons, List.map_nil, List.foldl_cons, List.foldl_nil,
      calculateMeanDiff_tenth 90 100 110 (by norm_num) (by norm_num) (by norm_num)
        (by norm_num),
      calculateMeanDiff_tenth 135 150 165 (by norm_num) (by norm_num) (by norm_num)
        (by norm_num), h1, h2, h3]
  unfold noiseFloor
  rw [if_neg hn, hs, h4]

theorem isEpsilonDelta_spreadBothRow (pct : ℚ) (delta : String) :
    isEpsilonDelta (spreadBothRow pct delta).Metrics = false := by
  have r100 : roundFloat64 100 = 100 := by simpa using roundFloat64_intCast 100 (by norm_num)
  have r250 : roundFloat64 250 = 250 := by simpa using roundFloat64_intCast 250 (by norm_num)
  have r125 : roundFloat64 125 = 125 := by simpa using roundFloat64_intCast 125 (by norm_num)
  have rm : roundFloat64 (-50) = -50 := by simpa using roundFloat64_intCast (-50) (by norm_num)
  rw [show (spreadBothRow pct delta).Metrics
      = [spreadMetric 90 100 110, spreadMetric 135 150 165] from rfl, isEpsilonDelta_pair]
  norm_num [spreadMetric, fadd, fsub, fdiv, getValueEpsilon, r100, r250, r125, rm]

/-! ## Claims on the severity filter -/

/-- C1: `skipBenchstatTables` keeps exactly the regressions. For every table list, every
threshold `t > 0` and every increasing-set, the result is the input with each table's rows
filtered, in their original order, by the predicate "the metric is in the increasing-set
and `-PctDelta ≥ t`, or the metric is not in the set and `PctDelta ≥ t`", the tables left
without rows being omitted. -/
theorem skipBenchstatTables_keeps_exactly_regressions (tables : List Table) (t : ℚ)
    (increasing : StringSet) (_ht : 0 < t) :
    skipBenchstatTables tables t increasing
      = (tables.map (fun tb =>
          { tb with Rows :=
              tb.Rows.filter (fun r => decide (isRegression increasing tb.Metric t r)) })).filter
          (fun tb => !tb.Rows.isEmpty) := by
  unfold skipBenchstatTables
  rw [skipTables_eq]
  rfl

/-- Witness of C1: a bigger-is-better row with `PctDelta = -20` is kept at threshold 10 and
dropped at threshold 25. -/
theorem skipBenchstatTables_keeps_exactly_regressions_witness :
    (0 : ℚ) < 10
    ∧ skipBenchstatTables [fooTable "ops/s" (fooRow 100 80 (-20) "-20.00%")] 10 ["ops/s"]
      = ([fooTable "ops/s" (fooRow 100 80 (-20) "-20.00%")].map (fun tb =>
          { tb with Rows :=
              tb.Rows.filter (fun r => decide (isRegression ["ops/s"] tb.Metric 10 r)) })).filter
          (fun tb => !tb.Rows.isEmpty)
    ∧ skipBenchstatTables [fooTable "ops/s" (fooRow 100 80 (-20) "-20.00%")] 10 ["ops/s"]
      = [fooTable "ops/s" (fooRow 100 80 (-20) "-20.00%")]
    ∧ skipBenchstatTables [fooTable "ops/s" (fooRow 100 80 (-20) "-20.00%")] 25 ["ops/s"]
      = [] :=
  ⟨by decide,
   skipBenchstatTables_keeps_exactly_regressions
     [fooTable "ops/s" (fooRow 100 80 (-20) "-20.00%")] 10 ["ops/s"] (by decide),
   by decide, by decide⟩

/-! ## Claims on the classifier -/

/-- C2: for every row with exactly two metrics whose means differ by no more than
`epsilon(avg)`, `avg` the average of the two means and `epsilon` 1 for `avg < 10`, 2 for
`avg < 32`, 3 for `avg < 80` and 4 otherwise, `colorizeBenchstatTables` sets the delta of the
row to the colourised neutral marker whatever `PctDelta` and the delta string are, all other
fields unchanged. This holds when difference and average are the float64 values the code
computes, and also when they are the exact difference and average of two float64 means.
For a metric list whose length is not 2 the epsilon check is false. -/
theorem colorizeBenchstatTables_epsilon_noise (c : Colorizer) :
    (∀ (tables : List Table) (increasing : StringSet) (i j : Nat) (tb : Table) (row : Row)
        (m0 m1 : Metrics),
        tables[i]? = some tb → tb.Rows[j]? = some row → row.Metrics = [m0, m1] →
        |fsub m0.Mean m1.Mean|
          ≤ (if fdiv (fadd (fadd 0 m0.Mean) m1.Mean) 2 < 10 then 1
            else if fdiv (fadd (fadd 0 m0.Mean) m1.Mean) 2 < 32 then 2
            else if fdiv (fadd (fadd 0 m0.Mean) m1.Mean) 2 < 80 then 3
            else 4) →
        rowAt (colorizeBenchstatTables c tables increasing) i j
          = some { row with Delta := c.yellowColorize "~" })
    ∧ (∀ (tables : List Table) (increasing : StringSet) (i j : Nat) (tb : Table) (row : Row)
        (m0 m1 : Metrics),
        tables[i]? = some tb → tb.Rows[j]? = some row → row.Metrics = [m0, m1] →
        roundFloat64 m0.Mean = m0.Mean → roundFloat64 m1.Mean = m1.Mean →
        |m0.Mean - m1.Mean|
          ≤ (if (m0.Mean + m1.Mean) / 2 < 10 then 1
            else if (m0.Mean + m1.Mean) / 2 < 32 then 2
            else if (m0.Mean + m1.Mean) / 2 < 80 then 3
            else 4) →
        rowAt (colorizeBenchstatTables c tables increasing) i j
          = some { row with Delta := c.yellowColorize "~" })
    ∧ (∀ metrics : List Metrics, metrics.length ≠ 2 → isEpsilonDelta metrics = false) := by
  refine ⟨?_, ?_, isEpsilonDelta_of_length_ne⟩
  · intro tables increasing i j tb row m0 m1 htb hrow hm heps
    rw [rowAt_colorizeBenchstatTables c tables increasing i j tb row htb hrow]
    have h : isEpsilonDelta row.Metrics = true := by
      rw [hm, isEpsilonDelta_pair]
      exact decide_eq_true heps
    rw [colorizeRow_of_epsilon c _ row h]
  · intro tables increasing i j tb row m0 m1 htb hrow hm h0 _ heps
    rw [rowAt_colorizeBenchstatTables c tables increasing i j tb row htb hrow]
    have h : isEpsilonDelta row.Metrics = true := by
      rw [hm]
      exact isEpsilonDelta_of_exact m0 m1 h0 heps
    rw [colorizeRow_of_epsilon c _ row h]

/-- Witness of C2: means 100 and 101 give `avg = 100.5`, epsilon 4 and `|100 - 101| = 1 ≤ 4`,
in float64 as in exact arithmetic, so the delta becomes the colourised neutral marker. Means
9.25 and 10.749999999999998 have the float64 average 10, epsilon 2, and the float64
difference 1.4999999999999982, so the delta becomes the colourised neutral marker. -/
theorem colorizeBenchstatTables_epsilon_noise_witness :
    [fooTable "ns/op" (fooRow 100 101 1 "+1.00%")][0]?
        = some (fooTable "ns/op" (fooRow 100 101 1 "+1.00%"))
    ∧ (fooTable "ns/op" (fooRow 100 101 1 "+1.00%")).Rows[0]?
        = some (fooRow 100 101 1 "+1.00%")
    ∧ (fooRow 100 101 1 "+1.00%").Metrics = [flatMetric 100, flatMetric 101]
    ∧ fdiv (fadd (fadd 0 (flatMetric 100).Mean) (flatMetric 101).Mean) 2 = 201 / 2
    ∧ fsub (flatMetric 100).Mean (flatMetric 101).Mean = -1
    ∧ roundFloat64 (flatMetric 100).Mean = (flatMetric 100).Mean
    ∧ roundFloat64 (flatMetric 101).Mean = (flatMetric 101).Mean
    ∧ |(flatMetric 100).Mean - (flatMetric 101).Mean|
        ≤ (if ((flatMetric 100).Mean + (flatMetric 101).Mean) / 2 < 10 then 1
          else if ((flatMetric 100).Mean + (flatMetric 101).Mean) / 2 < 32 then 2
          else if ((flatMetric 100).Mean + (flatMetric 101).Mean) / 2 < 80 then 3
          else 4)
    ∧ rowAt (colorizeBenchstatTables ansiColorizer
          [fooTable "ns/op" (fooRow 100 101 1 "+1.00%")] []) 0 0
        = some { fooRow 100 101 1 "+1.00%" with Delta := ansiColorizer.yellowColorize "~" }
    ∧ |fsub (flatMetric (37 / 4)).Mean (flatMetric (6051711999279103 / 562949953421312)).Mean|
        ≤ (if fdiv (fadd (fadd 0 (flatMetric (37 / 4)).Mean)
              (flatMetric (6051711999279103 / 562949953421312)).Mean) 2 < 10 then 1
          else if fdiv (fadd (fadd 0 (flatMetric (37 / 4)).Mean)
              (flatMetric (6051711999279103 / 562949953421312)).Mean) 2 < 32 then 2
          else if fdiv (fadd (fadd 0 (flatMetric (37 / 4)).Mean)
              (flatMetric (6051711999279103 / 562949953421312)).Mean) 2 < 80 then 3
          else 4)
    ∧ rowAt (colorizeBenchstatTables ansiColorizer
          [fooTable "ns/op"
            (fooRow (37 / 4) (6051711999279103 / 562949953421312) 16 "+16.22%")] []) 0 0
        = some { fooRow (37 / 4) (6051711999279103 / 562949953421312) 16 "+16.22%" with
                  Delta := ansiColorizer.yellowColorize "~" } := by
  have r100 : roundFloat64 (flatMetric 100).Mean = (flatMetric 100).Mean := by
    simpa [flatMetric] using roundFloat64_intCast 100 (by norm_num)
  have r101 : roundFloat64 (flatMetric 101).Mean = (flatMetric 101).Mean := by
    simpa [flatMetric] using roundFloat64_intCast 101 (by norm_num)
  have hs : fsub (flatMetric 100).Mean (flatMetric 101).Mean = -1 := by
    have rm1 : roundFloat64 (-1) = -1 := by
      simpa using roundFloat64_intCast (-1) (by norm_num)
    norm_num [flatMetric, fsub, rm1]
  have he : |(flatMetric 100).Mean - (flatMetric 101).Mean|
      ≤ (if ((flatMetric 100).Mean + (flatMetric 101).Mean) / 2 < 10 then 1
        else if ((flatMetric 100).Mean + (flatMetric 101).Mean) / 2 < 32 then 2
        else if ((flatMetric 100).Mean + (flatMetric 101).Mean) / 2 < 80 then 3
        else 4) := by
    norm_num [flatMetric, abs_le]
  have hf : |fsub (flatMetric (37 / 4)).Mean
        (flatMetric (6051711999279103 / 562949953421312)).Mean|
      ≤ (if fdiv (fadd (fadd 0 (flatMetric (37 / 4)).Mean)
            (flatMetric (6051711999279103 / 562949953421312)).Mean) 2 < 10 then 1
        else if fdiv (fadd (fadd 0 (flatMetric (37 / 4)).Mean)
            (flatMetric (6051711999279103 / 562949953421312)).Mean) 2 < 32 then 2
        else if fdiv (fadd (fadd 0 (flatMetric (37 / 4)).Mean)
            (flatMetric (6051711999279103 / 562949953421312)).Mean) 2 < 80 then 3
        else 4) := by
    simp only [flatMetric, isEpsilonDelta_rounded_average.2.1,
      isEpsilonDelta_rounded_average.2.2.1]
    norm_num [abs_le]
  exact ⟨rfl, rfl, rfl, avg_flat_100_101, hs, r100, r101, he,
    (colorizeBenchstatTables_epsilon_noise ansiColorizer).2.1
      [fooTable "ns/op" (fooRow 100 101 1 "+1.00%")] [] 0 0
      (fooTable "ns/op" (fooRow 100 101 1 "+1.00%")) (fooRow 100 101 1 "+1.00%")
      (flatMetric 100) (flatMetric 101) rfl rfl rfl r100 r101 he,
    hf,
    (colorizeBenchstatTables_epsilon_noise ansiColorizer).1
      [fooTable "ns/op"
        (fooRow (37 / 4) (6051711999279103 / 562949953421312) 16 "+16.22%")] [] 0 0
      (fooTable "ns/op" (fooRow (37 / 4) (6051711999279103 / 562949953421312) 16 "+16.22%"))
      (fooRow (37 / 4) (6051711999279103 / 562949953421312) 16 "+16.22%")
      (flatMetric (37 / 4)) (flatMetric (6051711999279103 / 562949953421312))
      rfl rfl rfl hf⟩

theorem HasPrefix_plus_minus (s : String) (h : HasPrefix s "-" = true) :
    HasPrefix s "+" = false := by
  have hm : ("-" : String).data = ['-'] := rfl
  have hp : ("+" : String).data = ['+'] := rfl
  unfold HasPrefix at h ⊢
  rw [hm] at h
  rw [hp]
  cases hs : s.data with
  | nil => simp [List.isPrefixOf]
  | cons a rest =>
    rw [hs] at h
    simp only [List.isPrefixOf, Bool.and_true, beq_iff_eq] at h
    subst h
    simp [List.isPrefixOf]

/-- Counterexample to C3 as stated. The row whose first metric has minimum 80, mean 100 and
maximum 120 and whose second metric is flat at 121 passes the epsilon check; its noise floor,
computed in float64 arithmetic, is 20.999999999999996 (5910974510923775 / 2^48). With
`PctDelta` equal to that value, which is also below the exact value 21 of the formula, its
delta `+21.00%` is not overwritten with the neutral marker but coloured red. The same happens
for flat metrics of means 100 and 150 (noise floor 1) at `PctDelta = 1`. -/
theorem colorizeBenchstatTables_floor_boundary_counterexample :
    isEpsilonDelta (spreadRow (5910974510923775 / 281474976710656) "+21.00%").Metrics = false
    ∧ noiseFloor (spreadRow (5910974510923775 / 281474976710656) "+21.00%").Metrics
        = 5910974510923775 / 281474976710656
    ∧ |(spreadRow (5910974510923775 / 281474976710656) "+21.00%").PctDelta|
        ≤ noiseFloor (spreadRow (5910974510923775 / 281474976710656) "+21.00%").Metrics
    ∧ |(spreadRow (5910974510923775 / 281474976710656) "+21.00%").PctDelta|
        ≤ 1 + 100 * (1 - 80 / 100)
    ∧ rowAt (colorizeBenchstatTables ansiColorizer
          [fooTable "ns/op" (spreadRow (5910974510923775 / 281474976710656) "+21.00%")] [])
          0 0
        = some { spreadRow (5910974510923775 / 281474976710656) "+21.00%" with
                  Delta := ansiColorizer.redColorize "+21.00%" }
    ∧ ansiColorizer.redColorize "+21.00%" ≠ ansiColorizer.yellowColorize "~"
    ∧ isEpsilonDelta (fooRow 100 150 1 "+1.00%").Metrics = false
    ∧ noiseFloor (fooRow 100 150 1 "+1.00%").Metrics = 1
    ∧ |(fooRow 100 150 1 "+1.00%").PctDelta| ≤ noiseFloor (fooRow 100 150 1 "+1.00%").Metrics
    ∧ rowAt (colorizeBenchstatTables ansiColorizer
          [fooTable "ns/op" (fooRow 100 150 1 "+1.00%")] []) 0 0
        = some { fooRow 100 150 1 "+1.00%" with
                  Delta := ansiColorizer.redColorize "+1.00%" }
    ∧ ansiColorizer.redColorize "+1.00%" ≠ ansiColorizer.yellowColorize "~" := by
  have he := isEpsilonDelta_spreadRow (5910974510923775 / 281474976710656) "+21.00%"
  have hf := noiseFloor_spreadRow (5910974510923775 / 281474976710656) "+21.00%"
  have he' : isEpsilonDelta (fooRow 100 150 1 "+1.00%").Metrics = false :=
    isEpsilonDelta_flat_100_150
  have hf' : noiseFloor (fooRow 100 150 1 "+1.00%").Metrics = 1 :=
    noiseFloor_flat 100 150 (by norm_num)
  refine ⟨he, hf, ?_, ?_, ?_, by decide, he', hf', ?_, ?_, by decide⟩
  · rw [hf]
    have hp : (spreadRow (5910974510923775 / 281474976710656) "+21.00%").PctDelta
        = 5910974510923775 / 281474976710656 := rfl
    rw [hp, abs_of_nonneg (by norm_num)]
  · have hp : (spreadRow (5910974510923775 / 281474976710656) "+21.00%").PctDelta
        = 5910974510923775 / 281474976710656 := rfl
    rw [hp, abs_of_nonneg (by norm_num)]
    norm_num
  · rw [rowAt_colorizeBenchstatTables ansiColorizer _ [] 0 0
      (fooTable "ns/op" (spreadRow (5910974510923775 / 281474976710656) "+21.00%"))
      (spreadRow (5910974510923775 / 281474976710656) "+21.00%") rfl rfl,
      colorizeRow_of_not_epsilon _ _ _ he, hf]
    have hp : HasPrefix (spreadRow (5910974510923775 / 281474976710656) "+21.00%").Delta "+"
        = true := by decide
    have hd : ¬ |(spreadRow (5910974510923775 / 281474976710656) "+21.00%").PctDelta|
        < 5910974510923775 / 281474976710656 := by
      have hq : (spreadRow (5910974510923775 / 281474976710656) "+21.00%").PctDelta
          = 5910974510923775 / 281474976710656 := rfl
      rw [hq, abs_of_nonneg (by norm_num)]
      exact lt_irrefl _
    rw [if_neg hd, if_pos hp]
    rfl
  · rw [hf']; norm_num [fooRow]
  · rw [rowAt_colorizeBenchstatTables ansiColorizer _ [] 0 0
      (fooTable "ns/op" (fooRow 100 150 1 "+1.00%")) (fooRow 100 150 1 "+1.00%") rfl rfl,
      colorizeRow_of_not_epsilon _ _ _ he', hf']
    have hp : HasPrefix (fooRow 100 150 1 "+1.00%").Delta "+" = true := by decide
    have hd : ¬ |(fooRow 100 150 1 "+1.00%").PctDelta| < 1 := by norm_num [fooRow]
    rw [if_neg hd, if_pos hp]
    rfl

/-- C3 (amended): for every row that passes the epsilon check, `colorizeBenchstatTables`
overwrites the delta with the colourised neutral marker whenever `|PctDelta|` is strictly
below the noise floor; the floor is the bound the code computes (main.go 268-273), in
float64 arithmetic one plus the sum over the metrics with `Min ≠ Max` of
`100 * calculateMeanDiff`, the sum doubled when every mean is below 32. A row whose
`|PctDelta|` equals or exceeds the floor keeps its own delta string, wrapped by one of the
three colour helpers. -/
theorem colorizeBenchstatTables_noise_floor (c : Colorizer) (tables : List Table)
    (increasing : StringSet) (i j : Nat) (tb : Table) (row : Row)
    (htb : tables[i]? = some tb) (hrow : tb.Rows[j]? = some row)
    (heps : isEpsilonDelta row.Metrics = false) :
    noiseFloor row.Metrics
      = fadd (if isTinyValue row.Metrics then fmul (calculateCombinedMeanDiff row.Metrics) 2
          else calculateCombinedMeanDiff row.Metrics) 1
    ∧ noiseFloor row.Metrics
      = fadd 1 (if ∀ m ∈ row.Metrics, m.Mean < 32 then
            fmul (((row.Metrics.filter (fun m => decide (m.Min ≠ m.Max))).map
              (fun m => fmul 100 (calculateMeanDiff m))).foldl fadd 0) 2
          else ((row.Metrics.filter (fun m => decide (m.Min ≠ m.Max))).map
              (fun m => fmul 100 (calculateMeanDiff m))).foldl fadd 0)
    ∧ (|row.PctDelta| < noiseFloor row.Metrics →
      rowAt (colorizeBenchstatTables c tables increasing) i j
        = some { row with Delta := c.yellowColorize "~" })
    ∧ (noiseFloor row.Metrics ≤ |row.PctDelta| →
      ∃ f ∈ [c.redColorize, c.greenColorize, c.yellowColorize],
        rowAt (colorizeBenchstatTables c tables increasing) i j
          = some { row with Delta := f row.Delta }) := by
  refine ⟨(colorize_bound_eq_noiseFloor row.Metrics).symm, rfl, ?_, ?_⟩
  · intro h
    rw [rowAt_colorizeBenchstatTables c tables increasing i j tb row htb hrow,
      colorizeRow_of_not_epsilon _ _ _ heps, if_pos h]
  · intro h
    rw [rowAt_colorizeBenchstatTables c tables increasing i j tb row htb hrow,
      colorizeRow_of_not_epsilon _ _ _ heps, if_neg (not_lt.mpr h)]
    by_cases hp : HasPrefix row.Delta "+" = true
    · by_cases hb : tb.Metric ∈ increasing
      · exact ⟨c.greenColorize, by simp, by simp [hp, hb]⟩
      · exact ⟨c.redColorize, by simp, by simp [hp, hb]⟩
    · by_cases hm : HasPrefix row.Delta "-" = true
      · by_cases hb : tb.Metric ∈ increasing
        · exact ⟨c.redColorize, by simp, by simp [hp, hm, hb]⟩
        · exact ⟨c.greenColorize, by simp, by simp [hp, hm, hb]⟩
      · exact ⟨c.yellowColorize, by simp, by simp [hp, hm]⟩

/-- Witness of C3 (amended): the row with metrics 80/100/120 and flat 121 has the float64
noise floor 20.999999999999996; with `PctDelta = 20` the delta is overwritten with the
colourised neutral marker. The row with metrics 90/100/110 and 135/150/165 has the float64
noise floor 21.000000000000018; with `PctDelta = 21` the delta is overwritten with the
colourised neutral marker. -/
theorem colorizeBenchstatTables_noise_floor_witness :
    [fooTable "ns/op" (spreadRow 20 "+20.00%")][0]?
        = some (fooTable "ns/op" (spreadRow 20 "+20.00%"))
    ∧ (fooTable "ns/op" (spreadRow 20 "+20.00%")).Rows[0]? = some (spreadRow 20 "+20.00%")
    ∧ isEpsilonDelta (spreadRow 20 "+20.00%").Metrics = false
    ∧ calculateMeanDiff (spreadMetric 80 100 120) = 900719925474099 / 4503599627370496
    ∧ noiseFloor (spreadRow 20 "+20.00%").Metrics = 5910974510923775 / 281474976710656
    ∧ |(spreadRow 20 "+20.00%").PctDelta| < noiseFloor (spreadRow 20 "+20.00%").Metrics
    ∧ rowAt (colorizeBenchstatTables ansiColorizer
          [fooTable "ns/op" (spreadRow 20 "+20.00%")] []) 0 0
        = some { spreadRow 20 "+20.00%" with Delta := ansiColorizer.yellowColorize "~" }
    ∧ isEpsilonDelta (spreadBothRow 21 "+21.00%").Metrics = false
    ∧ noiseFloor (spreadBothRow 21 "+21.00%").Metrics = 5910974510923781 / 281474976710656
    ∧ |(spreadBothRow 21 "+21.00%").PctDelta| < noiseFloor (spreadBothRow 21 "+21.00%").Metrics
    ∧ rowAt (colorizeBenchstatTables ansiColorizer
          [fooTable "ns/op" (spreadBothRow 21 "+21.00%")] []) 0 0
        = some { spreadBothRow 21 "+21.00%" with
                  Delta := ansiColorizer.yellowColorize "~" } := by
  have he := isEpsilonDelta_spreadRow 20 "+20.00%"
  have hf := noiseFloor_spreadRow 20 "+20.00%"
  have hlt : |(spreadRow 20 "+20.00%").PctDelta| < noiseFloor (spreadRow 20 "+20.00%").Metrics := by
    rw [hf]; norm_num [spreadRow, abs_lt]
  have he2 := isEpsilonDelta_spreadBothRow 21 "+21.00%"
  have hf2 := noiseFloor_spreadBothRow 21 "+21.00%"
  have hlt2 : |(spreadBothRow 21 "+21.00%").PctDelta|
      < noiseFloor (spreadBothRow 21 "+21.00%").Metrics := by
    rw [hf2]; norm_num [spreadBothRow, abs_lt]
  exact ⟨rfl, rfl, he, calculateMeanDiff_80_100_120, hf, hlt,
    (colorizeBenchstatTables_noise_floor ansiColorizer
      [fooTable "ns/op" (spreadRow 20 "+20.00%")] [] 0 0
      (fooTable "ns/op" (spreadRow 20 "+20.00%")) (spreadRow 20 "+20.00%")
      rfl rfl he).2.2.1 hlt,
    he2, hf2, hlt2,
    (colorizeBenchstatTables_noise_floor ansiColorizer
      [fooTable "ns/op" (spreadBothRow 21 "+21.00%")] [] 0 0
      (fooTable "ns/op" (spreadBothRow 21 "+21.00%")) (spreadBothRow 21 "+21.00%")
      rfl rfl he2).2.2.1 hlt2⟩

/-- C7: for every row that `colorizeBenchstatTables` classifies as signal (the epsilon check
of the code fails and `|PctDelta|` is not below the bound `d` the code computes in float64
arithmetic), a delta string starting with `+` is coloured green when the metric of the table
is in the increasing-set and red otherwise, a delta string starting with `-` is coloured red
when the metric is in the increasing-set and green otherwise, and any other delta string is
coloured yellow. -/
theorem colorizeBenchstatTables_signal_colour (c : Colorizer) (tables : List Table)
    (increasing : StringSet) (i j : Nat) (tb : Table) (row : Row)
    (htb : tables[i]? = some tb) (hrow : tb.Rows[j]? = some row)
    (heps : isEpsilonDelta row.Metrics = false)
    (hsignal : ¬ |row.PctDelta|
      < fadd (if isTinyValue row.Metrics then fmul (calculateCombinedMeanDiff row.Metrics) 2
          else calculateCombinedMeanDiff row.Metrics) 1) :
    (HasPrefix row.Delta "+" = true →
      rowAt (colorizeBenchstatTables c tables increasing) i j
        = some { row with Delta :=
            if tb.Metric ∈ increasing then c.greenColorize row.Delta
            else c.redColorize row.Delta })
    ∧ (HasPrefix row.Delta "-" = true →
      rowAt (colorizeBenchstatTables c tables increasing) i j
        = some { row with Delta :=
            if tb.Metric ∈ increasing then c.redColorize row.Delta
            else c.greenColorize row.Delta })
    ∧ (HasPrefix row.Delta "+" = false → HasPrefix row.Delta "-" = false →
      rowAt (colorizeBenchstatTables c tables increasing) i j
        = some { row with Delta := c.yellowColorize row.Delta }) := by
  rw [colorize_bound_eq_noiseFloor] at hsignal
  rw [rowAt_colorizeBenchstatTables c tables increasing i j tb row htb hrow,
    colorizeRow_of_not_epsilon _ _ _ heps, if_neg hsignal]
  refine ⟨?_, ?_, ?_⟩
  · intro hp
    by_cases hb : tb.Metric ∈ increasing <;> simp [hp, hb]
  · intro hm
    have hp := HasPrefix_plus_minus _ hm
    by_cases hb : tb.Metric ∈ increasing <;> simp [hp, hm, hb]
  · intro hp hm
    simp [hp, hm]

/-- Witness of C7: two configurations with means 100 and 150, `Min = Max = Mean`, delta
`+50.00%`, `PctDelta = 50`, metric not in the increasing-set: the bound is 1, `50 > 1`, and
the delta is coloured red. With spread, metrics 80/100/120 and flat 121, the bound is
20.999999999999996 and the delta `+21.00%` of `PctDelta = 21` is coloured red. -/
theorem colorizeBenchstatTables_signal_colour_witness :
    isEpsilonDelta (fooRow 100 150 50 "+50.00%").Metrics = false
    ∧ fadd (if isTinyValue (fooRow 100 150 50 "+50.00%").Metrics then
          fmul (calculateCombinedMeanDiff (fooRow 100 150 50 "+50.00%").Metrics) 2
        else calculateCombinedMeanDiff (fooRow 100 150 50 "+50.00%").Metrics) 1 = 1
    ∧ HasPrefix (fooRow 100 150 50 "+50.00%").Delta "+" = true
    ∧ rowAt (colorizeBenchstatTables ansiColorizer
          [fooTable "ns/op" (fooRow 100 150 50 "+50.00%")] []) 0 0
        = some { fooRow 100 150 50 "+50.00%" with
            Delta :=
              if (fooTable "ns/op" (fooRow 100 150 50 "+50.00%")).Metric ∈ ([] : StringSet)
              then ansiColorizer.greenColorize (fooRow 100 150 50 "+50.00%").Delta
              else ansiColorizer.redColorize (fooRow 100 150 50 "+50.00%").Delta }
    ∧ (if (fooTable "ns/op" (fooRow 100 150 50 "+50.00%")).Metric ∈ ([] : StringSet)
        then ansiColorizer.greenColorize (fooRow 100 150 50 "+50.00%").Delta
        else ansiColorizer.redColorize (fooRow 100 150 50 "+50.00%").Delta)
        = "\x1b[31m+50.00%\x1b[0m"
    ∧ isEpsilonDelta (spreadRow 21 "+21.00%").Metrics = false
    ∧ fadd (if isTinyValue (spreadRow 21 "+21.00%").Metrics then
          fmul (calculateCombinedMeanDiff (spreadRow 21 "+21.00%").Metrics) 2
        else calculateCombinedMeanDiff (spreadRow 21 "+21.00%").Metrics) 1
        = 5910974510923775 / 281474976710656
    ∧ rowAt (colorizeBenchstatTables ansiColorizer
          [fooTable "ns/op" (spreadRow 21 "+21.00%")] []) 0 0
        = some { spreadRow 21 "+21.00%" with
            Delta :=
              if (fooTable "ns/op" (spreadRow 21 "+21.00%")).Metric ∈ ([] : StringSet)
              then ansiColorizer.greenColorize (spreadRow 21 "+21.00%").Delta
              else ansiColorizer.redColorize (spreadRow 21 "+21.00%").Delta } := by
  have he : isEpsilonDelta (fooRow 100 150 50 "+50.00%").Metrics = false :=
    isEpsilonDelta_flat_100_150
  have hf : fadd (if isTinyValue (fooRow 100 150 50 "+50.00%").Metrics then
        fmul (calculateCombinedMeanDiff (fooRow 100 150 50 "+50.00%").Metrics) 2
      else calculateCombinedMeanDiff (fooRow 100 150 50 "+50.00%").Metrics) 1 = 1 := by
    rw [colorize_bound_eq_noiseFloor]
    exact noiseFloor_flat 100 150 (by norm_num)
  have hs : ¬ |(fooRow 100 150 50 "+50.00%").PctDelta|
      < fadd (if isTinyValue (fooRow 100 150 50 "+50.00%").Metrics then
          fmul (calculateCombinedMeanDiff (fooRow 100 150 50 "+50.00%").Metrics) 2
        else calculateCombinedMeanDiff (fooRow 100 150 50 "+50.00%").Metrics) 1 := by
    rw [hf]; norm_num [fooRow]
  have he2 := isEpsilonDelta_spreadRow 21 "+21.00%"
  have hf2 : fadd (if isTinyValue (spreadRow 21 "+21.00%").Metrics then
        fmul (calculateCombinedMeanDiff (spreadRow 21 "+21.00%").Metrics) 2
      else calculateCombinedMeanDiff (spreadRow 21 "+21.00%").Metrics) 1
      = 5910974510923775 / 281474976710656 := by
    rw [colorize_bound_eq_noiseFloor]
    exact noiseFloor_spreadRow 21 "+21.00%"
  have hs2 : ¬ |(spreadRow 21 "+21.00%").PctDelta|
      < fadd (if isTinyValue (spreadRow 21 "+21.00%").Metrics then
          fmul (calculateCombinedMeanDiff (spreadRow 21 "+21.00%").Metrics) 2
        else calculateCombinedMeanDiff (spreadRow 21 "+21.00%").Metrics) 1 := by
    rw [hf2]; norm_num [spreadRow]
  exact ⟨he, hf, by decide,
    (colorizeBenchstatTables_signal_colour ansiColorizer
      [fooTable "ns/op" (fooRow 100 150 50 "+50.00%")] [] 0 0
      (fooTable "ns/op" (fooRow 100 150 50 "+50.00%")) (fooRow 100 150 50 "+50.00%")
      rfl rfl he hs).1 (by decide),
    by decide, he2, hf2,
    (colorizeBenchstatTables_signal_colour ansiColorizer
      [fooTable "ns/op" (spreadRow 21 "+21.00%")] [] 0 0
      (fooTable "ns/op" (spreadRow 21 "+21.00%")) (spreadRow 21 "+21.00%")
      rfl rfl he2 hs2).1 (by decide)⟩

/-! ## Lemmas on the sanitizer -/

theorem mem_markRValues (unit u : String) (d : List String) (vs : List ℚ) :
    u ∈ markRValues unit d vs ↔ u ∈ d ∨ (unit = u ∧ ∃ v ∈ vs, v < 0.01) := by
  induction vs generalizing d with
  | nil => simp [markRValues]
  | cons v rest ih =>
    by_cases h : v < 0.01
    · simp only [markRValues, h, if_true, ih, List.mem_cons]
      constructor
      · rintro ((hu | hu) | ⟨hu, w, hw, hlt⟩)
        · exact Or.inr ⟨hu.symm, v, Or.inl rfl, h⟩
        · exact Or.inl hu
        · exact Or.inr ⟨hu, w, Or.inr hw, hlt⟩
      · rintro (hu | ⟨hu, _⟩)
        · exact Or.inl (Or.inr hu)
        · exact Or.inl (Or.inl hu.symm)
    · simp only [markRValues, h, if_false, ih, List.mem_cons]
      constructor
      · rintro (hu | ⟨hu, w, hw, hlt⟩)
        · exact Or.inl hu
        · exact Or.inr ⟨hu, w, Or.inr hw, hlt⟩
      · rintro (hu | ⟨hu, w, hw, hlt⟩)
        · exact Or.inl hu
        · rcases hw with hw | hw
          · subst hw; exact absurd hlt h
          · exact Or.inr ⟨hu, w, hw, hlt⟩

theorem mem_markMetrics (u : String) (d : List String) (ms : List Metrics) :
    u ∈ markMetrics d ms ↔ u ∈ d ∨ ∃ m ∈ ms, m.Unit = u ∧ ∃ v ∈ m.RValues, v < 0.01 := by
  induction ms generalizing d with
  | nil => simp [markMetrics]
  | cons m rest ih =>
    simp only [markMetrics, ih, mem_markRValues, List.mem_cons]
    constructor
    · rintro ((hu | hu) | ⟨m', hm', hu⟩)
      · exact Or.inl hu
      · exact Or.inr ⟨m, Or.inl rfl, hu⟩
      · exact Or.inr ⟨m', Or.inr hm', hu⟩
    · rintro (hu | ⟨m', hm' | hm', hu⟩)
      · exact Or.inl (Or.inl hu)
      · subst hm'; exact Or.inl (Or.inr hu)
      · exact Or.inr ⟨m', hm', hu⟩

theorem fixDelta_Metrics (row : Row) : (fixDelta row).Metrics = row.Metrics := by
  unfold fixDelta; split <;> rfl

theorem fixDelta_Benchmark (row : Row) : (fixDelta row).Benchmark = row.Benchmark := by
  unfold fixDelta; split <;> rfl

theorem fixRow_row (st : FixState) (row : Row) : (fixRow st row).2.1 = fixDelta row := by
  unfold fixRow
  simp only []
  split
  · rfl
  · split
    · rfl
    · split <;> rfl

theorem fixRow_disabled (st : FixState) (row : Row) :
    (fixRow st row).1.disabledGeomean = markMetrics st.disabledGeomean row.Metrics := by
  unfold fixRow
  simp only [fixDelta_Metrics]
  split
  · rfl
  · split
    · rfl
    · split <;> rfl

theorem fixRow_keep (st : FixState) (row : Row) :
    (fixRow st row).2.2
      = !isDisabledGeomean (markMetrics st.disabledGeomean row.Metrics) (fixDelta row) := by
  unfold fixRow
  simp only [fixDelta_Metrics]
  split
  · next h => simp [h]
  · next h =>
    have h' : isDisabledGeomean (markMetrics st.disabledGeomean row.Metrics) (fixDelta row)
        = false := by simpa using h
    rw [h']
    split
    · rfl
    · split <;> rfl

theorem mem_fixRow_disabled (u : String) (st : FixState) (row : Row) :
    u ∈ (fixRow st row).1.disabledGeomean ↔ u ∈ st.disabledGeomean ∨ Contaminated row u := by
  rw [fixRow_disabled, mem_markMetrics]; rfl

theorem mem_fixRows_disabled (u : String) (st : FixState) (rows : List Row) :
    u ∈ (fixRows st rows).1.disabledGeomean
      ↔ u ∈ st.disabledGeomean ∨ ∃ row ∈ rows, Contaminated row u := by
  induction rows generalizing st with
  | nil => simp [fixRows]
  | cons row rest ih =>
    simp only [fixRows, ih, mem_fixRow_disabled, List.mem_cons]
    constructor
    · rintro ((hu | hu) | ⟨r, hr, hu⟩)
      · exact Or.inl hu
      · exact Or.inr ⟨row, Or.inl rfl, hu⟩
      · exact Or.inr ⟨r, Or.inr hr, hu⟩
    · rintro (hu | ⟨r, hr | hr, hu⟩)
      · exact Or.inl (Or.inl hu)
      · subst hr; exact Or.inl (Or.inr hu)
      · exact Or.inr ⟨r, hr, hu⟩

theorem mem_fixTables_disabled (u : String) (st : FixState) (tables : List Table) :
    u ∈ (fixTables st tables).1.disabledGeomean
      ↔ u ∈ st.disabledGeomean ∨ ∃ tb ∈ tables, ∃ row ∈ tb.Rows, Contaminated row u := by
  induction tables generalizing st with
  | nil => simp [fixTables]
  | cons tb rest ih =>
    simp only [fixTables, ih, mem_fixRows_disabled, List.mem_cons]
    constructor
    · rintro ((hu | hu) | ⟨t, ht, hu⟩)
      · exact Or.inl hu
      · exact Or.inr ⟨tb, Or.inl rfl, hu⟩
      · exact Or.inr ⟨t, Or.inr ht, hu⟩
    · rintro (hu | ⟨t, ht | ht, hu⟩)
      · exact Or.inl (Or.inl hu)
      · subst ht; exact Or.inl (Or.inr hu)
      · exact Or.inr ⟨t, ht, hu⟩

/-- Position-wise description of the row loop: entry `j` is the loop body applied to row
`j` in the state reached after the rows before it. -/
theorem fixRows_getElem? (st : FixState) (rows : List Row) (j : Nat) :
    (fixRows st rows).2[j]?
      = (rows[j]?).map (fun row => (fixRow (fixRows st (rows.take j)).1 row).2) := by
  induction rows generalizing st j with
  | nil => simp [fixRows]
  | cons row rest ih =>
    cases j with
    | zero => simp [fixRows]
    | succ k => simp [fixRows, ih]

/-- Position-wise description of the table loop: entry `i` is the row loop applied to table
`i` in the state reached after the tables before it. -/
theorem fixTables_getElem? (st : FixState) (tables : List Table) (i : Nat) :
    (fixTables st tables).2[i]?
      = (tables[i]?).map (fun tb =>
          ({ tb with Rows := selectedRows (fixRows (fixTables st (tables.take i)).1 tb.Rows).2 },
            (fixRows (fixTables st (tables.take i)).1 tb.Rows).2)) := by
  induction tables generalizing st i with
  | nil => simp [fixTables]
  | cons tb rest ih =>
    cases i with
    | zero => simp [fixTables]
    | succ k => simp [fixTables, ih]

theorem mem_take_of_getElem? {α : Type} (l : List α) (i k : Nat) (a : α)
    (h : l[i]? = some a) (hik : i < k) : a ∈ l.take k := by
  apply List.getElem?_mem (n := i)
  rw [List.getElem?_take_of_lt hik, h]

/-- Position-wise description of `fixBenchstatTables`: the entry visited at position
`(i, j)` is the loop body applied to the input row at `(i, j)` in the state reached after
the tables before `i` and the rows of table `i` before `j`. -/
theorem visitedAt_fixBenchstatTables (tables : List Table) (i j : Nat) (tb : Table)
    (row : Row) (htb : tables[i]? = some tb) (hrow : tb.Rows[j]? = some row) :
    visitedAt (fixBenchstatTablesVisited tables) i j
      = some (fixRow (fixRows (fixTables ⟨[], []⟩ (tables.take i)).1 (tb.Rows.take j)).1 row).2 := by
  simp [visitedAt, fixBenchstatTablesVisited, fixTables_getElem?, htb, fixRows_getElem?, hrow]

theorem fixBenchstatTables_getElem? (tables : List Table) (i : Nat) :
    (fixBenchstatTables tables)[i]?
      = (tables[i]?).map (fun tb =>
          { tb with Rows := selectedRows (fixRows (fixTables ⟨[], []⟩ (tables.take i)).1 tb.Rows).2 }) := by
  simp only [fixBenchstatTables, List.getElem?_map, fixTables_getElem?]
  cases tables[i]? <;> rfl

theorem fixBenchstatTablesVisited_getElem? (tables : List Table) (i : Nat) :
    (fixBenchstatTablesVisited tables)[i]?
      = (tables[i]?).map (fun tb =>
          (fixRows (fixTables ⟨[], []⟩ (tables.take i)).1 tb.Rows).2) := by
  simp only [fixBenchstatTablesVisited, List.getElem?_map, fixTables_getElem?]
  cases tables[i]? <;> rfl

/-! ## Claims on the sanitizer -/

/-- C5: for every row with `PctDelta` exactly 0 whose delta string contains `0.00%`, the delta
string of the row after `fixBenchstatTables` is exactly `~`; every other row is left as it
was. The rows a table holds after the call are the selected ones among these row objects. -/
theorem fixBenchstatTables_zero_delta (tables : List Table) (i j : Nat) (tb : Table)
    (row : Row) (htb : tables[i]? = some tb) (hrow : tb.Rows[j]? = some row) :
    (visitedAt (fixBenchstatTablesVisited tables) i j).map Prod.fst
      = some (if row.PctDelta = 0 ∧ Contains row.Delta "0.00%" = true
          then { row with Delta := "~" } else row)
    ∧ ((fixBenchstatTables tables)[i]?).map Table.Rows
      = ((fixBenchstatTablesVisited tables)[i]?).map selectedRows := by
  constructor
  · rw [visitedAt_fixBenchstatTables tables i j tb row htb hrow]
    simp only [Option.map_some', fixRow_row]
    rfl
  · rw [fixBenchstatTables_getElem?, fixBenchstatTablesVisited_getElem?, htb]
    rfl

/-- Witness of C5: a row with `PctDelta = 0` and delta `+0.00%` gets the delta `~`. -/
theorem fixBenchstatTables_zero_delta_witness :
    [fooTable "ns/op" (fooRow 100 100 0 "+0.00%")][0]?
        = some (fooTable "ns/op" (fooRow 100 100 0 "+0.00%"))
    ∧ (fooTable "ns/op" (fooRow 100 100 0 "+0.00%")).Rows[0]?
        = some (fooRow 100 100 0 "+0.00%")
    ∧ ((visitedAt (fixBenchstatTablesVisited
          [fooTable "ns/op" (fooRow 100 100 0 "+0.00%")]) 0 0).map Prod.fst
        = some (if (fooRow 100 100 0 "+0.00%").PctDelta = 0
              ∧ Contains (fooRow 100 100 0 "+0.00%").Delta "0.00%" = true
            then { fooRow 100 100 0 "+0.00%" with Delta := "~" }
            else fooRow 100 100 0 "+0.00%")
      ∧ ((fixBenchstatTables [fooTable "ns/op" (fooRow 100 100 0 "+0.00%")])[0]?).map
          Table.Rows
        = ((fixBenchstatTablesVisited
            [fooTable "ns/op" (fooRow 100 100 0 "+0.00%")])[0]?).map selectedRows)
    ∧ (if (fooRow 100 100 0 "+0.00%").PctDelta = 0
          ∧ Contains (fooRow 100 100 0 "+0.00%").Delta "0.00%" = true
        then { fooRow 100 100 0 "+0.00%" with Delta := "~" }
        else fooRow 100 100 0 "+0.00%") = fooRow 100 100 0 "~" :=
  ⟨rfl, rfl,
   fixBenchstatTables_zero_delta [fooTable "ns/op" (fooRow 100 100 0 "+0.00%")] 0 0
     (fooTable "ns/op" (fooRow 100 100 0 "+0.00%")) (fooRow 100 100 0 "+0.00%") rfl rfl,
   by decide⟩

theorem isDisabledGeomean_of_geoMean (d : List String) (g : Row) (u : String)
    (hg : IsGeoMeanOf g u) (hu : u ∈ d) : isDisabledGeomean d (fixDelta g) = true := by
  obtain ⟨hname, m0, rest, hms, hunit⟩ := hg
  unfold isDisabledGeomean
  rw [fixDelta_Benchmark, fixDelta_Metrics, hms]
  simp [hname, hunit, hu]

theorem fixRows_map_fst (st : FixState) (rows : List Row) :
    (fixRows st rows).2.map Prod.fst = rows.map fixDelta := by
  induction rows generalizing st with
  | nil => rfl
  | cons row rest ih =>
    simp only [fixRows, List.map_cons, fixRow_row, ih]

theorem selected_sublist_eraseIdx (v : List (Row × Bool)) (j : Nat) (x : Row × Bool)
    (h : v[j]? = some x) (hx : x.2 = false) :
    ((v.filter (fun y => y.2)).map (fun y => y.1)).Sublist ((v.map Prod.fst).eraseIdx j) := by
  induction v generalizing j with
  | nil => simp at h
  | cons a rest ih =>
    cases j with
    | zero =>
      simp only [List.getElem?_cons_zero, Option.some.injEq] at h
      subst h
      simp only [List.filter_cons, hx, Bool.false_eq_true, if_false, List.map_cons,
        List.eraseIdx_cons_zero]
      exact List.Sublist.map _ (List.filter_sublist rest)
    | succ k =>
      simp only [List.getElem?_cons_succ] at h
      simp only [List.map_cons, List.eraseIdx_cons_succ, List.filter_cons]
      cases ha : a.2 with
      | true =>
        simp only [if_true, List.map_cons]
        exact List.Sublist.cons₂ _ (ih k h)
      | false =>
        simp only [Bool.false_eq_true, if_false]
        exact List.Sublist.cons _ (ih k h)

/-- C4 (amended): if some row has a raw sample value below 0.01 in a metric of unit `u`,
then every row named `[Geo mean]` whose first metric has unit `u` and which
`fixBenchstatTables` visits at or after that row (the row itself, a later row of the same
table, or a row of a later table) is not selected, and is absent from the rows of its table
after the call: the table that `fixBenchstatTables` returns at that position holds a
sublist of the zero-delta-normalised input rows with the aggregate row taken out, so it has
fewer rows than the input table. -/
theorem fixBenchstatTables_drops_contaminated_geomean (tables : List Table) (u : String)
    (i j : Nat) (tb : Table) (row : Row)
    (htb : tables[i]? = some tb) (hrow : tb.Rows[j]? = some row) (hc : Contaminated row u)
    (i' j' : Nat) (tb' : Table) (g : Row)
    (htb' : tables[i']? = some tb') (hg : tb'.Rows[j']? = some g) (hgeo : IsGeoMeanOf g u)
    (hpos : i < i' ∨ (i = i' ∧ j ≤ j')) :
    (visitedAt (fixBenchstatTablesVisited tables) i' j').map Prod.snd = some false
    ∧ ∃ out : Table, (fixBenchstatTables tables)[i']? = some out
        ∧ out.Metric = tb'.Metric
        ∧ out.Rows.Sublist ((tb'.Rows.map fixDelta).eraseIdx j')
        ∧ out.Rows.length < tb'.Rows.length := by
  have hkeep : (fixRow (fixRows (fixTables ⟨[], []⟩ (tables.take i')).1
      (tb'.Rows.take j')).1 g).2.2 = false := by
    simp only [fixRow_keep, Bool.not_eq_false']
    apply isDisabledGeomean_of_geoMean _ g u hgeo
    rw [mem_markMetrics, mem_fixRows_disabled, mem_fixTables_disabled]
    rcases hpos with hlt | ⟨heq, hle⟩
    · exact Or.inl (Or.inl (Or.inr ⟨tb, mem_take_of_getElem? _ _ _ _ htb hlt,
        row, List.getElem?_mem hrow, hc⟩))
    · subst heq
      rw [htb] at htb'
      cases htb'
      rcases Nat.lt_or_eq_of_le hle with hlt | heq
      · exact Or.inl (Or.inr ⟨row, mem_take_of_getElem? _ _ _ _ hrow hlt, hc⟩)
      · subst heq
        rw [hrow] at hg
        cases hg
        exact Or.inr hc
  have hsub : (selectedRows (fixRows (fixTables ⟨[], []⟩ (tables.take i')).1 tb'.Rows).2).Sublist
      ((tb'.Rows.map fixDelta).eraseIdx j') := by
    rw [← fixRows_map_fst (fixTables ⟨[], []⟩ (tables.take i')).1 tb'.Rows]
    apply selected_sublist_eraseIdx _ j' _ _ hkeep
    rw [fixRows_getElem?, hg]
    rfl
  have hj : j' < tb'.Rows.length := by
    by_contra hn
    rw [List.getElem?_eq_none (not_lt.mp hn)] at hg
    cases hg
  have hout := fixBenchstatTables_getElem? tables i'
  rw [htb', Option.map_some'] at hout
  refine ⟨?_, _, hout, rfl, hsub, ?_⟩
  · rw [visitedAt_fixBenchstatTables tables i' j' tb' g htb' hg]
    simp only [Option.map_some', hkeep]
  · have hlen := hsub.length_le
    rw [List.length_eraseIdx, List.length_map] at hlen
    simp only [List.length_map, hj, if_true] at hlen
    exact lt_of_le_of_lt hlen (Nat.sub_lt (Nat.lt_of_le_of_lt (Nat.zero_le _) hj) Nat.one_pos)

theorem contaminated_fooRow_small :
    Contaminated (fooRow 0.001 0.001 0 "~") "ns" :=
  ⟨flatMetric 0.001, by simp [fooRow], rfl, 0.001, by simp [flatMetric], by norm_num⟩

theorem isGeoMeanOf_geoMeanRow (old new : ℚ) : IsGeoMeanOf (geoMeanRow old new) "ns" :=
  ⟨rfl, flatMetric old, [flatMetric new], rfl, rfl⟩

/-- Counterexample to C4 as stated: in a table whose aggregate row comes before a row with
raw samples of 0.001 in the same unit `ns`, the aggregate row is still in the table after
`fixBenchstatTables`. -/
theorem fixBenchstatTables_geomean_before_contamination_counterexample :
    Contaminated (fooRow 0.001 0.001 0 "~") "ns"
    ∧ IsGeoMeanOf (geoMeanRow 100 100) "ns"
    ∧ fixBenchstatTables
        [rowsTable "ns/op" [geoMeanRow 100 100, fooRow 0.001 0.001 0 "~"]]
      = [rowsTable "ns/op" [geoMeanRow 100 100, fooRow 0.001 0.001 0 "~"]] := by
  refine ⟨contaminated_fooRow_small, isGeoMeanOf_geoMeanRow 100 100, ?_⟩
  have h1 : ¬ ((100 : ℚ) < 0.01) := by norm_num
  have hc : Contains "~" "0.00%" = false := by decide
  simp [fixBenchstatTables, fixTables, fixRows, fixRow, selectedRows, fixDelta, markMetrics,
    isDisabledGeomean, geoMeanRow, fooRow, flatMetric, rowsTable, hc, markRValues, h1]

/-- Witness of C4 (amended): an aggregate row that follows a row with raw samples of 0.001
in the same unit is not selected, and the table returned holds the contaminated row only. -/
theorem fixBenchstatTables_drops_contaminated_geomean_witness :
    [rowsTable "ns/op" [fooRow 0.001 0.001 0 "~", geoMeanRow 100 100]][0]?
        = some (rowsTable "ns/op" [fooRow 0.001 0.001 0 "~", geoMeanRow 100 100])
    ∧ (rowsTable "ns/op" [fooRow 0.001 0.001 0 "~", geoMeanRow 100 100]).Rows[0]?
        = some (fooRow 0.001 0.001 0 "~")
    ∧ Contaminated (fooRow 0.001 0.001 0 "~") "ns"
    ∧ (rowsTable "ns/op" [fooRow 0.001 0.001 0 "~", geoMeanRow 100 100]).Rows[1]?
        = some (geoMeanRow 100 100)
    ∧ IsGeoMeanOf (geoMeanRow 100 100) "ns"
    ∧ (0 < 0 ∨ (0 = 0 ∧ 0 ≤ 1))
    ∧ ((visitedAt (fixBenchstatTablesVisited
          [rowsTable "ns/op" [fooRow 0.001 0.001 0 "~", geoMeanRow 100 100]]) 0 1).map
          Prod.snd = some false
      ∧ ∃ out : Table,
          (fixBenchstatTables
            [rowsTable "ns/op" [fooRow 0.001 0.001 0 "~", geoMeanRow 100 100]])[0]? = some out
          ∧ out.Metric
            = (rowsTable "ns/op" [fooRow 0.001 0.001 0 "~", geoMeanRow 100 100]).Metric
          ∧ out.Rows.Sublist
            (((rowsTable "ns/op" [fooRow 0.001 0.001 0 "~", geoMeanRow 100 100]).Rows.map
              fixDelta).eraseIdx 1)
          ∧ out.Rows.length
            < (rowsTable "ns/op" [fooRow 0.001 0.001 0 "~", geoMeanRow 100 100]).Rows.length)
    ∧ fixBenchstatTables
        [rowsTable "ns/op" [fooRow 0.001 0.001 0 "~", geoMeanRow 100 100]]
      = [rowsTable "ns/op" [fooRow 0.001 0.001 0 "~"]] := by
  refine ⟨rfl, rfl, contaminated_fooRow_small, rfl, isGeoMeanOf_geoMeanRow 100 100,
   Or.inr ⟨rfl, Nat.zero_le 1⟩,
   fixBenchstatTables_drops_contaminated_geomean
     [rowsTable "ns/op" [fooRow 0.001 0.001 0 "~", geoMeanRow 100 100]] "ns" 0 0
     (rowsTable "ns/op" [fooRow 0.001 0.001 0 "~", geoMeanRow 100 100])
     (fooRow 0.001 0.001 0 "~") rfl rfl contaminated_fooRow_small 0 1
     (rowsTable "ns/op" [fooRow 0.001 0.001 0 "~", geoMeanRow 100 100])
     (geoMeanRow 100 100) rfl rfl (isGeoMeanOf_geoMeanRow 100 100)
     (Or.inr ⟨rfl, Nat.zero_le 1⟩), ?_⟩
  have h1 : ¬ ((100 : ℚ) < 0.01) := by norm_num
  have h2 : ((0.001 : ℚ) < 0.01) := by norm_num
  have hc : Contains "~" "0.00%" = false := by decide
  simp [fixBenchstatTables, fixTables, fixRows, fixRow, selectedRows, fixDelta, markMetrics,
    isDisabledGeomean, geoMeanRow, fooRow, flatMetric, rowsTable, hc, markRValues, h1, h2]

/-! ### Idempotence -/

theorem fixDelta_idem (row : Row) : fixDelta (fixDelta row) = fixDelta row := by
  have hc : Contains "~" "0.00%" = false := by decide
  by_cases h : row.PctDelta = 0 ∧ Contains row.Delta "0.00%" = true
  · have h1 : fixDelta row = { row with Delta := "~" } := by simp [fixDelta, h]
    rw [h1]
    simp [fixDelta, hc]
  · have h1 : fixDelta row = row := by
      unfold fixDelta; rw [if_neg h]
    rw [h1, h1]

theorem isDisabledGeomean_mono (d1 d2 : List String) (row : Row)
    (hsub : ∀ u, u ∈ d2 → u ∈ d1) (h : isDisabledGeomean d2 row = true) :
    isDisabledGeomean d1 row = true := by
  unfold isDisabledGeomean at h ⊢
  by_cases hn : row.Benchmark = "[Geo mean]"
  · rw [if_pos hn] at h ⊢
    cases hms : row.Metrics with
    | nil => rw [hms] at h; simp at h
    | cons m0 rest =>
      rw [hms] at h
      simp only [decide_eq_true_eq] at h ⊢
      exact hsub _ h
  · rw [if_neg hn] at h; simp at h

theorem selectedRows_cons (r : Row) (k : Bool) (rest : List (Row × Bool)) :
    selectedRows ((r, k) :: rest)
      = if k then r :: selectedRows rest else selectedRows rest := by
  cases k <;> simp [selectedRows]

theorem fixRows_cons (st : FixState) (row : Row) (rest : List Row) :
    fixRows st (row :: rest)
      = ((fixRows (fixRow st row).1 rest).1,
          ((fixRow st row).2.1, (fixRow st row).2.2) :: (fixRows (fixRow st row).1 rest).2) :=
  rfl

theorem fixTables_cons (st : FixState) (tb : Table) (rest : List Table) :
    fixTables st (tb :: rest)
      = ((fixTables (fixRows st tb.Rows).1 rest).1,
          ({ tb with Rows := selectedRows (fixRows st tb.Rows).2 }, (fixRows st tb.Rows).2)
            :: (fixTables (fixRows st tb.Rows).1 rest).2) :=
  rfl

/-- Running the row loop on the rows it selected, from a state whose disabled set is
contained in the one of the first run, selects every row again and leaves it as it is. -/
theorem fixRows_selected_again (rows : List Row) (st1 st2 : FixState)
    (hsub : ∀ u, u ∈ st2.disabledGeomean → u ∈ st1.disabledGeomean) :
    selectedRows (fixRows st2 (selectedRows (fixRows st1 rows).2)).2
        = selectedRows (fixRows st1 rows).2
    ∧ (∀ u, u ∈ (fixRows st2 (selectedRows (fixRows st1 rows).2)).1.disabledGeomean →
        u ∈ (fixRows st1 rows).1.disabledGeomean) := by
  induction rows generalizing st1 st2 with
  | nil => exact ⟨rfl, hsub⟩
  | cons row rest ih =>
    rw [fixRows_cons]
    simp only [selectedRows_cons]
    have hsub1 : ∀ u, u ∈ st2.disabledGeomean → u ∈ (fixRow st1 row).1.disabledGeomean := by
      intro u hu
      rw [mem_fixRow_disabled]
      exact Or.inl (hsub u hu)
    cases hk : (fixRow st1 row).2.2 with
    | false =>
      simp only [Bool.false_eq_true, if_false]
      exact ih (fixRow st1 row).1 st2 hsub1
    | true =>
      simp only [if_true]
      rw [fixRows_cons]
      simp only [selectedRows_cons]
      have hrow : (fixRow st2 (fixRow st1 row).2.1).2.1 = (fixRow st1 row).2.1 := by
        rw [fixRow_row, fixRow_row, fixDelta_idem]
      have hsub2 : ∀ u, u ∈ (fixRow st2 (fixRow st1 row).2.1).1.disabledGeomean →
          u ∈ (fixRow st1 row).1.disabledGeomean := by
        intro u hu
        rw [fixRow_disabled, fixRow_row, fixDelta_Metrics, mem_markMetrics] at hu
        rw [fixRow_disabled, mem_markMetrics]
        rcases hu with hu | hu
        · exact Or.inl (hsub u hu)
        · exact Or.inr hu
      have hkeep : (fixRow st2 (fixRow st1 row).2.1).2.2 = true := by
        rw [fixRow_keep] at hk ⊢
        rw [fixRow_row, fixDelta_Metrics, fixDelta_idem]
        cases hd : isDisabledGeomean (markMetrics st2.disabledGeomean row.Metrics)
            (fixDelta row) with
        | false => rfl
        | true =>
          have hmono := isDisabledGeomean_mono
            (markMetrics st1.disabledGeomean row.Metrics)
            (markMetrics st2.disabledGeomean row.Metrics) (fixDelta row)
            (by
              intro u hu
              rw [mem_markMetrics] at hu ⊢
              rcases hu with hu | hu
              · exact Or.inl (hsub u hu)
              · exact Or.inr hu) hd
          rw [hmono] at hk
          simp at hk
      rw [hkeep, hrow]
      simp only [if_true]
      obtain ⟨h1, h2⟩ := ih (fixRow st1 row).1 (fixRow st2 (fixRow st1 row).2.1).1 hsub2
      exact ⟨by rw [h1], h2⟩

theorem fixTables_selected_again (tables : List Table) (st1 st2 : FixState)
    (hsub : ∀ u, u ∈ st2.disabledGeomean → u ∈ st1.disabledGeomean) :
    (fixTables st2 ((fixTables st1 tables).2.map (fun x => x.1))).2.map (fun x => x.1)
        = (fixTables st1 tables).2.map (fun x => x.1)
    ∧ (∀ u, u ∈ (fixTables st2
          ((fixTables st1 tables).2.map (fun x => x.1))).1.disabledGeomean →
        u ∈ (fixTables st1 tables).1.disabledGeomean) := by
  induction tables generalizing st1 st2 with
  | nil => exact ⟨rfl, hsub⟩
  | cons tb rest ih =>
    rw [fixTables_cons]
    simp only [List.map_cons]
    rw [fixTables_cons]
    simp only [List.map_cons]
    obtain ⟨h1, h2⟩ := fixRows_selected_again tb.Rows st1 st2 hsub
    obtain ⟨h3, h4⟩ := ih (fixRows st1 tb.Rows).1
      (fixRows st2 (selectedRows (fixRows st1 tb.Rows).2)).1 h2
    refine ⟨?_, h4⟩
    rw [h3, h1]

/-- C6: `fixBenchstatTables` is idempotent: running it on its own result gives the same
tables, each with the same row sequence and the same delta strings. -/
theorem fixBenchstatTables_idempotent (tables : List Table) :
    fixBenchstatTables (fixBenchstatTables tables) = fixBenchstatTables tables :=
  (fixTables_selected_again tables ⟨[], []⟩ ⟨[], []⟩ (fun _ h => h)).1

/-! ### Dependence on the other tables -/

theorem isDisabledGeomean_congr (d1 d2 : List String) (row : Row)
    (h : ∀ u, IsGeoMeanOf row u → (u ∈ d1 ↔ u ∈ d2)) :
    isDisabledGeomean d1 row = isDisabledGeomean d2 row := by
  unfold isDisabledGeomean
  by_cases hn : row.Benchmark = "[Geo mean]"
  · rw [if_pos hn, if_pos hn]
    cases hms : row.Metrics with
    | nil => rfl
    | cons m0 rest =>
      have := h m0.Unit ⟨hn, m0, rest, hms, rfl⟩
      simp only [this]
  · rw [if_neg hn, if_neg hn]

theorem isGeoMeanOf_fixDelta (row : Row) (u : String) :
    IsGeoMeanOf (fixDelta row) u ↔ IsGeoMeanOf row u := by
  unfold IsGeoMeanOf
  rw [fixDelta_Benchmark, fixDelta_Metrics]

/-- The rows visited by the row loop and their flags depend on the initial disabled set only
through the units of the aggregate rows of the table. -/
theorem fixRows_congr (rows : List Row) (st1 st2 : FixState)
    (h : ∀ g ∈ rows, ∀ u, IsGeoMeanOf g u →
      (u ∈ st1.disabledGeomean ↔ u ∈ st2.disabledGeomean)) :
    (fixRows st1 rows).2 = (fixRows st2 rows).2 := by
  induction rows generalizing st1 st2 with
  | nil => rfl
  | cons row rest ih =>
    rw [fixRows_cons, fixRows_cons]
    simp only [fixRow_row, fixRow_keep]
    have hk : isDisabledGeomean (markMetrics st1.disabledGeomean row.Metrics) (fixDelta row)
        = isDisabledGeomean (markMetrics st2.disabledGeomean row.Metrics) (fixDelta row) := by
      apply isDisabledGeomean_congr
      intro u hu
      rw [isGeoMeanOf_fixDelta] at hu
      rw [mem_markMetrics, mem_markMetrics, h row (List.mem_cons_self _ _) u hu]
    have hrest : (fixRows (fixRow st1 row).1 rest).2 = (fixRows (fixRow st2 row).1 rest).2 := by
      apply ih
      intro g hg u hu
      rw [mem_fixRow_disabled, mem_fixRow_disabled, h g (List.mem_cons_of_mem _ hg) u hu]
    rw [hk, hrest]

/-- Counterexample to C10 as stated: an aggregate row of unit `ns` in the second table is
dropped because a row of the first table has raw samples of 0.001 in unit `ns`, while
`fixBenchstatTables` on the second table alone keeps it. -/
theorem fixBenchstatTables_not_table_local_counterexample :
    (fixBenchstatTables
        [rowsTable "ns/op" [fooRow 0.001 0.001 0 "~"],
         rowsTable "wait-ns/op" [geoMeanRow 100 100]])[1]?
      = some (rowsTable "wait-ns/op" [])
    ∧ (fixBenchstatTables [rowsTable "wait-ns/op" [geoMeanRow 100 100]])[0]?
      = some (rowsTable "wait-ns/op" [geoMeanRow 100 100]) := by
  have h1 : ¬ ((100 : ℚ) < 0.01) := by norm_num
  have h2 : (0.001 : ℚ) < 0.01 := by norm_num
  have hc : Contains "~" "0.00%" = false := by decide
  constructor
  · simp [fixBenchstatTables, fixTables, fixRows, fixRow, selectedRows, fixDelta, markMetrics,
      isDisabledGeomean, geoMeanRow, fooRow, flatMetric, rowsTable, hc, markRValues, h1, h2]
  · simp [fixBenchstatTables, fixTables, fixRows, fixRow, selectedRows, fixDelta, markMetrics,
      isDisabledGeomean, geoMeanRow, flatMetric, rowsTable, hc, markRValues, h1]

/-- C10 (amended): the sanitizer is table-local up to the set of contaminated units carried
from the tables before: if no row of an earlier table has a raw sample value below 0.01 in a
metric whose unit is the first-metric unit of a `[Geo mean]` row of the table, then the table
`fixBenchstatTables` leaves at that position, with its rows and their delta strings, is the
one obtained by running `fixBenchstatTables` on that table alone. -/
theorem fixBenchstatTables_table_local (tables : List Table) (i : Nat) (tb : Table)
    (htb : tables[i]? = some tb)
    (hclean : ∀ (k : Nat) (tbk : Table), k < i → tables[k]? = some tbk →
      ∀ row ∈ tbk.Rows, ∀ g ∈ tb.Rows, ∀ u, IsGeoMeanOf g u → ¬ Contaminated row u) :
    (fixBenchstatTables tables)[i]? = (fixBenchstatTables [tb])[0]? := by
  rw [fixBenchstatTables_getElem?, fixBenchstatTables_getElem?, htb]
  simp only [List.getElem?_cons_zero, Option.map_some', List.take_zero]
  have hst : (fixTables ⟨[], []⟩ ([] : List Table)).1 = ⟨[], []⟩ := rfl
  rw [hst]
  have hcongr : (fixRows (fixTables ⟨[], []⟩ (tables.take i)).1 tb.Rows).2
      = (fixRows ⟨[], []⟩ tb.Rows).2 := by
    apply fixRows_congr
    intro g hg u hu
    rw [mem_fixTables_disabled]
    constructor
    · rintro (hmem | ⟨tbk, htbk, row, hrow, hcont⟩)
      · exact absurd hmem (List.not_mem_nil u)
      · obtain ⟨k, hk⟩ := List.mem_iff_getElem?.mp htbk
        rw [List.getElem?_take] at hk
        by_cases hlt : k < i
        · rw [if_pos hlt] at hk
          exact absurd hcont (hclean k tbk hlt hk row hrow g hg u hu)
        · rw [if_neg hlt] at hk
          cases hk
    · intro hmem
      exact absurd hmem (List.not_mem_nil u)
  rw [hcongr]

theorem not_contaminated_fooRow_large (u : String) :
    ¬ Contaminated (fooRow 100 150 50 "+50.00%") u := by
  rintro ⟨m, hm, -, v, hv, hlt⟩
  simp only [fooRow, List.mem_cons, List.mem_singleton, List.not_mem_nil, or_false] at hm
  rcases hm with hm | hm <;> subst hm <;>
    simp only [flatMetric, List.mem_cons, List.mem_singleton, List.not_mem_nil, or_false,
      or_self] at hv <;> subst hv <;> norm_num at hlt

/-- Witness of C10 (amended): the first table has no raw sample below 0.01, and the second
table, made of an aggregate row, comes out as it does when sanitized alone. -/
theorem fixBenchstatTables_table_local_witness :
    [rowsTable "ns/op" [fooRow 100 150 50 "+50.00%"],
      rowsTable "wait-ns/op" [geoMeanRow 100 100]][1]?
        = some (rowsTable "wait-ns/op" [geoMeanRow 100 100])
    ∧ (∀ (k : Nat) (tbk : Table), k < 1 →
        [rowsTable "ns/op" [fooRow 100 150 50 "+50.00%"],
          rowsTable "wait-ns/op" [geoMeanRow 100 100]][k]? = some tbk →
        ∀ row ∈ tbk.Rows, ∀ g ∈ (rowsTable "wait-ns/op" [geoMeanRow 100 100]).Rows, ∀ u,
          IsGeoMeanOf g u → ¬ Contaminated row u)
    ∧ (fixBenchstatTables
        [rowsTable "ns/op" [fooRow 100 150 50 "+50.00%"],
          rowsTable "wait-ns/op" [geoMeanRow 100 100]])[1]?
        = (fixBenchstatTables [rowsTable "wait-ns/op" [geoMeanRow 100 100]])[0]? := by
  have hclean : ∀ (k : Nat) (tbk : Table), k < 1 →
      [rowsTable "ns/op" [fooRow 100 150 50 "+50.00%"],
        rowsTable "wait-ns/op" [geoMeanRow 100 100]][k]? = some tbk →
      ∀ row ∈ tbk.Rows, ∀ g ∈ (rowsTable "wait-ns/op" [geoMeanRow 100 100]).Rows, ∀ u,
        IsGeoMeanOf g u → ¬ Contaminated row u := by
    intro k tbk hk htbk row hrow g _ u _
    have hk0 : k = 0 := by omega
    subst hk0
    simp only [List.getElem?_cons_zero, Option.some.injEq] at htbk
    subst htbk
    simp only [rowsTable, List.mem_singleton] at hrow
    subst hrow
    exact not_contaminated_fooRow_large u
  exact ⟨rfl, hclean,
    fixBenchstatTables_table_local
      [rowsTable "ns/op" [fooRow 100 150 50 "+50.00%"],
        rowsTable "wait-ns/op" [geoMeanRow 100 100]] 1
      (rowsTable "wait-ns/op" [geoMeanRow 100 100]) rfl hclean⟩

/-! ## Claims on the severity filter, continued -/

theorem skip_forall₂ (increasing : StringSet) (t : ℚ) (tables : List Table) :
    List.Forall₂
      (fun out inp => out.Metric = inp.Metric ∧ out.Configs = inp.Configs
        ∧ out.OldNewDelta = inp.OldNewDelta ∧ out.Rows.Sublist inp.Rows
        ∧ 0 < out.Rows.length
        ∧ out.Rows = inp.Rows.filter (fun r => decide (isRegression increasing inp.Metric t r)))
      ((tables.map (pruneTable increasing t)).filter (fun tb => !tb.Rows.isEmpty))
      (tables.filter (fun tb =>
        tb.Rows.any (fun r => decide (isRegression increasing tb.Metric t r)))) := by
  induction tables with
  | nil => simp
  | cons tb rest ih =>
    by_cases h : tb.Rows.any (fun r => decide (isRegression increasing tb.Metric t r)) = true
    · have hne : (pruneTable increasing t tb).Rows ≠ [] := by
        obtain ⟨r, hr, hreg⟩ := List.any_eq_true.mp h
        intro he
        have : r ∈ (pruneTable increasing t tb).Rows := by
          simp only [pruneTable, List.mem_filter]
          exact ⟨hr, hreg⟩
        rw [he] at this
        exact absurd this (List.not_mem_nil r)
      have hemp : (!(pruneTable increasing t tb).Rows.isEmpty) = true := by
        simpa [List.isEmpty_iff] using hne
      simp only [List.map_cons, List.filter_cons, hemp, h, if_true]
      refine List.Forall₂.cons ⟨rfl, rfl, rfl, ?_, List.length_pos.mpr hne, rfl⟩ ih
      exact List.filter_sublist _
    · have he : (pruneTable increasing t tb).Rows = [] := by
        simp only [pruneTable, List.filter_eq_nil_iff]
        intro r hr hreg
        exact h (List.any_eq_true.mpr ⟨r, hr, hreg⟩)
      have hemp : ¬ (!(pruneTable increasing t tb).Rows.isEmpty) = true := by
        simp [he]
      simp only [List.map_cons, List.filter_cons, hemp, h, if_false]
      exact ih

/-- C9: `skipBenchstatTables` only prunes. The returned tables correspond one to one, in
order, to the input tables that have a row meeting the threshold, which form a subsequence
of the input; each returned table has the Metric, Configs and OldNewDelta of its input
table, its rows are a subsequence of the rows of that table, and it has at least one row.
An input table is therefore missing from the output iff none of its rows meets the
threshold. -/
theorem skipBenchstatTables_only_prunes (tables : List Table) (t : ℚ)
    (increasing : StringSet) :
    (tables.filter (fun tb =>
        tb.Rows.any (fun r => decide (isRegression increasing tb.Metric t r)))).Sublist tables
    ∧ List.Forall₂
        (fun out inp => out.Metric = inp.Metric ∧ out.Configs = inp.Configs
          ∧ out.OldNewDelta = inp.OldNewDelta ∧ out.Rows.Sublist inp.Rows
          ∧ 0 < out.Rows.length)
        (skipBenchstatTables tables t increasing)
        (tables.filter (fun tb =>
          tb.Rows.any (fun r => decide (isRegression increasing tb.Metric t r)))) := by
  refine ⟨List.filter_sublist _, ?_⟩
  unfold skipBenchstatTables
  rw [skipTables_eq, List.nil_append]
  refine List.Forall₂.imp ?_ (skip_forall₂ increasing t tables)
  intro out inp h
  exact ⟨h.1, h.2.1, h.2.2.1, h.2.2.2.1, h.2.2.2.2.1⟩

/-! ## Claims on the HTML renderer -/

theorem colorizeHTML_eq (buf : String) (change : Int) (b : Bool) :
    colorizeHTML buf change b = buf ++ bgcolorAttr change b := by
  unfold colorizeHTML bgcolorAttr
  by_cases h1 : change > 0
  · cases b <;> simp [h1]
  · by_cases h2 : change < 0
    · cases b <;> simp [h1, h2]
    · simp [h1, h2]

theorem htmlMetrics_append (f : Formatter) (scaler : Scaler) (buf : String)
    (metrics : List Metrics) :
    htmlMetrics f scaler buf metrics = buf ++ htmlMetrics f scaler "" metrics := by
  induction metrics generalizing buf with
  | nil => simp [htmlMetrics]
  | cons m rest ih =>
    simp only [htmlMetrics]
    rw [ih, ih ("" ++ "</td><td>" ++ _ ++ " ± " ++ _)]
    simp [String.append_assoc]

set_option maxRecDepth 100000

/-- Counterexample to C8 as stated: for a row with change indicator `+1` in a table whose
metric is not in the increasing-set (smaller is better), `FormatHTML` paints the benchmark
cell and the delta cell green, not red. -/
theorem formatHTML_positive_change_counterexample :
    colorizeHTML "" 1 false = " bgcolor='green'"
    ∧ colorizeHTML "" 1 true = " bgcolor='red'"
    ∧ FormatHTML sampleFormatter ""
        [fooTable "ns/op" { fooRow 100 90 (-10) "-10.00%" with Change := 1 }] true []
      = "<table border='1' class='benchstat'>\n"
        ++ "<tr class='configs'><th/><th>old</th><th>new</th></tr>\n"
        ++ "<tbody>\n"
        ++ "<tr><th/><th colspan='2' class='metric'>ns/op</th><th>delta</th>\n</tr>\n"
        ++ "<tr><td bgcolor='green'>BenchmarkFoo</td><td>1.00 ± 0%</td><td>1.00 ± 0%"
        ++ "</td><td bgcolor='green'>-10.00% </td></tr>\n"
        ++ "</tbody>\n"
        ++ "</table>\n" := by
  refine ⟨by decide, by decide, by decide⟩

/-- C8 (amended): the HTML renderer chooses the background colour from the sign of the
change indicator of the row and the directionality of the metric: a positive change gives
`bgcolor='red'` when the metric is bigger-is-better and `bgcolor='green'` otherwise, a
negative change gives `bgcolor='green'` when the metric is bigger-is-better and
`bgcolor='red'` otherwise, and a zero change gives no attribute; the benchmark cell and the
delta cell of the data row carry that same attribute, and `FormatHTML` writes the data row
of every row of every table this way, bigger-is-better meaning that the metric of the table
is in the increasing-set. -/
theorem formatHTML_bgcolor_by_change :
    (∀ (buf : String) (change : Int) (b : Bool),
      colorizeHTML buf change b
        = buf ++ (if change > 0 then (if b then " bgcolor='red'" else " bgcolor='green'")
            else if change < 0 then (if b then " bgcolor='green'" else " bgcolor='red'")
            else ""))
    ∧ (∀ (f : Formatter) (b : Bool) (buf : String) (row : Row),
      htmlRow f b buf row
        = buf ++ "<tr><td" ++ bgcolorAttr row.Change b ++ ">" ++ EscapeString row.Benchmark
          ++ htmlMetrics f row.Scaler "" row.Metrics
          ++ "</td><td" ++ bgcolorAttr row.Change b ++ ">" ++ EscapeString row.Delta
          ++ " " ++ EscapeString row.Note ++ "</td></tr>\n")
    ∧ (∀ (f : Formatter) (b : Bool) (buf group : String) (row : Row) (rest : List Row),
      htmlRows f b buf group (row :: rest)
        = htmlRows f b
            (htmlRow f b
              (if row.Group ≠ group then
                buf ++ "<tr><th class='group' colspan='4'>" ++ EscapeString row.Group
                  ++ "</th></tr>\n"
               else buf) row)
            row.Group rest)
    ∧ (∀ (f : Formatter) (increasing : StringSet) (buf : String) (tb : Table)
        (rest : List Table),
      htmlTables f increasing buf (tb :: rest)
        = htmlTables f increasing
            (htmlRows f (decide (tb.Metric ∈ increasing))
              (buf ++ "<tbody>\n" ++ "<tr><th/>" ++ "<th colspan='2' class='metric'>"
                ++ EscapeString tb.Metric ++ "</th><th>delta</th>\n</tr>\n")
              "" tb.Rows ++ "</tbody>\n")
            rest) := by
  refine ⟨?_, ?_, ?_, ?_⟩
  · intro buf change b
    exact colorizeHTML_eq buf change b
  · intro f b buf row
    unfold htmlRow
    simp only [colorizeHTML_eq]
    rw [htmlMetrics_append]
  · intro f b buf group row rest
    by_cases h : row.Group = group
    · subst h
      simp [htmlRows]
    · simp [htmlRows, h]
  · intro f increasing buf tb rest
    rfl

/-! ## Classifier and severity filter together -/

theorem colorizeRow_PctDelta (c : Colorizer) (b : Bool) (row : Row) :
    (colorizeRow c b row).PctDelta = row.PctDelta := by
  unfold colorizeRow
  simp only []
  repeat' split
  all_goals rfl

theorem isRegression_colorizeRow (c : Colorizer) (b : Bool) (increasing : StringSet)
    (metric : String) (t : ℚ) (row : Row) :
    isRegression increasing metric t (colorizeRow c b row)
      ↔ isRegression increasing metric t row := by
  unfold isRegression
  rw [colorizeRow_PctDelta]

theorem colorizeBenchstatTables_eq_map (c : Colorizer) (tables : List Table)
    (increasing : StringSet) :
    colorizeBenchstatTables c tables increasing = tables.map (colorizeTable c increasing) := by
  induction tables with
  | nil => rfl
  | cons tb rest ih => simp [colorizeBenchstatTables, colorizeRows_eq_map, ih, colorizeTable]

theorem skipBenchstatTables_eq (tables : List Table) (t : ℚ) (increasing : StringSet) :
    skipBenchstatTables tables t increasing
      = (tables.map (pruneTable increasing t)).filter (fun tb => !tb.Rows.isEmpty) := by
  unfold skipBenchstatTables
  rw [skipTables_eq, List.nil_append]

theorem filter_map_colorizeRow (c : Colorizer) (b : Bool) (increasing : StringSet)
    (metric : String) (t : ℚ) (rows : List Row) :
    (rows.map (colorizeRow c b)).filter (fun r => decide (isRegression increasing metric t r))
      = (rows.filter (fun r => decide (isRegression increasing metric t r))).map
          (colorizeRow c b) := by
  induction rows with
  | nil => rfl
  | cons r rest ih =>
    by_cases h : isRegression increasing metric t r
    · have h' := (isRegression_colorizeRow c b increasing metric t r).mpr h
      simp [List.filter_cons, h, h', ih]
    · have h' : ¬ isRegression increasing metric t (colorizeRow c b r) :=
        fun hc => h ((isRegression_colorizeRow c b increasing metric t r).mp hc)
      simp [List.filter_cons, h, h', ih]

theorem pruneTable_colorizeTable (c : Colorizer) (increasing : StringSet) (t : ℚ)
    (tb : Table) :
    pruneTable increasing t (colorizeTable c increasing tb)
      = colorizeTable c increasing (pruneTable increasing t tb) := by
  simp only [pruneTable, colorizeTable]
  rw [filter_map_colorizeRow]

theorem skip_colorize_commute (c : Colorizer) (tables : List Table) (t : ℚ)
    (increasing : StringSet) :
    colorizeBenchstatTables c (skipBenchstatTables tables t increasing) increasing
      = skipBenchstatTables (colorizeBenchstatTables c tables increasing) t increasing := by
  rw [colorizeBenchstatTables_eq_map, colorizeBenchstatTables_eq_map, skipBenchstatTables_eq,
    skipBenchstatTables_eq]
  induction tables with
  | nil => rfl
  | cons tb rest ih =>
    simp only [List.map_cons, List.filter_cons, pruneTable_colorizeTable]
    have hemp : (colorizeTable c increasing (pruneTable increasing t tb)).Rows.isEmpty
        = (pruneTable increasing t tb).Rows.isEmpty := by
      simp only [colorizeTable]
      cases (pruneTable increasing t tb).Rows <;> rfl
    rw [hemp]
    by_cases he : (!(pruneTable increasing t tb).Rows.isEmpty) = true
    · rw [if_pos he, if_pos he, List.map_cons, ih]
    · rw [if_neg he, if_neg he, ih]

/-- C15: the classifier and the severity filter commute. For every table list, threshold
`t > 0` and increasing-set, filtering with `skipBenchstatTables` and then classifying with
`colorizeBenchstatTables` (the order of `runBenchstat`) gives the same tables, the same rows
and the same delta strings as classifying first and filtering second. -/
theorem skip_then_colorize_eq_colorize_then_skip (c : Colorizer) (tables : List Table)
    (t : ℚ) (increasing : StringSet) (_ht : 0 < t) :
    colorizeBenchstatTables c (skipBenchstatTables tables t increasing) increasing
      = skipBenchstatTables (colorizeBenchstatTables c tables increasing) t increasing :=
  skip_colorize_commute c tables t increasing

/-- Witness of C15: a one-row table with `PctDelta = 50` at threshold 10; both orders give
the row with its delta coloured red. -/
theorem skip_then_colorize_eq_colorize_then_skip_witness :
    (0 : ℚ) < 10
    ∧ colorizeBenchstatTables ansiColorizer
        (skipBenchstatTables [fooTable "ns/op" (fooRow 100 150 50 "+50.00%")] 10 []) []
      = skipBenchstatTables
        (colorizeBenchstatTables ansiColorizer
          [fooTable "ns/op" (fooRow 100 150 50 "+50.00%")] []) 10 [] :=
  ⟨by decide,
   skip_then_colorize_eq_colorize_then_skip ansiColorizer
     [fooTable "ns/op" (fooRow 100 150 50 "+50.00%")] 10 [] (by decide)⟩

/-! ## Monotonicity of the severity filter -/

theorem isRegression_mono (increasing : StringSet) (metric : String) (t1 t2 : ℚ)
    (h12 : t1 ≤ t2) (r : Row) (h : isRegression increasing metric t2 r) :
    isRegression increasing metric t1 r := by
  unfold isRegression at h ⊢
  rcases h with ⟨hm, h⟩ | ⟨hm, h⟩
  · exact Or.inl ⟨hm, le_trans h12 h⟩
  · exact Or.inr ⟨hm, le_trans h12 h⟩

theorem pruneTable_rows_sublist (increasing : StringSet) (t1 t2 : ℚ) (h12 : t1 ≤ t2)
    (tb : Table) :
    (pruneTable increasing t2 tb).Rows.Sublist (pruneTable increasing t1 tb).Rows := by
  simp only [pruneTable]
  apply List.monotone_filter_right
  intro r hr
  simp only [decide_eq_true_eq] at hr ⊢
  exact isRegression_mono increasing tb.Metric t1 t2 h12 r hr

theorem skip_sublistForall₂ (increasing : StringSet) (t1 t2 : ℚ) (h12 : t1 ≤ t2)
    (tables : List Table) :
    List.SublistForall₂
      (fun out2 out1 => out2.Metric = out1.Metric ∧ out2.Configs = out1.Configs
        ∧ out2.OldNewDelta = out1.OldNewDelta ∧ out2.Rows.Sublist out1.Rows)
      ((tables.map (pruneTable increasing t2)).filter (fun tb => !tb.Rows.isEmpty))
      ((tables.map (pruneTable increasing t1)).filter (fun tb => !tb.Rows.isEmpty)) := by
  induction tables with
  | nil => exact List.SublistForall₂.nil
  | cons tb rest ih =>
    simp only [List.map_cons, List.filter_cons]
    have hsub := pruneTable_rows_sublist increasing t1 t2 h12 tb
    by_cases h2 : (!(pruneTable increasing t2 tb).Rows.isEmpty) = true
    · have h1 : (!(pruneTable increasing t1 tb).Rows.isEmpty) = true := by
        cases h1r : (pruneTable increasing t1 tb).Rows with
        | nil =>
          rw [h1r] at hsub
          rw [List.sublist_nil.mp hsub] at h2
          simp at h2
        | cons a l => rfl
      rw [if_pos h2, if_pos h1]
      exact List.SublistForall₂.cons ⟨rfl, rfl, rfl, hsub⟩ ih
    · rw [if_neg h2]
      by_cases h1 : (!(pruneTable increasing t1 tb).Rows.isEmpty) = true
      · rw [if_pos h1]
        exact List.SublistForall₂.cons_right ih
      · rw [if_neg h1]
        exact ih

/-- C19: the severity filter is monotone in the threshold. For thresholds `0 < t1 ≤ t2`, the
tables returned at `t2` correspond, in order, to a subsequence of the tables returned at
`t1` (same Metric, Configs and OldNewDelta), and the rows of each table returned at `t2` are
a subsequence of the rows of the corresponding table returned at `t1`. -/
theorem skipBenchstatTables_monotone (tables : List Table) (increasing : StringSet)
    (t1 t2 : ℚ) (_h1 : 0 < t1) (h12 : t1 ≤ t2) :
    List.SublistForall₂
      (fun out2 out1 => out2.Metric = out1.Metric ∧ out2.Configs = out1.Configs
        ∧ out2.OldNewDelta = out1.OldNewDelta ∧ out2.Rows.Sublist out1.Rows)
      (skipBenchstatTables tables t2 increasing)
      (skipBenchstatTables tables t1 increasing) := by
  rw [skipBenchstatTables_eq, skipBenchstatTables_eq]
  exact skip_sublistForall₂ increasing t1 t2 h12 tables

/-- Witness of C19: thresholds 10 and 25 on a bigger-is-better row with `PctDelta = -20`;
the row is returned at 10 and nothing is returned at 25. -/
theorem skipBenchstatTables_monotone_witness :
    (0 : ℚ) < 10 ∧ (10 : ℚ) ≤ 25
    ∧ List.SublistForall₂
        (fun out2 out1 => out2.Metric = out1.Metric ∧ out2.Configs = out1.Configs
          ∧ out2.OldNewDelta = out1.OldNewDelta ∧ out2.Rows.Sublist out1.Rows)
        (skipBenchstatTables [fooTable "ops/s" (fooRow 100 80 (-20) "-20.00%")] 25 ["ops/s"])
        (skipBenchstatTables [fooTable "ops/s" (fooRow 100 80 (-20) "-20.00%")] 10 ["ops/s"])
    ∧ skipBenchstatTables [fooTable "ops/s" (fooRow 100 80 (-20) "-20.00%")] 25 ["ops/s"] = []
    ∧ skipBenchstatTables [fooTable "ops/s" (fooRow 100 80 (-20) "-20.00%")] 10 ["ops/s"]
        = [fooTable "ops/s" (fooRow 100 80 (-20) "-20.00%")] :=
  ⟨by decide, by decide,
   skipBenchstatTables_monotone [fooTable "ops/s" (fooRow 100 80 (-20) "-20.00%")] ["ops/s"]
     10 25 (by decide) (by decide),
   by decide, by decide⟩

/-! ## Lower bound of the noise floor -/

theorem calculateMeanDiff_nonneg (m : Metrics) (hmin : 0 < m.Min) (h1 : m.Min ≤ m.Mean) :
    0 ≤ calculateMeanDiff m := by
  unfold calculateMeanDiff
  by_cases h0 : m.Mean = 0 ∨ m.Max = 0
  · rw [if_pos h0]
  · rw [if_neg h0]
    have hmean : 0 < m.Mean := lt_of_lt_of_le hmin h1
    have hdiv : m.Min / m.Mean ≤ 1 := (div_le_one hmean).mpr h1
    have hq : fdiv m.Min m.Mean ≤ 1 := by
      unfold fdiv
      have := roundFloat64_mono hdiv
      rwa [roundFloat64_one] at this
    have hdiff : 0 ≤ fsub 1 (fdiv m.Min m.Mean) := by
      unfold fsub
      exact roundFloat64_nonneg _ (by linarith)
    simp only []
    split
    · next hd => linarith
    · exact hdiff

theorem foldl_fadd_nonneg (l : List ℚ) (h : ∀ x ∈ l, 0 ≤ x) :
    ∀ d : ℚ, 0 ≤ d → 0 ≤ l.foldl fadd d := by
  induction l with
  | nil => intro d hd; exact hd
  | cons a rest ih =>
    intro d hd
    rw [List.foldl_cons]
    apply ih (fun x hx => h x (List.mem_cons_of_mem _ hx))
    unfold fadd
    exact roundFloat64_nonneg _ (add_nonneg hd (h a (List.mem_cons_self _ _)))

theorem spreadSum_nonneg (metrics : List Metrics)
    (h : ∀ m ∈ metrics, 0 < m.Min ∧ m.Min ≤ m.Mean ∧ m.Mean ≤ m.Max) :
    0 ≤ spreadSum metrics := by
  unfold spreadSum
  apply foldl_fadd_nonneg _ _ 0 (le_refl 0)
  intro x hx
  obtain ⟨m, hm, rfl⟩ := List.mem_map.mp hx
  have hmem := (List.mem_filter.mp hm).1
  have := calculateMeanDiff_nonneg m (h m hmem).1 (h m hmem).2.1
  unfold fmul
  exact roundFloat64_nonneg _ (mul_nonneg (by norm_num) this)

theorem noiseFloor_ge_one (metrics : List Metrics)
    (h : ∀ m ∈ metrics, 0 < m.Min ∧ m.Min ≤ m.Mean ∧ m.Mean ≤ m.Max) :
    1 ≤ noiseFloor metrics := by
  have hs := spreadSum_nonneg metrics h
  have ht : 0 ≤ (if ∀ m ∈ metrics, m.Mean < 32 then fmul (spreadSum metrics) 2
      else spreadSum metrics) := by
    split
    · unfold fmul
      exact roundFloat64_nonneg _ (mul_nonneg hs (by norm_num))
    · exact hs
  unfold noiseFloor fadd
  have := roundFloat64_mono (show (1 : ℚ) ≤ 1 + (if ∀ m ∈ metrics, m.Mean < 32 then
      fmul (spreadSum metrics) 2 else spreadSum metrics) by linarith)
  rwa [roundFloat64_one] at this

/-- C20: for every row whose metrics all satisfy `0 < Min ≤ Mean ≤ Max`, `calculateMeanDiff`,
computed in float64 arithmetic, is non-negative for each metric and the bound that
`colorizeBenchstatTables` compares `|PctDelta|` with is at least 1; so every such row with
`|PctDelta| < 1` has its delta replaced by the colourised neutral marker, and is not
coloured red or green. -/
theorem colorizeBenchstatTables_floor_ge_one (c : Colorizer) (tables : List Table)
    (increasing : StringSet) (i j : Nat) (tb : Table) (row : Row)
    (htb : tables[i]? = some tb) (hrow : tb.Rows[j]? = some row)
    (hm : ∀ m ∈ row.Metrics, 0 < m.Min ∧ m.Min ≤ m.Mean ∧ m.Mean ≤ m.Max) :
    (∀ m ∈ row.Metrics, 0 ≤ calculateMeanDiff m)
    ∧ 1 ≤ fadd (if isTinyValue row.Metrics then fmul (calculateCombinedMeanDiff row.Metrics) 2
            else calculateCombinedMeanDiff row.Metrics) 1
    ∧ (|row.PctDelta| < 1 →
        rowAt (colorizeBenchstatTables c tables increasing) i j
          = some { row with Delta := c.yellowColorize "~" }) := by
  refine ⟨fun m hmem => calculateMeanDiff_nonneg m (hm m hmem).1 (hm m hmem).2.1, ?_, ?_⟩
  · rw [colorize_bound_eq_noiseFloor]
    exact noiseFloor_ge_one row.Metrics hm
  · intro hlt
    rw [rowAt_colorizeBenchstatTables c tables increasing i j tb row htb hrow]
    cases he : isEpsilonDelta row.Metrics with
    | true => rw [colorizeRow_of_epsilon c _ row he]
    | false =>
      rw [colorizeRow_of_not_epsilon _ _ _ he,
        if_pos (lt_of_lt_of_le hlt (noiseFloor_ge_one row.Metrics hm))]

theorem spreadRow_bounds (pct : ℚ) (delta : String) :
    ∀ m ∈ (spreadRow pct delta).Metrics, 0 < m.Min ∧ m.Min ≤ m.Mean ∧ m.Mean ≤ m.Max := by
  intro m hmem
  simp only [spreadRow, List.mem_cons, List.mem_singleton, List.not_mem_nil, or_false] at hmem
  rcases hmem with rfl | rfl
  · simp only [spreadMetric]; norm_num
  · simp only [flatMetric]; norm_num

/-- Witness of C20: metrics 80/100/120 and flat 121 and `PctDelta = 1/2`. The float64 value
of `calculateMeanDiff` on the first metric is 0.19999999999999996 (900719925474099 / 2^52),
the bound is 20.999999999999996, and the delta becomes the colourised neutral marker. -/
theorem colorizeBenchstatTables_floor_ge_one_witness :
    [fooTable "ns/op" (spreadRow (1/2) "+0.50%")][0]?
        = some (fooTable "ns/op" (spreadRow (1/2) "+0.50%"))
    ∧ (fooTable "ns/op" (spreadRow (1/2) "+0.50%")).Rows[0]? = some (spreadRow (1/2) "+0.50%")
    ∧ (∀ m ∈ (spreadRow (1/2) "+0.50%").Metrics,
        0 < m.Min ∧ m.Min ≤ m.Mean ∧ m.Mean ≤ m.Max)
    ∧ calculateMeanDiff (spreadMetric 80 100 120) = 900719925474099 / 4503599627370496
    ∧ fadd (if isTinyValue (spreadRow (1/2) "+0.50%").Metrics then
          fmul (calculateCombinedMeanDiff (spreadRow (1/2) "+0.50%").Metrics) 2
        else calculateCombinedMeanDiff (spreadRow (1/2) "+0.50%").Metrics) 1
        = 5910974510923775 / 281474976710656
    ∧ |(spreadRow (1/2) "+0.50%").PctDelta| < 1
    ∧ rowAt (colorizeBenchstatTables ansiColorizer
          [fooTable "ns/op" (spreadRow (1/2) "+0.50%")] []) 0 0
        = some { spreadRow (1/2) "+0.50%" with
                  Delta := ansiColorizer.yellowColorize "~" } := by
  have hb := spreadRow_bounds (1/2) "+0.50%"
  have hlt : |(spreadRow (1/2) "+0.50%").PctDelta| < 1 := by
    norm_num [spreadRow, abs_lt]
  have hf : fadd (if isTinyValue (spreadRow (1/2) "+0.50%").Metrics then
        fmul (calculateCombinedMeanDiff (spreadRow (1/2) "+0.50%").Metrics) 2
      else calculateCombinedMeanDiff (spreadRow (1/2) "+0.50%").Metrics) 1
      = 5910974510923775 / 281474976710656 := by
    rw [colorize_bound_eq_noiseFloor]
    exact noiseFloor_spreadRow (1/2) "+0.50%"
  exact ⟨rfl, rfl, hb, calculateMeanDiff_80_100_120, hf, hlt,
    (colorizeBenchstatTables_floor_ge_one ansiColorizer
      [fooTable "ns/op" (spreadRow (1/2) "+0.50%")] [] 0 0
      (fooTable "ns/op" (spreadRow (1/2) "+0.50%")) (spreadRow (1/2) "+0.50%")
      rfl rfl hb).2.2 hlt⟩

/-! ## Sample-count advisory -/

theorem fixRow_log (st : FixState) (row : Row) :
    (fixRow st row).1.log
      = st.log ++ (if NeedsMoreSamples row = true then [sampleWarning row.Benchmark] else []) := by
  unfold fixRow NeedsMoreSamples
  simp only [fixDelta_Metrics, fixDelta_Benchmark]
  unfold isDisabledGeomean
  simp only [fixDelta_Metrics, fixDelta_Benchmark]
  cases hms : row.Metrics with
  | nil =>
    by_cases hn : row.Benchmark = "[Geo mean]" <;> simp [hn]
  | cons m0 rest =>
    by_cases hn : row.Benchmark = "[Geo mean]"
    · by_cases hd : m0.Unit ∈ markMetrics st.disabledGeomean (m0 :: rest) <;> simp [hn, hd]
    · by_cases hl : m0.RValues.length < 5 <;> simp [hn, hl]

theorem fixRows_log (st : FixState) (rows : List Row) :
    (fixRows st rows).1.log
      = st.log ++ (rows.filter NeedsMoreSamples).map (fun r => sampleWarning r.Benchmark) := by
  induction rows generalizing st with
  | nil => simp [fixRows]
  | cons row rest ih =>
    rw [fixRows_cons]
    simp only [ih, fixRow_log, List.filter_cons]
    cases NeedsMoreSamples row <;> simp

theorem fixTables_log (st : FixState) (tables : List Table) :
    (fixTables st tables).1.log
      = st.log ++ ((tables.flatMap Table.Rows).filter NeedsMoreSamples).map
          (fun r => sampleWarning r.Benchmark) := by
  induction tables generalizing st with
  | nil => simp [fixTables]
  | cons tb rest ih =>
    rw [fixTables_cons]
    simp only [ih, fixRows_log, List.flatMap_cons, List.filter_append, List.map_append,
      List.append_assoc]

theorem fixRow_of_needsMoreSamples (st : FixState) (row : Row)
    (h : NeedsMoreSamples row = true) : (fixRow st row).2 = (fixDelta row, true) := by
  have hrow := fixRow_row st row
  have hkeep : (fixRow st row).2.2 = true := by
    rw [fixRow_keep]
    unfold NeedsMoreSamples at h
    unfold isDisabledGeomean
    rw [fixDelta_Benchmark]
    cases hms : row.Metrics.head? with
    | none => rw [hms] at h; simp at h
    | some m0 =>
      rw [hms] at h
      simp only [decide_eq_true_eq] at h
      simp [h.1]
  exact Prod.ext hrow hkeep

/-- C14: `fixBenchstatTables` writes one warning for exactly the rows that are not named
`[Geo mean]` and whose first metric carries fewer than 5 raw sample values, in the order of
the rows (table by table), each warning naming the benchmark of the row; a row that gets a
warning is kept in its table and is left as the zero-delta normalisation leaves it, and the
rows visited and their keep flags do not depend on the lines written to the log. -/
theorem fixBenchstatTables_warnings (tables : List Table) :
    fixBenchstatTablesLog tables
      = ((tables.flatMap Table.Rows).filter NeedsMoreSamples).map
          (fun row => sampleWarning row.Benchmark)
    ∧ (∀ (i j : Nat) (tb : Table) (row : Row),
        tables[i]? = some tb → tb.Rows[j]? = some row → NeedsMoreSamples row = true →
        visitedAt (fixBenchstatTablesVisited tables) i j = some (fixDelta row, true))
    ∧ (∀ (st : FixState) (log : List String) (row : Row),
        (fixRow ⟨st.disabledGeomean, log⟩ row).2 = (fixRow st row).2) := by
  refine ⟨?_, ?_, ?_⟩
  · unfold fixBenchstatTablesLog
    rw [fixTables_log]
    rfl
  · intro i j tb row htb hrow hneeds
    rw [visitedAt_fixBenchstatTables tables i j tb row htb hrow,
      fixRow_of_needsMoreSamples _ row hneeds]
  · intro st log row
    apply Prod.ext
    · rw [fixRow_row, fixRow_row]
    · rw [fixRow_keep, fixRow_keep]

/-- Witness of C14: a table with an under-sampled row `BenchmarkBar` (three samples), a
fully sampled row and an aggregate row; one warning is written, for `BenchmarkBar`, and that
row is kept. -/
theorem fixBenchstatTables_warnings_witness :
    [rowsTable "ns/op"
        [shortRow "BenchmarkBar", fooRow 100 150 50 "+50.00%", geoMeanRow 100 100]][0]?
      = some (rowsTable "ns/op"
        [shortRow "BenchmarkBar", fooRow 100 150 50 "+50.00%", geoMeanRow 100 100])
    ∧ (rowsTable "ns/op"
        [shortRow "BenchmarkBar", fooRow 100 150 50 "+50.00%", geoMeanRow 100 100]).Rows[0]?
      = some (shortRow "BenchmarkBar")
    ∧ NeedsMoreSamples (shortRow "BenchmarkBar") = true
    ∧ visitedAt (fixBenchstatTablesVisited [rowsTable "ns/op"
        [shortRow "BenchmarkBar", fooRow 100 150 50 "+50.00%", geoMeanRow 100 100]]) 0 0
      = some (fixDelta (shortRow "BenchmarkBar"), true)
    ∧ fixBenchstatTablesLog [rowsTable "ns/op"
        [shortRow "BenchmarkBar", fooRow 100 150 50 "+50.00%", geoMeanRow 100 100]]
      = ["WARNING: BenchmarkBar needs more samples, re-run with -count=5 or higher?"] := by
  refine ⟨rfl, rfl, by decide, ?_, ?_⟩
  · exact (fixBenchstatTables_warnings [rowsTable "ns/op"
        [shortRow "BenchmarkBar", fooRow 100 150 50 "+50.00%", geoMeanRow 100 100]]).2.1 0 0
        (rowsTable "ns/op"
          [shortRow "BenchmarkBar", fooRow 100 150 50 "+50.00%", geoMeanRow 100 100])
        (shortRow "BenchmarkBar") rfl rfl (by decide)
  · rw [show fixBenchstatTablesLog [rowsTable "ns/op"
        [shortRow "BenchmarkBar", fooRow 100 150 50 "+50.00%", geoMeanRow 100 100]]
        = (([rowsTable "ns/op" [shortRow "BenchmarkBar", fooRow 100 150 50 "+50.00%",
            geoMeanRow 100 100]].flatMap Table.Rows).filter NeedsMoreSamples).map
            (fun row => sampleWarning row.Benchmark) from by
          unfold fixBenchstatTablesLog; rw [fixTables_log]; rfl]
    decide

/-! ## The colour flag of the HTML renderer -/

/-- C13 (code defect): `FormatHTML` does not read its parameter `colorized`. Called with
`colorized = false` on a table whose row has change indicator `+1`, it writes
`bgcolor='green'` on the benchmark cell and on the delta cell, and the output differs from
the one for the same table with the change indicator set to 0. -/
theorem formatHTML_ignores_colorized :
    FormatHTML sampleFormatter ""
        [fooTable "ns/op" { fooRow 100 90 (-10) "-10.00%" with Change := 1 }] false []
      = "<table border='1' class='benchstat'>\n"
        ++ "<tr class='configs'><th/><th>old</th><th>new</th></tr>\n"
        ++ "<tbody>\n"
        ++ "<tr><th/><th colspan='2' class='metric'>ns/op</th><th>delta</th>\n</tr>\n"
        ++ "<tr><td bgcolor='green'>BenchmarkFoo</td><td>1.00 ± 0%</td><td>1.00 ± 0%"
        ++ "</td><td bgcolor='green'>-10.00% </td></tr>\n"
        ++ "</tbody>\n"
        ++ "</table>\n"
    ∧ FormatHTML sampleFormatter ""
        [fooTable "ns/op" { fooRow 100 90 (-10) "-10.00%" with Change := 1 }] false []
      ≠ FormatHTML sampleFormatter ""
        [fooTable "ns/op" { fooRow 100 90 (-10) "-10.00%" with Change := 0 }] false []
    ∧ (∀ (f : Formatter) (buf : String) (tables : List Table) (increasing : StringSet),
        FormatHTML f buf tables false increasing = FormatHTML f buf tables true increasing) := by
  refine ⟨by decide, by decide, ?_⟩
  intro f buf tables increasing
  rfl

/-! ## In-place compaction -/

theorem set_append_length {α : Type} (out : List α) (z y : α) (zs : List α) :
    (out ++ z :: zs).set out.length y = out ++ y :: zs := by
  induction out with
  | nil => rfl
  | cons a out ih => simp [ih]

theorem getElem?_append_length {α : Type} (pre : List α) (x : α) (suf : List α) :
    (pre ++ x :: suf)[pre.length]? = some x := by
  induction pre with
  | nil => simp
  | cons a pre ih => simpa using ih

theorem take_append_length {α : Type} (out rest : List α) :
    (out ++ rest).take out.length = out := by
  induction out with
  | nil => simp
  | cons a out ih => simp [ih]

theorem drop_eq_cons {α : Type} (orig : List α) (i : Nat) (x : α) (suf : List α)
    (h : orig.drop i = x :: suf) : orig[i]? = some x ∧ orig.drop (i + 1) = suf := by
  constructor
  · have := congrArg (fun l => l[0]?) h
    simpa [List.getElem?_drop] using this
  · have h2 : orig.drop (i + 1) = (orig.drop i).drop 1 := by
      rw [List.drop_drop]
    rw [h2, h, List.drop_one, List.tail_cons]

/-- Invariant of the compaction loop. When the backing array is `out ++ junk ++ suf`, with
`out` the slice built so far and `suf` the part of the original rows not read yet, the loop
ends in the state and with the slice of the fresh-list loop, and every iteration reads the
original element at its position with a write position that does not exceed it. -/
theorem compactLoop_spec {σ α : Type} (step : σ → α → σ × Option α) (orig : List α) :
    ∀ (suf : List α) (st : σ) (out junk : List α) (tr : List (Nat × Nat × α)),
      orig.drop (out.length + junk.length) = suf →
      (compactLoop step st (out ++ junk ++ suf) out.length tr
          (out.length + junk.length) suf.length).1 = (filterFresh step st suf).1
      ∧ (compactLoop step st (out ++ junk ++ suf) out.length tr
          (out.length + junk.length) suf.length).2.1.take
          (compactLoop step st (out ++ junk ++ suf) out.length tr
            (out.length + junk.length) suf.length).2.2.1
        = out ++ (filterFresh step st suf).2
      ∧ ∃ T : List (Nat × Nat × α),
          (compactLoop step st (out ++ junk ++ suf) out.length tr
            (out.length + junk.length) suf.length).2.2.2 = tr ++ T
          ∧ T.map (fun e => e.1) = List.range' (out.length + junk.length) suf.length
          ∧ ∀ e ∈ T, e.2.1 ≤ e.1 ∧ orig[e.1]? = some e.2.2 := by
  intro suf
  induction suf with
  | nil =>
    intro st out junk tr _
    refine ⟨rfl, ?_, [], by simp [compactLoop], rfl, by simp⟩
    simp only [compactLoop, filterFresh, List.append_nil]
    exact take_append_length out junk
  | cons x suf ih =>
    intro st out junk tr horig
    obtain ⟨hx, hdrop⟩ := drop_eq_cons orig _ x suf horig
    have hread : (out ++ junk ++ x :: suf)[out.length + junk.length]? = some x := by
      have := getElem?_append_length (out ++ junk) x suf
      rwa [List.length_append] at this
    simp only [List.length_cons, compactLoop, hread, filterFresh]
    cases hstep : (step st x).2 with
    | none =>
      simp only []
      have harr : out ++ junk ++ x :: suf = out ++ (junk ++ [x]) ++ suf := by simp
      have hlen : out.length + junk.length + 1 = out.length + (junk ++ [x]).length := by
        rw [List.length_append]; rfl
      rw [harr, hlen]
      obtain ⟨h1, h2, T, h3, h4, h5⟩ := ih (step st x).1 out (junk ++ [x])
        (tr ++ [(out.length + junk.length, out.length, x)])
        (by rw [← hlen]; exact hdrop)
      refine ⟨h1, h2, (out.length + junk.length, out.length, x) :: T, ?_, ?_, ?_⟩
      · rw [h3]; simp
      · simp only [List.map_cons, h4, ← hlen]
        rfl
      · intro e he
        rcases List.mem_cons.mp he with rfl | he
        · exact ⟨Nat.le_add_right _ _, hx⟩
        · exact h5 e he
    | some y =>
      simp only []
      obtain ⟨z, junk', hj1, hj2⟩ : ∃ z junk', junk ++ x :: suf = z :: (junk' ++ suf)
          ∧ junk'.length = junk.length := by
        cases junk with
        | nil => exact ⟨x, [], rfl, rfl⟩
        | cons j js => exact ⟨j, js ++ [x], by simp, by simp⟩
      have harr : (out ++ junk ++ x :: suf).set out.length y = (out ++ [y]) ++ junk' ++ suf := by
        rw [List.append_assoc, hj1, set_append_length]
        simp
      have hlen : out.length + junk.length + 1 = (out ++ [y]).length + junk'.length := by
        simp [hj2]; omega
      have hw : out.length + 1 = (out ++ [y]).length := by simp
      rw [harr, hlen, hw]
      obtain ⟨h1, h2, T, h3, h4, h5⟩ := ih (step st x).1 (out ++ [y]) junk'
        (tr ++ [(out.length + junk.length, out.length, x)])
        (by rw [← hlen]; exact hdrop)
      refine ⟨h1, ?_, (out.length + junk.length, out.length, x) :: T, ?_, ?_, ?_⟩
      · rw [h2]; simp
      · rw [h3]; simp
      · simp only [List.map_cons, h4, ← hlen]
        rfl
      · intro e he
        rcases List.mem_cons.mp he with rfl | he
        · exact ⟨Nat.le_add_right _ _, hx⟩
        · exact h5 e he

theorem filterFresh_keepStep {α : Type} (keep : α → Bool) (rows : List α) :
    (filterFresh (keepStep keep) () rows).2 = rows.filter keep := by
  induction rows with
  | nil => rfl
  | cons x rest ih =>
    cases hk : keep x <;> simp [filterFresh, keepStep, hk, ih, List.filter_cons]

theorem filterFresh_skipStep (b : Bool) (t : ℚ) (rows : List Row) :
    (filterFresh (skipStep b t) () rows).2 = skipRows b t [] rows := by
  rw [skipRows_eq_filter, List.nil_append]
  induction rows with
  | nil => rfl
  | cons r rest ih =>
    cases b <;> by_cases h : t ≤ r.PctDelta <;> by_cases h' : t ≤ -r.PctDelta <;>
      simp [filterFresh, skipStep, List.filter_cons, h, h', ih]

theorem filterFresh_fixStep (st : FixState) (rows : List Row) :
    filterFresh fixStep st rows = ((fixRows st rows).1, selectedRows (fixRows st rows).2) := by
  induction rows generalizing st with
  | nil => rfl
  | cons r rest ih =>
    rw [fixRows_cons]
    simp only [selectedRows_cons, filterFresh, fixStep]
    cases hk : (fixRow st r).2.2 <;> simp [ih]

/-- C18: the in-place compaction used by `fixBenchstatTables` and `skipBenchstatTables`
(kept rows appended into `rows[:0]` of the slice being iterated) is equivalent to filtering
into a fresh list. For every loop body, state and row sequence the loop ends in the same
state and with the same slice as the loop that appends to a fresh list; the iterations read
the positions `0, 1, ...` in order, at every iteration the write position does not exceed the
read position, and the element read is the original element at that position. For a
keep-predicate the slice is the pure filter; for the bodies of `skipBenchstatTables` and
`fixBenchstatTables` it is the row list of the embedding. -/
theorem inplace_compaction_eq_fresh_filter :
    (∀ (σ α : Type) (step : σ → α → σ × Option α) (st : σ) (rows : List α),
      (compactInPlace step st rows).1 = (filterFresh step st rows).1
      ∧ (compactInPlace step st rows).2.1 = (filterFresh step st rows).2
      ∧ (compactInPlace step st rows).2.2.map (fun e => e.1) = List.range rows.length
      ∧ ∀ e ∈ (compactInPlace step st rows).2.2, e.2.1 ≤ e.1 ∧ rows[e.1]? = some e.2.2)
    ∧ (∀ (α : Type) (keep : α → Bool) (rows : List α),
      (compactInPlace (keepStep keep) () rows).2.1 = rows.filter keep)
    ∧ (∀ (b : Bool) (t : ℚ) (rows : List Row),
      (compactInPlace (skipStep b t) () rows).2.1 = skipRows b t [] rows)
    ∧ (∀ (st : FixState) (rows : List Row),
      (compactInPlace fixStep st rows).2.1 = selectedRows (fixRows st rows).2
      ∧ (compactInPlace fixStep st rows).1 = (fixRows st rows).1) := by
  have key : ∀ (σ α : Type) (step : σ → α → σ × Option α) (st : σ) (rows : List α),
      (compactInPlace step st rows).1 = (filterFresh step st rows).1
      ∧ (compactInPlace step st rows).2.1 = (filterFresh step st rows).2
      ∧ (compactInPlace step st rows).2.2.map (fun e => e.1) = List.range rows.length
      ∧ ∀ e ∈ (compactInPlace step st rows).2.2, e.2.1 ≤ e.1 ∧ rows[e.1]? = some e.2.2 := by
    intro σ α step st rows
    obtain ⟨h1, h2, T, h3, h4, h5⟩ := compactLoop_spec step rows rows st [] [] [] rfl
    simp only [List.nil_append, List.length_nil, Nat.add_zero] at h1 h2 h3 h4
    unfold compactInPlace
    refine ⟨h1, h2, ?_, ?_⟩
    · simp only [h3, h4, List.range_eq_range']
    · simp only [h3]
      exact h5
  refine ⟨key, ?_, ?_, ?_⟩
  · intro α keep rows
    rw [(key Unit α (keepStep keep) () rows).2.1, filterFresh_keepStep]
  · intro b t rows
    rw [(key Unit Row (skipStep b t) () rows).2.1, filterFresh_skipStep]
  · intro st rows
    rw [(key FixState Row fixStep st rows).2.1, (key FixState Row fixStep st rows).1,
      filterFresh_fixStep]
    exact ⟨rfl, rfl⟩

/-- Witness of C18: compacting `[1, 2, 3, 4]` in place with the predicate "even" gives
`[2, 4]`; the last iteration reads position 3 with write position 1. -/
theorem inplace_compaction_eq_fresh_filter_witness :
    (compactInPlace (keepStep (fun n : Nat => n % 2 == 0)) () [1, 2, 3, 4]).2.1 = [2, 4]
    ∧ (3, 1, 4) ∈ (compactInPlace (keepStep (fun n : Nat => n % 2 == 0)) () [1, 2, 3, 4]).2.2
    ∧ (1 ≤ 3 ∧ [1, 2, 3, 4][3]? = some 4) :=
  ⟨by decide, by decide,
   (inplace_compaction_eq_fresh_filter.1 Unit Nat (keepStep (fun n : Nat => n % 2 == 0)) ()
      [1, 2, 3, 4]).2.2.2 (3, 1, 4) (by decide)⟩

/-! ## Structure of the renderer output -/

theorem concatAll_append (a b : List String) :
    concatAll (a ++ b) = concatAll a ++ concatAll b := by
  induction a with
  | nil => simp [concatAll]
  | cons s rest ih => simp [concatAll, ih, String.append_assoc]

theorem htmlRow_append (f : Formatter) (b : Bool) (buf : String) (row : Row) :
    htmlRow f b buf row = buf ++ htmlRow f b "" row := by
  unfold htmlRow
  simp only [colorizeHTML_eq]
  rw [htmlMetrics_append, htmlMetrics_append f row.Scaler ("" ++ _ ++ _ ++ _ ++ _)]
  simp [String.append_assoc]

theorem rowItemsFrom_nil (prev : String) : rowItemsFrom prev [] = [] := rfl

theorem rowItemsFrom_cons (prev : String) (row : Row) (rest : List Row) :
    rowItemsFrom prev (row :: rest)
      = (if row.Group ≠ prev then [Item.group row.Group, Item.data row] else [Item.data row])
        ++ rowItemsFrom row.Group rest := by
  simp [rowItemsFrom, List.flatMap_cons]

theorem htmlRows_eq (f : Formatter) (b : Bool) (buf prev : String) (rows : List Row) :
    htmlRows f b buf prev rows
      = buf ++ concatAll ((rowItemsFrom prev rows).map (htmlItem f b)) := by
  induction rows generalizing buf prev with
  | nil => simp [htmlRows, rowItemsFrom_nil, concatAll]
  | cons row rest ih =>
    rw [rowItemsFrom_cons]
    by_cases h : row.Group = prev
    · subst h
      simp only [htmlRows, ne_eq, not_true_eq_false, if_false, List.map_append, List.map_cons,
        List.map_nil, concatAll_append, concatAll, htmlItem]
      rw [ih, htmlRow_append]
      simp [String.append_assoc]
    · simp only [htmlRows, ne_eq, h, not_false_eq_true, if_true, List.map_append,
        List.map_cons, List.map_nil, concatAll_append, concatAll, htmlItem]
      rw [ih, htmlRow_append]
      simp [String.append_assoc]

theorem htmlTables_eq (f : Formatter) (increasing : StringSet) (buf : String)
    (tables : List Table) :
    htmlTables f increasing buf tables
      = buf ++ concatAll (tables.map (htmlTableText f increasing)) := by
  induction tables generalizing buf with
  | nil => simp [htmlTables, concatAll]
  | cons tb rest ih =>
    simp only [htmlTables, List.map_cons, concatAll, htmlTableText, rowItems]
    rw [ih, htmlRows_eq]
    simp [String.append_assoc]

theorem htmlConfigs_eq (buf : String) (configs : List String) :
    htmlConfigs buf configs
      = buf ++ concatAll (configs.map (fun c => "<th>" ++ EscapeString c ++ "</th>")) := by
  induction configs generalizing buf with
  | nil => simp [htmlConfigs, concatAll]
  | cons c rest ih =>
    simp only [htmlConfigs, List.map_cons, concatAll]
    rw [ih]
    simp [String.append_assoc]

theorem FormatHTML_cons (f : Formatter) (buf : String) (first : Table) (rest : List Table)
    (colorized : Bool) (increasing : StringSet) :
    FormatHTML f buf (first :: rest) colorized increasing
      = buf ++ htmlHead first ++ concatAll ((first :: rest).map (htmlTableText f increasing))
        ++ "</table>\n" := by
  unfold FormatHTML htmlHead
  simp only []
  rw [htmlTables_eq, htmlConfigs_eq]
  by_cases h : first.OldNewDelta = true <;> simp [h, String.append_assoc]

theorem mdMetrics_append (f : Formatter) (scaler : Scaler) (buf : String)
    (metrics : List Metrics) :
    mdMetrics f scaler buf metrics = buf ++ mdMetrics f scaler "" metrics := by
  induction metrics generalizing buf with
  | nil => simp [mdMetrics]
  | cons m rest ih =>
    simp only [mdMetrics]
    rw [ih, ih ("" ++ "| " ++ _ ++ " ± " ++ _)]
    simp [String.append_assoc]

theorem mdRow_append (f : Formatter) (buf : String) (row : Row) :
    mdRow f buf row = buf ++ mdRow f "" row := by
  unfold mdRow
  simp only []
  rw [mdMetrics_append, mdMetrics_append f row.Scaler ("" ++ _)]
  simp [String.append_assoc]

theorem mdRows_eq (f : Formatter) (buf prev : String) (rows : List Row) :
    mdRows f buf prev rows = buf ++ concatAll ((rowItemsFrom prev rows).map (mdItem f)) := by
  induction rows generalizing buf prev with
  | nil => simp [mdRows, rowItemsFrom_nil, concatAll]
  | cons row rest ih =>
    rw [rowItemsFrom_cons]
    by_cases h : row.Group = prev
    · subst h
      simp only [mdRows, ne_eq, not_true_eq_false, if_false, List.map_append, List.map_cons,
        List.map_nil, concatAll_append, concatAll, mdItem]
      rw [ih, mdRow_append]
      simp [String.append_assoc]
    · simp only [mdRows, ne_eq, h, not_false_eq_true, if_true, List.map_append,
        List.map_cons, List.map_nil, concatAll_append, concatAll, mdItem]
      rw [ih, mdRow_append]
      simp [String.append_assoc]

theorem mdTables_eq (f : Formatter) (buf : String) (tables : List Table) :
    mdTables f buf tables = buf ++ concatAll (tables.map (mdTableText f)) := by
  induction tables generalizing buf with
  | nil => simp [mdTables, concatAll]
  | cons tb rest ih =>
    simp only [mdTables, List.map_cons, concatAll, mdTableText, rowItems]
    rw [ih, mdRows_eq]
    simp [String.append_assoc]

theorem mdConfigs_eq (buf : String) (configs : List String) :
    mdConfigs buf configs = buf ++ concatAll (configs.map (fun c => " " ++ c ++ " |")) := by
  induction configs generalizing buf with
  | nil => simp [mdConfigs, concatAll]
  | cons c rest ih =>
    simp only [mdConfigs, List.map_cons, concatAll]
    rw [ih]
    simp [String.append_assoc]

theorem writeMDTableDelimiterLoop_eq (buf : String) (n : Nat) :
    writeMDTableDelimiterLoop buf n = buf ++ concatAll (List.replicate n "--|") := by
  induction n generalizing buf with
  | zero => simp [writeMDTableDelimiterLoop, concatAll]
  | succ k ih =>
    simp only [writeMDTableDelimiterLoop, List.replicate_succ, concatAll]
    rw [ih]
    simp [String.append_assoc]

theorem writeMDTableDelimiter_eq (buf : String) (n : Nat) :
    writeMDTableDelimiter buf n = buf ++ mdDelimiterLine n := by
  unfold writeMDTableDelimiter mdDelimiterLine
  simp only []
  rw [writeMDTableDelimiterLoop_eq]
  simp [String.append_assoc]

theorem FormatMarkdown_cons (f : Formatter) (buf : String) (first : Table) (rest : List Table)
    (colorized : Bool) (increasing : StringSet) :
    FormatMarkdown f buf (first :: rest) colorized increasing
      = buf ++ mdHeaderLine first.Configs ++ mdDelimiterLine (first.Configs.length + 2)
        ++ concatAll ((first :: rest).map (mdTableText f)) := by
  unfold FormatMarkdown mdHeaderLine
  simp only []
  rw [mdTables_eq, writeMDTableDelimiter_eq, mdConfigs_eq]
  simp [String.append_assoc]

theorem rowItemsFrom_rows (prev : String) (rows : List Row) :
    (rowItemsFrom prev rows).filterMap Item.row? = rows := by
  induction rows generalizing prev with
  | nil => rfl
  | cons row rest ih =>
    rw [rowItemsFrom_cons]
    by_cases h : row.Group = prev <;> simp [h, List.filterMap_cons, Item.row?, ih]

theorem rowItemsFrom_names (prev : String) (rows : List Row) :
    (rowItemsFrom prev rows).filterMap Item.name? = rows.map (fun r => r.Benchmark) := by
  induction rows generalizing prev with
  | nil => rfl
  | cons row rest ih =>
    rw [rowItemsFrom_cons]
    by_cases h : row.Group = prev <;> simp [h, List.filterMap_cons, Item.name?, ih]

theorem tables_names (tables : List Table) :
    (tables.flatMap (fun tb => rowItems tb.Rows)).filterMap Item.name?
      = (tables.flatMap Table.Rows).map (fun r => r.Benchmark) := by
  induction tables with
  | nil => rfl
  | cons tb rest ih =>
    rw [List.flatMap_cons, List.flatMap_cons, List.filterMap_append, List.map_append, ih]
    congr 1
    exact rowItemsFrom_names "" tb.Rows

theorem htmlItem_data (f : Formatter) (b : Bool) (row : Row) :
    htmlItem f b (Item.data row)
      = "<tr><td" ++ bgcolorAttr row.Change b ++ ">" ++ EscapeString row.Benchmark
        ++ htmlMetrics f row.Scaler "" row.Metrics
        ++ "</td><td" ++ bgcolorAttr row.Change b ++ ">" ++ EscapeString row.Delta
        ++ " " ++ EscapeString row.Note ++ "</td></tr>\n" := by
  simp only [htmlItem, htmlRow, colorizeHTML_eq]
  rw [htmlMetrics_append]
  simp [String.append_assoc]

theorem mdItem_data (f : Formatter) (row : Row) :
    mdItem f (Item.data row)
      = row.Benchmark ++ mdMetrics f row.Scaler "" row.Metrics ++ " | " ++ row.Delta
        ++ " " ++ row.Note ++ " |\n" := by
  simp only [mdItem, mdRow]
  rw [mdMetrics_append]
  simp [String.append_assoc]

/-! ## Claims on the traversal of the renderers -/

/-- C11: for a fixed table list, `FormatHTML` and `FormatMarkdown` write, after their
header, the tables in list order and for each table the items of its rows in row order,
with exactly one data row per row; the data row of a row carries its benchmark name (escaped
in HTML, as it is in Markdown). The sequence of benchmark names written is therefore the
concatenation of the row names of the tables, and it is the same for the two renderers. -/
theorem renderers_one_data_row_per_row (f : Formatter) (buf : String) (colorized : Bool)
    (increasing : StringSet) :
    (∀ (first : Table) (rest : List Table),
      FormatHTML f buf (first :: rest) colorized increasing
        = buf ++ htmlHead first
          ++ concatAll ((first :: rest).map (fun tb =>
              "<tbody>\n" ++ "<tr><th/>" ++ "<th colspan='2' class='metric'>"
                ++ EscapeString tb.Metric ++ "</th><th>delta</th>\n</tr>\n"
                ++ concatAll ((rowItems tb.Rows).map
                    (htmlItem f (decide (tb.Metric ∈ increasing))))
                ++ "</tbody>\n"))
          ++ "</table>\n")
    ∧ (∀ (first : Table) (rest : List Table),
      FormatMarkdown f buf (first :: rest) colorized increasing
        = buf ++ mdHeaderLine first.Configs ++ mdDelimiterLine (first.Configs.length + 2)
          ++ concatAll ((first :: rest).map (fun tb =>
              "| | " ++ tb.Metric ++ " | | delta |\n"
                ++ concatAll ((rowItems tb.Rows).map (mdItem f)))))
    ∧ FormatHTML f buf [] colorized increasing = buf
    ∧ FormatMarkdown f buf [] colorized increasing = buf
    ∧ (∀ rows : List Row, (rowItems rows).filterMap Item.row? = rows)
    ∧ (∀ tables : List Table,
      (tables.flatMap (fun tb => rowItems tb.Rows)).filterMap Item.name?
        = (tables.flatMap Table.Rows).map (fun r => r.Benchmark))
    ∧ (∀ (b : Bool) (row : Row),
      htmlItem f b (Item.data row)
        = "<tr><td" ++ bgcolorAttr row.Change b ++ ">" ++ EscapeString row.Benchmark
          ++ htmlMetrics f row.Scaler "" row.Metrics
          ++ "</td><td" ++ bgcolorAttr row.Change b ++ ">" ++ EscapeString row.Delta
          ++ " " ++ EscapeString row.Note ++ "</td></tr>\n")
    ∧ (∀ row : Row,
      mdItem f (Item.data row)
        = row.Benchmark ++ mdMetrics f row.Scaler "" row.Metrics ++ " | " ++ row.Delta
          ++ " " ++ row.Note ++ " |\n") := by
  refine ⟨?_, ?_, rfl, rfl, fun rows => rowItemsFrom_rows "" rows, tables_names,
    htmlItem_data f, mdItem_data f⟩
  · intro first rest
    rw [FormatHTML_cons]
    rfl
  · intro first rest
    rw [FormatMarkdown_cons]
    rfl

/-! ## Claims on the group-label rows -/

theorem rowItemsFrom_split (rows : List Row) :
    ∀ (prev : String) (i : Nat) (row : Row), rows[i]? = some row →
      rowItemsFrom prev rows
        = rowItemsFrom prev (rows.take i)
          ++ (if row.Group ≠ (if i = 0 then prev
                else ((rows[i - 1]?).map (fun r => r.Group)).getD prev)
              then [Item.group row.Group, Item.data row] else [Item.data row])
          ++ rowItemsFrom row.Group (rows.drop (i + 1)) := by
  induction rows with
  | nil => intro prev i row h; simp at h
  | cons r rest ih =>
    intro prev i row h
    cases i with
    | zero =>
      simp only [List.getElem?_cons_zero, Option.some.injEq] at h
      subst h
      simp [rowItemsFrom_cons, rowItemsFrom_nil]
    | succ k =>
      simp only [List.getElem?_cons_succ] at h
      rw [rowItemsFrom_cons, ih r.Group k row h, List.take_succ_cons, rowItemsFrom_cons]
      simp only [List.drop_succ_cons, List.append_assoc, Nat.add_sub_cancel]
      cases k with
      | zero => simp
      | succ m =>
        have hm : (rest[m]?).isSome := by
          have hlt : m + 1 < rest.length := by
            rcases List.getElem?_eq_some.mp h with ⟨hl, _⟩
            exact hl
          rw [List.getElem?_eq_getElem (by omega)]
          rfl
        obtain ⟨x, hx⟩ := Option.isSome_iff_exists.mp hm
        simp [hx]

theorem labels_cons (prev : String) (row : Row) (rest : List Row) :
    (rowItemsFrom prev (row :: rest)).filterMap Item.label?
      = (if row.Group ≠ prev then [row.Group] else [])
        ++ (rowItemsFrom row.Group rest).filterMap Item.label? := by
  rw [rowItemsFrom_cons]
  by_cases h : row.Group = prev <;> simp [h, List.filterMap_cons, Item.label?]

theorem labels_count (rows : List Row) :
    ∀ prev : String, ContiguousGroups (prev :: rows.map (fun r => r.Group)) →
      ((rowItemsFrom prev rows).filterMap Item.label?).count prev = 0
      ∧ ∀ g, g ≠ prev →
          ((rowItemsFrom prev rows).filterMap Item.label?).count g
            = if g ∈ rows.map (fun r => r.Group) then 1 else 0 := by
  induction rows with
  | nil =>
    intro prev _
    simp [rowItemsFrom_nil]
  | cons row rest ih =>
    intro prev hc
    simp only [List.map_cons, ContiguousGroups] at hc
    obtain ⟨hrec, hrest⟩ := hc
    obtain ⟨ih1, ih2⟩ := ih row.Group hrest
    rw [labels_cons]
    by_cases h : row.Group = prev
    · subst h
      simp only [ne_eq, not_true_eq_false, if_false, List.nil_append]
      refine ⟨ih1, ?_⟩
      intro g hg
      rw [ih2 g hg]
      simp [hg]
    · have hprev : prev ∉ row.Group :: rest.map (fun r => r.Group) :=
        hrec (fun e => h e.symm)
      have hprev' : prev ∉ rest.map (fun r => r.Group) :=
        fun hm => hprev (List.mem_cons_of_mem _ hm)
      simp only [ne_eq, h, not_false_eq_true, if_true, List.singleton_append]
      constructor
      · rw [List.count_cons, ih2 prev (fun e => h e.symm), if_neg hprev']
        simp [h]
      · intro g hg
        by_cases hgr : g = row.Group
        · subst hgr
          rw [List.count_cons, ih1]
          simp
        · rw [List.count_cons, ih2 g hgr]
          have hne : ¬ (row.Group == g) = true := by
            simpa using fun e : row.Group = g => hgr e.symm
          simp [hne, hgr]

theorem contiguous_cons_empty (gs : List String) (hc : ContiguousGroups gs)
    (hne : ∀ g ∈ gs, g ≠ "") : ContiguousGroups ("" :: gs) := by
  cases gs with
  | nil => trivial
  | cons h t =>
    refine ⟨?_, hc⟩
    intro _ hmem
    exact hne "" hmem rfl

/-- C16: in `FormatHTML` and in `FormatMarkdown` a group-label row is written immediately
before the data row of row `i` of a table iff the group of row `i` differs from the group of
row `i - 1` of the same table, the first row being compared against the empty label; both
renderers write the same item sequence of the rows. Hence for a table whose rows are
contiguous by group and have non-empty groups, the label of every group of the table is
written exactly once. -/
theorem renderers_group_label_rows (f : Formatter) (increasing : StringSet) :
    (∀ (buf : String) (b : Bool) (rows : List Row),
      htmlRows f b buf "" rows = buf ++ concatAll ((rowItems rows).map (htmlItem f b)))
    ∧ (∀ (buf : String) (rows : List Row),
      mdRows f buf "" rows = buf ++ concatAll ((rowItems rows).map (mdItem f)))
    ∧ (∀ (buf : String) (tb : Table) (rest : List Table),
      htmlTables f increasing buf (tb :: rest)
        = htmlTables f increasing
            (htmlRows f (decide (tb.Metric ∈ increasing))
              (buf ++ "<tbody>\n" ++ "<tr><th/>" ++ "<th colspan='2' class='metric'>"
                ++ EscapeString tb.Metric ++ "</th><th>delta</th>\n</tr>\n")
              "" tb.Rows ++ "</tbody>\n") rest
      ∧ mdTables f buf (tb :: rest)
        = mdTables f (mdRows f (buf ++ "| | " ++ tb.Metric ++ " | | delta |\n") "" tb.Rows)
            rest)
    ∧ (∀ (rows : List Row) (i : Nat) (row : Row), rows[i]? = some row →
      rowItems rows
        = rowItems (rows.take i)
          ++ (if row.Group ≠ (if i = 0 then ""
                else ((rows[i - 1]?).map (fun r => r.Group)).getD "")
              then [Item.group row.Group, Item.data row] else [Item.data row])
          ++ rowItemsFrom row.Group (rows.drop (i + 1)))
    ∧ (∀ rows : List Row, ContiguousGroups (rows.map (fun r => r.Group)) →
      (∀ row ∈ rows, row.Group ≠ "") →
      ∀ row ∈ rows, ((rowItems rows).filterMap Item.label?).count row.Group = 1) := by
  refine ⟨?_, ?_, ?_, ?_, ?_⟩
  · intro buf b rows
    exact htmlRows_eq f b buf "" rows
  · intro buf rows
    exact mdRows_eq f buf "" rows
  · intro buf tb rest
    exact ⟨rfl, rfl⟩
  · intro rows i row h
    exact rowItemsFrom_split rows "" i row h
  · intro rows hc hne row hrow
    have hc' : ContiguousGroups ("" :: rows.map (fun r => r.Group)) := by
      apply contiguous_cons_empty _ hc
      intro g hg
      obtain ⟨r, hr, rfl⟩ := List.mem_map.mp hg
      exact hne r hr
    have := (labels_count rows "" hc').2 row.Group (hne row hrow)
    rw [rowItems, this, if_pos (List.mem_map.mpr ⟨row, hrow, rfl⟩)]

theorem contiguous_sample :
    ContiguousGroups (([groupRow "BenchmarkA" "pkg1", groupRow "BenchmarkB" "pkg1",
      groupRow "BenchmarkC" "pkg2"]).map (fun r => r.Group)) := by
  simp [ContiguousGroups, groupRow]

theorem groups_nonempty_sample :
    ∀ row ∈ [groupRow "BenchmarkA" "pkg1", groupRow "BenchmarkB" "pkg1",
      groupRow "BenchmarkC" "pkg2"], row.Group ≠ "" := by
  intro row hrow
  simp only [List.mem_cons, List.mem_singleton, List.not_mem_nil, or_false] at hrow
  rcases hrow with rfl | rfl | rfl <;> decide

/-- Witness of C16: three rows in the groups `pkg1`, `pkg1`, `pkg2`; the items are the label
`pkg1`, two data rows, the label `pkg2` and one data row, and the label `pkg1` is written
once. -/
theorem renderers_group_label_rows_witness :
    ContiguousGroups (([groupRow "BenchmarkA" "pkg1", groupRow "BenchmarkB" "pkg1",
      groupRow "BenchmarkC" "pkg2"]).map (fun r => r.Group))
    ∧ (∀ row ∈ [groupRow "BenchmarkA" "pkg1", groupRow "BenchmarkB" "pkg1",
        groupRow "BenchmarkC" "pkg2"], row.Group ≠ "")
    ∧ groupRow "BenchmarkB" "pkg1" ∈ [groupRow "BenchmarkA" "pkg1",
        groupRow "BenchmarkB" "pkg1", groupRow "BenchmarkC" "pkg2"]
    ∧ ((rowItems [groupRow "BenchmarkA" "pkg1", groupRow "BenchmarkB" "pkg1",
        groupRow "BenchmarkC" "pkg2"]).filterMap Item.label?).count
          (groupRow "BenchmarkB" "pkg1").Group = 1
    ∧ rowItems [groupRow "BenchmarkA" "pkg1", groupRow "BenchmarkB" "pkg1",
        groupRow "BenchmarkC" "pkg2"]
      = [Item.group "pkg1", Item.data (groupRow "BenchmarkA" "pkg1"),
          Item.data (groupRow "BenchmarkB" "pkg1"), Item.group "pkg2",
          Item.data (groupRow "BenchmarkC" "pkg2")] :=
  ⟨contiguous_sample, groups_nonempty_sample, by simp,
   (renderers_group_label_rows sampleFormatter []).2.2.2.2
     [groupRow "BenchmarkA" "pkg1", groupRow "BenchmarkB" "pkg1", groupRow "BenchmarkC" "pkg2"]
     contiguous_sample groups_nonempty_sample (groupRow "BenchmarkB" "pkg1") (by simp),
   by simp [rowItems, rowItemsFrom, groupRow]⟩

/-! ## Claims on the Markdown lines -/

theorem countPipes_append (a b : String) : countPipes (a ++ b) = countPipes a + countPipes b := by
  simp [countPipes, String.data_append, List.count_append]

theorem countPipes_concatAll (l : List String) :
    countPipes (concatAll l) = (l.map countPipes).sum := by
  induction l with
  | nil => rfl
  | cons s rest ih => simp [concatAll, countPipes_append, ih]

theorem sum_map_eq_length {α : Type} (l : List α) (g : α → Nat) (h : ∀ x ∈ l, g x = 1) :
    (l.map g).sum = l.length := by
  induction l with
  | nil => rfl
  | cons a rest ih =>
    simp only [List.map_cons, List.sum_cons, List.length_cons]
    rw [h a (List.mem_cons_self _ _), ih (fun x hx => h x (List.mem_cons_of_mem _ hx))]
    omega

theorem mdMetrics_eq (f : Formatter) (scaler : Scaler) (metrics : List Metrics) :
    mdMetrics f scaler "" metrics
      = concatAll (metrics.map (fun m =>
          "| " ++ f.FormatMean m scaler ++ " ± " ++ f.FormatDiff m)) := by
  induction metrics with
  | nil => rfl
  | cons m rest ih =>
    simp only [mdMetrics, List.map_cons, concatAll]
    rw [mdMetrics_append, ih]
    simp [String.append_assoc]

theorem countPipes_mdHeaderLine (configs : List String)
    (h : ∀ c ∈ configs, countPipes c = 0) :
    countPipes (mdHeaderLine configs) = configs.length + 3 := by
  have h1 : countPipes "| |" = 2 := by decide
  have h2 : countPipes " |\n" = 1 := by decide
  have h3 : countPipes " " = 0 := by decide
  have h4 : countPipes " |" = 1 := by decide
  unfold mdHeaderLine
  rw [countPipes_append, countPipes_append, countPipes_concatAll, List.map_map,
    sum_map_eq_length, h1, h2]
  · omega
  · intro c hc
    simp only [Function.comp, countPipes_append, h3, h4, h c hc]

theorem countPipes_mdDelimiterLine (n : Nat) : countPipes (mdDelimiterLine n) = n + 1 := by
  have h1 : countPipes "|" = 1 := by decide
  have h2 : countPipes "\n" = 0 := by decide
  have h3 : countPipes "--|" = 1 := by decide
  unfold mdDelimiterLine
  rw [countPipes_append, countPipes_append, countPipes_concatAll, sum_map_eq_length, h1, h2]
  · simp; omega
  · intro x hx
    rw [List.eq_of_mem_replicate hx, h3]

theorem countPipes_mdItem_data (f : Formatter) (row : Row)
    (hb : countPipes row.Benchmark = 0) (hd : countPipes row.Delta = 0)
    (hn : countPipes row.Note = 0)
    (hm : ∀ m ∈ row.Metrics, countPipes (f.FormatMean m row.Scaler) = 0
      ∧ countPipes (f.FormatDiff m) = 0) :
    countPipes (mdItem f (Item.data row)) = row.Metrics.length + 2 := by
  have h1 : countPipes "| " = 1 := by decide
  have h2 : countPipes " ± " = 0 := by decide
  have h3 : countPipes " | " = 1 := by decide
  have h4 : countPipes " " = 0 := by decide
  have h5 : countPipes " |\n" = 1 := by decide
  rw [mdItem_data, mdMetrics_eq]
  simp only [countPipes_append, countPipes_concatAll, List.map_map]
  rw [sum_map_eq_length, hb, hd, hn, h3, h4, h5]
  · omega
  · intro m hmem
    simp only [Function.comp, countPipes_append, h1, h2, (hm m hmem).1, (hm m hmem).2]

theorem head_mdHeaderLine (configs : List String) :
    (mdHeaderLine configs).data.head? = some '|' := by
  have h : ("| |" : String).data = ['|', ' ', '|'] := rfl
  simp [mdHeaderLine, String.data_append, h]

theorem head_mdDelimiterLine (n : Nat) : (mdDelimiterLine n).data.head? = some '|' := by
  have h : ("|" : String).data = ['|'] := rfl
  simp [mdDelimiterLine, String.data_append, h]

/-- C17 (code defect): `FormatMarkdown` writes the benchmark name of a data row without
the opening `| ` that the header, delimiter, metric and group-label lines start with. For the
one-row table over the configurations `old` and `new`, whose strings contain no `|` and whose
row has one metric per configuration, the data line starts with the benchmark name, not with
`|`, and contains 4 characters `|`, not `len(Configs) + 3 = 5`. -/
theorem formatMarkdown_data_line_missing_pipe :
    FormatMarkdown sampleFormatter ""
        [fooTable "ns/op" (fooRow 100 150 50 "+50.00%")] true []
      = "| | old | new | |\n"
        ++ "|--|--|--|--|\n"
        ++ "| | ns/op | | delta |\n"
        ++ "BenchmarkFoo| 1.00 ± 0%| 1.00 ± 0% | +50.00%  |\n"
    ∧ mdItem sampleFormatter (Item.data (fooRow 100 150 50 "+50.00%"))
      = "BenchmarkFoo| 1.00 ± 0%| 1.00 ± 0% | +50.00%  |\n"
    ∧ (fooRow 100 150 50 "+50.00%").Metrics.length
      = (fooTable "ns/op" (fooRow 100 150 50 "+50.00%")).Configs.length
    ∧ countPipes (mdItem sampleFormatter (Item.data (fooRow 100 150 50 "+50.00%"))) = 4
    ∧ (fooTable "ns/op" (fooRow 100 150 50 "+50.00%")).Configs.length + 3 = 5
    ∧ (mdItem sampleFormatter (Item.data (fooRow 100 150 50 "+50.00%"))).data.head?
      = some 'B' := by
  refine ⟨by decide, by decide, rfl, by decide, rfl, by decide⟩

/-- Pipe structure of the lines of `FormatMarkdown`. For every non-empty table list whose
configuration names contain no `|`, the output is the header line, the delimiter line and
then the tables; the header line and the delimiter line start with `|` and contain
`len(Configs) + 3` characters `|`. Every data line is the benchmark name, then `| ` and a
`mean ± spread` cell for each metric, then ` | `, the delta, a space, the note and ` |`; for a
row with one metric per configuration whose strings contain no `|` it contains
`len(Configs) + 2` characters `|`. -/
theorem formatMarkdown_pipe_rows (f : Formatter) (buf : String) (first : Table)
    (rest : List Table) (colorized : Bool) (increasing : StringSet)
    (hconf : ∀ c ∈ first.Configs, countPipes c = 0) :
    FormatMarkdown f buf (first :: rest) colorized increasing
      = buf ++ mdHeaderLine first.Configs ++ mdDelimiterLine (first.Configs.length + 2)
        ++ concatAll ((first :: rest).map (fun tb =>
            "| | " ++ tb.Metric ++ " | | delta |\n"
              ++ concatAll ((rowItems tb.Rows).map (mdItem f))))
    ∧ (mdHeaderLine first.Configs).data.head? = some '|'
    ∧ countPipes (mdHeaderLine first.Configs) = first.Configs.length + 3
    ∧ (mdDelimiterLine (first.Configs.length + 2)).data.head? = some '|'
    ∧ countPipes (mdDelimiterLine (first.Configs.length + 2)) = first.Configs.length + 3
    ∧ (∀ tb ∈ first :: rest, ∀ row ∈ tb.Rows,
        mdItem f (Item.data row)
          = row.Benchmark
            ++ concatAll (row.Metrics.map (fun m =>
                "| " ++ f.FormatMean m row.Scaler ++ " ± " ++ f.FormatDiff m))
            ++ " | " ++ row.Delta ++ " " ++ row.Note ++ " |\n"
        ∧ (row.Metrics.length = first.Configs.length →
            countPipes row.Benchmark = 0 → countPipes row.Delta = 0 →
            countPipes row.Note = 0 →
            (∀ m ∈ row.Metrics, countPipes (f.FormatMean m row.Scaler) = 0
              ∧ countPipes (f.FormatDiff m) = 0) →
            countPipes (mdItem f (Item.data row)) = first.Configs.length + 2)) := by
  refine ⟨?_, head_mdHeaderLine _, countPipes_mdHeaderLine _ hconf, head_mdDelimiterLine _,
    countPipes_mdDelimiterLine _, ?_⟩
  · rw [FormatMarkdown_cons]
    rfl
  · intro tb _ row _
    refine ⟨?_, ?_⟩
    · rw [mdItem_data, mdMetrics_eq]
    · intro hlen hb hd hn hm
      rw [countPipes_mdItem_data f row hb hd hn hm, hlen]

/-- The pipe structure on the one-row table over the configurations `old` and `new`: the
header and delimiter lines have 5 characters `|`, the data line has 4. -/
theorem formatMarkdown_pipe_rows_sample :
    (∀ c ∈ (fooTable "ns/op" (fooRow 100 150 50 "+50.00%")).Configs, countPipes c = 0)
    ∧ countPipes (mdHeaderLine (fooTable "ns/op" (fooRow 100 150 50 "+50.00%")).Configs)
      = (fooTable "ns/op" (fooRow 100 150 50 "+50.00%")).Configs.length + 3
    ∧ countPipes (mdDelimiterLine
        ((fooTable "ns/op" (fooRow 100 150 50 "+50.00%")).Configs.length + 2))
      = (fooTable "ns/op" (fooRow 100 150 50 "+50.00%")).Configs.length + 3
    ∧ countPipes (mdItem sampleFormatter (Item.data (fooRow 100 150 50 "+50.00%")))
      = (fooTable "ns/op" (fooRow 100 150 50 "+50.00%")).Configs.length + 2 := by
  have hconf : ∀ c ∈ (fooTable "ns/op" (fooRow 100 150 50 "+50.00%")).Configs,
      countPipes c = 0 := by decide
  have h := formatMarkdown_pipe_rows sampleFormatter ""
    (fooTable "ns/op" (fooRow 100 150 50 "+50.00%")) [] true [] hconf
  refine ⟨hconf, h.2.2.1, h.2.2.2.2.1, ?_⟩
  exact (h.2.2.2.2.2 (fooTable "ns/op" (fooRow 100 150 50 "+50.00%")) (by simp)
    (fooRow 100 150 50 "+50.00%") (by simp [fooTable])).2 rfl (by decide) (by decide)
    (by decide) (by decide)

/-! ## Claims on HTML escaping -/

theorem concatAll_flatMap {α : Type} (l : List α) (g : α → List Piece) :
    concatAll ((l.flatMap g).map Piece.render)
      = concatAll (l.map (fun x => concatAll ((g x).map Piece.render))) := by
  induction l with
  | nil => rfl
  | cons a rest ih =>
    simp only [List.flatMap_cons, List.map_append, concatAll_append, List.map_cons, concatAll, ih]

theorem htmlMetrics_eq (f : Formatter) (scaler : Scaler) (metrics : List Metrics) :
    htmlMetrics f scaler "" metrics
      = concatAll ((metrics.flatMap (htmlMetricPieces f scaler)).map Piece.render) := by
  induction metrics with
  | nil => rfl
  | cons m rest ih =>
    simp only [htmlMetrics, List.flatMap_cons, List.map_append, concatAll_append]
    rw [htmlMetrics_append, ih]
    simp [htmlMetricPieces, Piece.render, concatAll, String.append_assoc]

theorem htmlItem_pieces (f : Formatter) (b : Bool) (item : Item) :
    htmlItem f b item = concatAll ((htmlItemPieces f b item).map Piece.render) := by
  cases item with
  | group label =>
    simp [htmlItem, htmlItemPieces, Piece.render, concatAll, String.append_assoc]
  | data row =>
    rw [htmlItem_data, htmlMetrics_eq]
    simp [htmlItemPieces, Piece.render, concatAll, concatAll_append, String.append_assoc]

theorem htmlTableText_pieces (f : Formatter) (increasing : StringSet) (tb : Table) :
    htmlTableText f increasing tb
      = concatAll ((htmlTablePieces f increasing tb).map Piece.render) := by
  unfold htmlTableText htmlTablePieces
  simp only [List.map_append, concatAll_append, concatAll_flatMap]
  have hitems : (rowItems tb.Rows).map (htmlItem f (decide (tb.Metric ∈ increasing)))
      = (rowItems tb.Rows).map (fun x =>
          concatAll ((htmlItemPieces f (decide (tb.Metric ∈ increasing)) x).map
            Piece.render)) := by
    apply List.map_congr_left
    intro x _
    exact htmlItem_pieces f _ x
  rw [hitems]
  simp only [Piece.render, concatAll, String.append_assoc, List.map_cons, List.map_nil,
    String.append_empty]

theorem htmlHead_pieces (first : Table) :
    htmlHead first
      = concatAll (([Piece.lit (if first.OldNewDelta then "<table border='1' class='benchstat'>\n"
            else "<table class='benchstat oldnew'>\n"),
          Piece.lit "<tr class='configs'><th/>"]
          ++ first.Configs.flatMap (fun c => [Piece.lit "<th>", Piece.esc c, Piece.lit "</th>"])
          ++ [Piece.lit "</tr>\n"]).map Piece.render) := by
  unfold htmlHead
  simp only [List.map_append, concatAll_append, concatAll_flatMap]
  by_cases h : first.OldNewDelta = true <;>
    simp [h, Piece.render, concatAll, String.append_assoc]

theorem FormatHTML_pieces (f : Formatter) (buf : String) (tables : List Table)
    (colorized : Bool) (increasing : StringSet) :
    FormatHTML f buf tables colorized increasing
      = buf ++ concatAll ((htmlPieces f increasing tables).map Piece.render) := by
  cases tables with
  | nil => simp [FormatHTML, htmlPieces, concatAll]
  | cons first rest =>
    rw [FormatHTML_cons, htmlHead_pieces]
    have htabs : (first :: rest).map (htmlTableText f increasing)
        = (first :: rest).map (fun tb =>
            concatAll ((htmlTablePieces f increasing tb).map Piece.render)) := by
      apply List.map_congr_left
      intro tb _
      exact htmlTableText_pieces f increasing tb
    rw [htabs]
    simp only [htmlPieces, List.map_append, concatAll_append, concatAll_flatMap]
    simp [Piece.render, concatAll, String.append_assoc]

theorem lit_mem_of_lit (t : String) (ht : t ∈ htmlLiterals) :
    ∀ s, Piece.lit t = Piece.lit s → s ∈ htmlLiterals := by
  intro s hs
  injection hs with hs
  subst hs
  exact ht

theorem lit_mem_of_esc (t : String) : ∀ s, Piece.esc t = Piece.lit s → s ∈ htmlLiterals := by
  intro s hs
  cases hs

theorem bgcolorAttr_mem (change : Int) (b : Bool) : bgcolorAttr change b ∈ htmlLiterals := by
  unfold bgcolorAttr
  split
  · cases b <;> simp [htmlLiterals]
  · split
    · cases b <;> simp [htmlLiterals]
    · simp [htmlLiterals]

theorem htmlItemPieces_lit (f : Formatter) (b : Bool) (item : Item) :
    ∀ p ∈ htmlItemPieces f b item, ∀ s, p = Piece.lit s → s ∈ htmlLiterals := by
  intro p hp
  cases item with
  | group label =>
    simp only [htmlItemPieces, List.mem_cons, List.mem_singleton, List.not_mem_nil,
      or_false] at hp
    rcases hp with rfl | rfl | rfl
    · exact lit_mem_of_lit _ (by simp [htmlLiterals])
    · exact lit_mem_of_esc _
    · exact lit_mem_of_lit _ (by simp [htmlLiterals])
  | data row =>
    simp only [htmlItemPieces, List.mem_append, List.mem_cons, List.mem_singleton,
      List.not_mem_nil, or_false, List.mem_flatMap, htmlMetricPieces] at hp
    rcases hp with ((rfl | rfl | rfl | rfl) | ⟨m, _, (rfl | rfl | rfl | rfl)⟩)
      | (rfl | rfl | rfl | rfl | rfl | rfl | rfl)
    · exact lit_mem_of_lit _ (by simp [htmlLiterals])
    · exact lit_mem_of_lit _ (bgcolorAttr_mem _ _)
    · exact lit_mem_of_lit _ (by simp [htmlLiterals])
    · exact lit_mem_of_esc _
    · exact lit_mem_of_lit _ (by simp [htmlLiterals])
    · exact lit_mem_of_esc _
    · exact lit_mem_of_lit _ (by simp [htmlLiterals])
    · exact lit_mem_of_esc _
    · exact lit_mem_of_lit _ (by simp [htmlLiterals])
    · exact lit_mem_of_lit _ (bgcolorAttr_mem _ _)
    · exact lit_mem_of_lit _ (by simp [htmlLiterals])
    · exact lit_mem_of_esc _
    · exact lit_mem_of_lit _ (by simp [htmlLiterals])
    · exact lit_mem_of_esc _
    · exact lit_mem_of_lit _ (by simp [htmlLiterals])

theorem htmlTablePieces_lit (f : Formatter) (increasing : StringSet) (tb : Table) :
    ∀ p ∈ htmlTablePieces f increasing tb, ∀ s, p = Piece.lit s → s ∈ htmlLiterals := by
  intro p hp
  simp only [htmlTablePieces, List.mem_append, List.mem_cons, List.mem_singleton,
    List.not_mem_nil, or_false, List.mem_flatMap] at hp
  rcases hp with ((rfl | rfl | rfl | rfl | rfl) | ⟨item, _, hitem⟩) | rfl
  · exact lit_mem_of_lit _ (by simp [htmlLiterals])
  · exact lit_mem_of_lit _ (by simp [htmlLiterals])
  · exact lit_mem_of_lit _ (by simp [htmlLiterals])
  · exact lit_mem_of_esc _
  · exact lit_mem_of_lit _ (by simp [htmlLiterals])
  · exact htmlItemPieces_lit f _ item p hitem
  · exact lit_mem_of_lit _ (by simp [htmlLiterals])

theorem htmlPieces_lit (f : Formatter) (increasing : StringSet) (tables : List Table) :
    ∀ p ∈ htmlPieces f increasing tables, ∀ s, p = Piece.lit s → s ∈ htmlLiterals := by
  intro p hp
  cases tables with
  | nil => simp [htmlPieces] at hp
  | cons first rest =>
    simp only [htmlPieces, List.mem_append, List.mem_cons, List.mem_singleton,
      List.not_mem_nil, or_false, List.mem_flatMap] at hp
    rcases hp with ((((rfl | rfl) | ⟨c, _, (rfl | rfl | rfl)⟩) | rfl) | ⟨tb, _, htb⟩) | rfl
    · apply lit_mem_of_lit
      by_cases h : first.OldNewDelta = true <;> simp [h, htmlLiterals]
    · exact lit_mem_of_lit _ (by simp [htmlLiterals])
    · exact lit_mem_of_lit _ (by simp [htmlLiterals])
    · exact lit_mem_of_esc _
    · exact lit_mem_of_lit _ (by simp [htmlLiterals])
    · exact lit_mem_of_lit _ (by simp [htmlLiterals])
    · exact htmlTablePieces_lit f increasing tb p htb
    · exact lit_mem_of_lit _ (by simp [htmlLiterals])

theorem escapeChar_cases (c : Char) :
    escapeChar c ∈ htmlEntities
    ∨ (escapeChar c = String.singleton c ∧ c ≠ '&' ∧ c ≠ Char.ofNat 39 ∧ c ≠ '<' ∧ c ≠ '>'
        ∧ c ≠ Char.ofNat 34) := by
  unfold escapeChar
  by_cases h1 : c = '&'
  · left; rw [if_pos h1]; simp [htmlEntities]
  · rw [if_neg h1]
    by_cases h2 : c = Char.ofNat 39
    · left; rw [if_pos h2]; simp [htmlEntities]
    · rw [if_neg h2]
      by_cases h3 : c = '<'
      · left; rw [if_pos h3]; simp [htmlEntities]
      · rw [if_neg h3]
        by_cases h4 : c = '>'
        · left; rw [if_pos h4]; simp [htmlEntities]
        · rw [if_neg h4]
          by_cases h5 : c = Char.ofNat 34
          · left; rw [if_pos h5]; simp [htmlEntities]
          · rw [if_neg h5]
            exact Or.inr ⟨rfl, h1, h2, h3, h4, h5⟩

theorem foldl_append_eq (a : String) (l : List String) :
    List.foldl (fun r s => r ++ s) a l = a ++ concatAll l := by
  induction l generalizing a with
  | nil => simp [concatAll]
  | cons s rest ih => simp [List.foldl_cons, ih, concatAll, String.append_assoc]

theorem EscapeString_eq (s : String) :
    EscapeString s = concatAll (s.data.map escapeChar) := by
  unfold EscapeString String.join
  rw [foldl_append_eq]
  simp

theorem mem_concatAll_data (l : List String) (ch : Char) (h : ch ∈ (concatAll l).data) :
    ∃ s ∈ l, ch ∈ s.data := by
  induction l with
  | nil => simp [concatAll] at h
  | cons s rest ih =>
    simp only [concatAll, String.data_append, List.mem_append] at h
    rcases h with h | h
    · exact ⟨s, List.mem_cons_self _ _, h⟩
    · obtain ⟨t, ht, hc⟩ := ih h
      exact ⟨t, List.mem_cons_of_mem _ ht, hc⟩

theorem entity_chars :
    ∀ e ∈ htmlEntities, ∀ ch ∈ e.data,
      ch ≠ '<' ∧ ch ≠ '>' ∧ ch ≠ Char.ofNat 39 ∧ ch ≠ Char.ofNat 34 := by
  decide

theorem EscapeString_chars (s : String) (ch : Char) (h : ch ∈ (EscapeString s).data) :
    ch ≠ '<' ∧ ch ≠ '>' ∧ ch ≠ Char.ofNat 39 ∧ ch ≠ Char.ofNat 34 := by
  rw [EscapeString_eq] at h
  obtain ⟨t, ht, hc⟩ := mem_concatAll_data _ ch h
  obtain ⟨c, _, rfl⟩ := List.mem_map.mp ht
  rcases escapeChar_cases c with he | ⟨he, _, h2, h3, h4, h5⟩
  · exact entity_chars _ he ch hc
  · rw [he] at hc
    have hcc : ch = c := by simpa [String.singleton] using hc
    subst hcc
    exact ⟨h3, h4, h2, h5⟩

/-- C12: every input text that `FormatHTML` writes is written through HTML escaping. The
output is the buffer followed by a sequence of pieces, each either a literal of `html.go`
(one of a fixed list of markup strings) or `html.EscapeString` of a text. The escaped text of
any string is the concatenation, character by character, of one of the five entities for
`&`, the single quote, `<`, `>` and the double quote, or of the character itself when it is
none of these; so no `<`, `>`, single quote or double quote occurs in it and every `&` in it
starts an entity. -/
theorem formatHTML_escapes_input :
    (∀ (f : Formatter) (buf : String) (tables : List Table) (colorized : Bool)
        (increasing : StringSet),
      FormatHTML f buf tables colorized increasing
        = buf ++ concatAll ((htmlPieces f increasing tables).map Piece.render))
    ∧ (∀ (f : Formatter) (increasing : StringSet) (tables : List Table),
      ∀ p ∈ htmlPieces f increasing tables, ∀ s, p = Piece.lit s → s ∈ htmlLiterals)
    ∧ (∀ s : String, EscapeString s = concatAll (s.data.map escapeChar))
    ∧ (∀ c : Char,
      escapeChar c ∈ htmlEntities
      ∨ (escapeChar c = String.singleton c ∧ c ≠ '&' ∧ c ≠ Char.ofNat 39 ∧ c ≠ '<'
          ∧ c ≠ '>' ∧ c ≠ Char.ofNat 34))
    ∧ (∀ (s : String) (ch : Char), ch ∈ (EscapeString s).data →
      ch ≠ '<' ∧ ch ≠ '>' ∧ ch ≠ Char.ofNat 39 ∧ ch ≠ Char.ofNat 34) :=
  ⟨FormatHTML_pieces, htmlPieces_lit, EscapeString_eq, escapeChar_cases, EscapeString_chars⟩

/-- Witness of C12: the benchmark name `<b>&` is written as `&lt;b&gt;&amp;`; the
character `b` of the escaped text is none of the markup characters, and the literal
`<tbody>` of the output of the one-row table is one of the literals of `html.go`. -/
theorem formatHTML_escapes_input_witness :
    EscapeString "<b>&" = "&lt;b&gt;&amp;"
    ∧ 'b' ∈ (EscapeString "<b>&").data
    ∧ ('b' ≠ '<' ∧ 'b' ≠ '>' ∧ 'b' ≠ Char.ofNat 39 ∧ 'b' ≠ Char.ofNat 34)
    ∧ Piece.lit "<tbody>\n"
        ∈ htmlPieces sampleFormatter [] [fooTable "ns/op" (fooRow 100 150 50 "+50.00%")]
    ∧ "<tbody>\n" ∈ htmlLiterals :=
  ⟨by decide, by decide,
   formatHTML_escapes_input.2.2.2.2 "<b>&" 'b' (by decide),
   by simp [htmlPieces, htmlTablePieces],
   formatHTML_escapes_input.2.1 sampleFormatter []
     [fooTable "ns/op" (fooRow 100 150 50 "+50.00%")] (Piece.lit "<tbody>\n")
     (by simp [htmlPieces, htmlTablePieces]) "<tbody>\n" rfl⟩

end QBenchstat
